import Mathlib

/-!
# NativeParser (code completion plugin): registry and resolver

A shallow embedding of `src/plugins/codecompletion/nativeparser.cpp`.

* Pointers (`cbProject*`, `ParserBase*`, `cbStyledTextCtrl*`) are natural numbers, `0` is
  `nullptr`.  The parser objects live in a total heap `ParserPtr → Parser`.
* `wxString` is a list of characters.
* `int` values are `Int`; `size_t` and `unsigned int` values are `Nat` (no arithmetic in the
  modelled code can overflow a 32 bit value on inputs that fit in memory).
* The member functions keep the names of the source and pass the `NativeParser` object
  explicitly.
-/

set_option autoImplicit false

/-! ## Basic types -/

/-- A `wxString`. -/
abbrev wxString := List Char

/-- A `cbProject*`; `0` is `nullptr` (the "project" of stand-alone files). -/
abbrev ProjectPtr := Nat

/-- A `ParserBase*`; `0` is `nullptr`. -/
abbrev ParserPtr := Nat

/-- The `wxIsspace` of the source: the white space of the C locale. -/
def wxIsspace (c : Char) : Bool :=
  c = ' ' || c = '\t' || c = '\n' || c = '\x0b' || c = '\x0c' || c = '\r'

/-- The `wxString::Trim()` of the source (trim from the right): drops trailing white space. -/
def wxTrim (s : wxString) : wxString :=
  (s.reverse.dropWhile wxIsspace).reverse

/-! ## Tokens and the token tree -/

/-- Modelled from the spec: the token kinds of `token.h` (not among the sources), §3 "kind". -/
inductive TokenKind where
  | tkNamespace | tkClass | tkEnum | tkTypedef | tkConstructor | tkDestructor | tkFunction
  | tkVariable | tkEnumerator | tkMacroDef | tkMacroUse | tkUndefined
  deriving DecidableEq, Repr

/-- Modelled from the spec: the wildcard category "any function" of `token.h`
(`token->m_TokenKind & tkAnyFunction`). -/
def TokenKind.isAnyFunction : TokenKind → Bool
  | .tkFunction | .tkConstructor | .tkDestructor => true
  | _ => false

/-- Modelled from the spec: the mask `tkAnyFunction | tkClass`. -/
def TokenKind.isAnyFunctionOrClass (k : TokenKind) : Bool :=
  k.isAnyFunction || k = .tkClass

/-- Modelled from the spec: the mask `tkNamespace | tkClass | tkTypedef`. -/
def TokenKind.isNamespaceClassTypedef : TokenKind → Bool
  | .tkNamespace | .tkClass | .tkTypedef => true
  | _ => false

/-- Modelled from the spec: a `Token` of `token.h` (not among the sources), with the attributes
that `nativeparser.cpp` reads.  `m_Namespace` stands for `GetNamespace()`. -/
structure Token where
  m_TokenKind : TokenKind
  m_Name : wxString
  m_Namespace : wxString
  m_Args : wxString
  m_ParentIndex : Int
  m_Index : Int
  m_ImplLine : Nat
  m_ImplLineStart : Nat
  m_ImplLineEnd : Nat
  m_IsTemp : Bool
  m_Filename : wxString
  deriving DecidableEq, Repr

/-- Modelled from the spec: the `TokenTree` of `tokentree.h` (not among the sources): a vector of
slots, a removed token leaves an empty slot. -/
structure TokenTree where
  m_Tokens : List (Option Token)
  deriving DecidableEq, Repr

/-- Modelled from the spec: `TokenTree::at(index) → Token|null`. -/
def TokenTree.at (tree : TokenTree) (idx : Int) : Option Token :=
  if idx < 0 then none else (tree.m_Tokens.getD idx.toNat none)

/-- Modelled from the spec: `TokenTree::size()`. -/
def TokenTree.size (tree : TokenTree) : Nat := tree.m_Tokens.length

/-- Modelled from the spec: `TokenTree::clear()`. -/
def TokenTree.clear (_tree : TokenTree) : TokenTree := ⟨[]⟩

/-- Modelled from the spec: `TokenExists(name, parentScope, kindMask) → index|-1` for the one mask
the source passes (`tkNamespace`): the first namespace token of that name and parent. -/
def TokenTree.TokenExists (tree : TokenTree) (name : wxString) (parent : Int) (kind : TokenKind) :
    Int :=
  match tree.m_Tokens.find?
      (fun t => match t with
        | some tk => tk.m_Name = name && tk.m_ParentIndex = parent && tk.m_TokenKind = kind
        | none => false) with
  | some (some tk) => tk.m_Index
  | _ => -1

/-! ## Parser objects -/

/-- The five options `RereadParserOptions` compares (`ParserOptions` of `parser_base.h`). -/
structure ParserOptions where
  followLocalIncludes : Bool
  followGlobalIncludes : Bool
  wantPreprocessor : Bool
  parseComplexMacros : Bool
  platformCheck : Bool
  deriving DecidableEq, Repr

/-- Modelled from the spec: a `Parser` object (§3 "Parser"): its two token trees, its
parsing-progress state and the files it has parsed. -/
structure Parser where
  done : Bool
  tokenTree : TokenTree
  tempTokenTree : TokenTree
  parsedFiles : List wxString
  options : ParserOptions
  deriving DecidableEq, Repr

/-- Modelled from the spec: `ParserBase::IsFileParsed`. -/
def Parser.IsFileParsed (p : Parser) (filename : wxString) : Bool :=
  decide (filename ∈ p.parsedFiles)

/-! ## The editor control -/

/-- Lexical style classes of a character of the editor buffer. -/
inductive Style where
  | code | string | character | comment | preprocessor
  deriving DecidableEq, Repr

/-- Modelled from the spec: the editor widget (`cbStyledTextCtrl`, not among the sources), §6:
text, per-character style, caret position and modification flag; `id` is the address of the
control. -/
structure cbStyledTextCtrl where
  id : Nat
  text : List Char
  styles : List Style
  currentPos : Int
  modify : Bool
  deriving DecidableEq, Repr

/-- A built-in editor (`cbEditor`): the parent project of its project file (`0` when it has
none), its file name and its control. -/
structure cbEditor where
  parentProject : ProjectPtr
  filename : wxString
  control : cbStyledTextCtrl
  deriving DecidableEq, Repr

/-- What `nativeparser.cpp` reads from the IDE managers (`Manager::Get()->...`) and from the
configuration. -/
structure Ide where
  /-- The result of `GetEditorManager()->GetBuiltinActiveEditor()`. -/
  activeEditor : Option cbEditor
  /-- The result of `GetProjectManager()->GetActiveProject()`. -/
  activeProject : ProjectPtr
  /-- The array `GetProjectManager()->GetProjects()`. -/
  projects : List ProjectPtr
  /-- Whether `project->GetFileByFilename(filename, false, true)` is not null. -/
  projectHasFile : ProjectPtr → wxString → Bool
  /-- The value `cfg->ReadInt("/max_parsers", 5)` converted to `size_t`. -/
  maxParsers : Nat
  /-- The value `cfg->ReadBool("/parser_per_workspace", false)`. -/
  parserPerWorkspace : Bool
  /-- The options `Parser::ReadOptions` reads from the configuration. -/
  parserOptions : ParserOptions
  /-- Whether the answer to the "Reparse?" message box is `wxID_YES`. -/
  answerYes : Bool

/-! ## The NativeParser object -/

/-- One call `m_Parser->ParseBuffer(buffer, isLocal, bufferSkipBlocks, isTemp, filename,
parentIdx, initLine)`. -/
structure BufferParse where
  buffer : wxString
  isLocal : Bool
  bufferSkipBlocks : Bool
  isTemp : Bool
  filename : wxString
  parentIdx : Int
  initLine : Int
  deriving DecidableEq, Repr

/-- The state of a `NativeParser` object together with the heap of parser objects.
`deleted` is a ghost log of the pointers passed to `delete`, `parses` a ghost log of the calls
of `ParseBuffer`, the latest first. -/
structure NativeParser where
  m_ParserList : List (ProjectPtr × ParserPtr)
  m_ParsedProjects : List ProjectPtr
  m_ParserPerWorkspace : Bool
  m_TempParser : ParserPtr
  m_Parser : ParserPtr
  heap : ParserPtr → Parser
  deleted : List ParserPtr
  parses : List BufferParse
  m_LastAISearchWasGlobal : Bool
  m_LastAIGlobalSearch : wxString
  m_LastControl : Nat
  m_LastFunctionIndex : Int
  m_LastFuncTokenIdx : Int
  m_LastLine : Int
  m_LastResult : Int
  m_LastFile : wxString
  m_LastNamespace : wxString
  m_LastPROC : wxString

/-- A parser object with empty token trees that is done. -/
def Parser.empty : Parser :=
  { done := true, tokenTree := ⟨[]⟩, tempTokenTree := ⟨[]⟩, parsedFiles := [],
    options := ⟨false, false, false, false, false⟩ }

/-- The constructor `NativeParser::NativeParser()`: the fallback parser is allocated at `temp`
and made active, the mode is read from the configuration. -/
def NativeParser.init (temp : ParserPtr) (perWorkspace : Bool) : NativeParser :=
  { m_ParserList := [], m_ParsedProjects := [], m_ParserPerWorkspace := perWorkspace,
    m_TempParser := temp, m_Parser := temp, heap := fun _ => Parser.empty, deleted := [], parses := [],
    m_LastAISearchWasGlobal := false, m_LastAIGlobalSearch := [], m_LastControl := 0,
    m_LastFunctionIndex := -1, m_LastFuncTokenIdx := -1, m_LastLine := -1, m_LastResult := -1,
    m_LastFile := [], m_LastNamespace := [], m_LastPROC := [] }

/-- The object `*m_Parser`. -/
def NativeParser.parser (s : NativeParser) : Parser := s.heap s.m_Parser

/-- Writes the object `*m_Parser`. -/
def NativeParser.setParserObj (s : NativeParser) (p : Parser) : NativeParser :=
  { s with heap := Function.update s.heap s.m_Parser p }

/-! ## The `std::set<cbProject*>` of merged projects -/

/-- The `std::set::insert`. -/
def setInsert (a : ProjectPtr) (l : List ProjectPtr) : List ProjectPtr :=
  if a ∈ l then l else l.orderedInsert (fun x y => x ≤ y) a

/-- The `std::set::erase` by key. -/
def setErase (a : ProjectPtr) (l : List ProjectPtr) : List ProjectPtr :=
  l.filter (fun x => x ≠ a)

/-- The `m_ParserList.begin()->second`; on an empty list the source dereferences `end()`, which
is undefined: the model yields `nullptr` there. -/
def beginSecond (l : List (ProjectPtr × ParserPtr)) : ParserPtr :=
  match l with
  | [] => 0
  | it :: _ => it.2

/-! ## Registry lookups -/

def GetParserByProject (s : NativeParser) (project : ProjectPtr) : ParserPtr :=
  if s.m_ParserPerWorkspace then
    if project ∈ s.m_ParsedProjects then beginSecond s.m_ParserList else 0
  else
    match s.m_ParserList.find? (fun it => it.1 = project) with
    | some it => it.2
    | none => 0

def GetProjectByParser (s : NativeParser) (parser : ParserPtr) : ProjectPtr :=
  match s.m_ParserList.find? (fun it => it.2 = parser) with
  | some it => it.1
  | none => 0

/-- The loop over `projs` of `GetProjectByFilename`. -/
def GetProjectByFilename.loop (s : NativeParser) (ide : Ide) (filename : wxString) :
    List ProjectPtr → ProjectPtr
  | [] => 0
  | project :: rest =>
    if project = 0 || project = ide.activeProject then GetProjectByFilename.loop s ide filename rest
    else
      let parser := GetParserByProject s project
      if (parser ≠ 0 && (s.heap parser).IsFileParsed filename)
          || ide.projectHasFile project filename then project
      else GetProjectByFilename.loop s ide filename rest

def GetProjectByFilename (s : NativeParser) (ide : Ide) (filename : wxString) : ProjectPtr :=
  let activeProject := ide.activeProject
  if activeProject ≠ 0 then
    let parser := GetParserByProject s activeProject
    if (parser ≠ 0 && (s.heap parser).IsFileParsed filename)
        || ide.projectHasFile activeProject filename then activeProject
    else GetProjectByFilename.loop s ide filename ide.projects
  else 0

def GetProjectByEditor (s : NativeParser) (ide : Ide) (editor : Option cbEditor) : ProjectPtr :=
  match editor with
  | none => 0
  | some ed =>
    if ed.parentProject ≠ 0 then ed.parentProject
    else GetProjectByFilename s ide ed.filename

def GetCurrentProject (s : NativeParser) (ide : Ide) : ProjectPtr :=
  let project := GetProjectByEditor s ide ide.activeEditor
  if project = 0 then ide.activeProject else project

def GetParserInfoByCurrentEditor (s : NativeParser) (ide : Ide) : ProjectPtr × ParserPtr :=
  match ide.activeEditor with
  | some ed =>
    let first := GetProjectByEditor s ide (some ed)
    (first, GetParserByProject s first)
  | none => (0, 0)

/-! ## Switching the active parser -/

/-- Modelled from the spec: `NativeParserBase::RemoveLastFunctionChildren` (not among the
sources), §5 "swept (removed from the tree, parented subtree of the previous function)": when
the previous function token exists, its temporary children are removed from the tree. -/
def RemoveLastFunctionChildren (tree : TokenTree) (lastFuncTokenIdx : Int) : TokenTree :=
  match tree.at lastFuncTokenIdx with
  | none => tree
  | some _ =>
    ⟨tree.m_Tokens.map (fun t => match t with
      | some tk => if tk.m_IsTemp && tk.m_ParentIndex = lastFuncTokenIdx then none else some tk
      | none => none)⟩

/-- The `InitCCSearchVariables` of the source (its call of the base class `Reset()` touches no
modelled field). -/
def InitCCSearchVariables (s : NativeParser) : NativeParser :=
  { s with m_LastControl := 0, m_LastFunctionIndex := -1, m_LastLine := -1, m_LastResult := -1,
           m_LastFile := [], m_LastNamespace := [], m_LastPROC := [] }

/-- The `SetParser` of the source (its notification of the class browser touches no modelled
field). -/
def SetParser (s : NativeParser) (parser : ParserPtr) : NativeParser :=
  if s.m_Parser = parser then s
  else
    let s1 :=
      if s.m_Parser ≠ 0 then
        s.setParserObj { s.parser with
          tokenTree := RemoveLastFunctionChildren s.parser.tokenTree s.m_LastFuncTokenIdx }
      else s
    let s2 := InitCCSearchVariables s1
    { s2 with m_Parser := parser }

def SwitchParser (s : NativeParser) (project : ProjectPtr) (parser : ParserPtr) :
    Bool × NativeParser :=
  if parser = 0 || parser = s.m_Parser || GetParserByProject s project ≠ parser then (false, s)
  else (true, SetParser s parser)

/-! ## Deleting parsers -/

/-- The registry part of `RemoveProjectFromParser`; the per-file removal that follows acts inside
the shared parser object only. -/
def RemoveProjectFromParser (s : NativeParser) (project : ProjectPtr) : Bool × NativeParser :=
  let parser := GetParserByProject s project
  if parser = 0 then (false, s)
  else (true, { s with m_ParsedProjects := setErase project s.m_ParsedProjects })

/-- The position of the iterator `it` of `DeleteParser` after its search loop: `begin()` in
workspace mode, the first pair of `project` in project mode; `none` is `end()`. -/
def DeleteParser.findIt (s : NativeParser) (project : ProjectPtr) : Option Nat :=
  if s.m_ParserPerWorkspace then
    (if s.m_ParserList.isEmpty then none else some 0)
  else
    s.m_ParserList.findIdx? (fun it => it.1 = project)

def DeleteParser (s : NativeParser) (project : ProjectPtr) : Bool × NativeParser :=
  match DeleteParser.findIt s project with
  | none => (false, s)
  | some i =>
    let r := if s.m_ParserPerWorkspace then RemoveProjectFromParser s project else (false, s)
    let removeProjectFromParser := r.1
    let s1 := r.2
    if s1.m_ParsedProjects.isEmpty then
      let itSecond := (s1.m_ParserList.getD i (0, 0)).2
      -- delete it->second
      let s2 := { s1 with deleted := itSecond :: s1.deleted }
      let s3 := if itSecond = s2.m_Parser then SetParser { s2 with m_Parser := 0 } s2.m_TempParser
                else s2
      (true, { s3 with m_ParserList := s3.m_ParserList.eraseIdx i })
    else if removeProjectFromParser then (true, s1)
    else (false, s1)

/-- The loop of `ClearParsers`; every successful `DeleteParser` removes a pair or a merged
project, so `fuel` larger than their number is never used up. -/
def ClearParsers.loop : Nat → NativeParser → NativeParser
  | 0, s => s
  | fuel + 1, s =>
    if s.m_ParserPerWorkspace then
      match s.m_ParsedProjects with
      | [] => s
      | p :: _ =>
        let r := DeleteParser s p
        if r.1 then ClearParsers.loop fuel r.2 else r.2
    else
      match s.m_ParserList with
      | [] => s
      | it :: _ =>
        let r := DeleteParser s it.1
        if r.1 then ClearParsers.loop fuel r.2 else r.2

def ClearParsers (s : NativeParser) : NativeParser :=
  ClearParsers.loop (s.m_ParserList.length + s.m_ParsedProjects.length + 1) s

/-- The `for` loop of `RemoveObsoleteParsers` over the pairs from `it` on: `some` is the state
after the first successful `DeleteParser` (`deleted = true`), `none` means that no pair could be
deleted.  A failed `DeleteParser` leaves the list as it is, so the iteration runs over the pairs
that were in the list when the loop started. -/
def RemoveObsoleteParsers.forLoop (infoSecond : ParserPtr) :
    List (ProjectPtr × ParserPtr) → NativeParser → Option NativeParser
  | [], _ => none
  | it :: rest, s =>
    if it.2 = infoSecond then RemoveObsoleteParsers.forLoop infoSecond rest s
    else
      let r := DeleteParser s it.1
      if r.1 then some r.2 else RemoveObsoleteParsers.forLoop infoSecond rest r.2

/-- The `while` loop of `RemoveObsoleteParsers`. -/
def RemoveObsoleteParsers.whileLoop (infoSecond : ParserPtr) (maxParsers : Nat) :
    Nat → NativeParser → NativeParser
  | 0, s => s
  | fuel + 1, s =>
    if s.m_ParserList.length > maxParsers then
      match RemoveObsoleteParsers.forLoop infoSecond s.m_ParserList s with
      | some s1 => RemoveObsoleteParsers.whileLoop infoSecond maxParsers fuel s1
      | none => s
    else s

def RemoveObsoleteParsers (s : NativeParser) (ide : Ide) : NativeParser :=
  let info := GetParserInfoByCurrentEditor s ide
  RemoveObsoleteParsers.whileLoop info.2 ide.maxParsers
    (s.m_ParserList.length + s.m_ParsedProjects.length + 1) s

/-! ## Creating parsers -/

/-- The result of `DoFullParsing`: it fails only on a null parser; what it does to the new parser
object is part of the object handed to `CreateParser`. -/
def DoFullParsing (_project : ProjectPtr) (parser : ParserPtr) : Bool :=
  parser ≠ 0

/-- The statements of `CreateParser` between the full parsing and the eviction: the new parser
is made active when the active one is the fallback, the project is put into the merged set in
workspace mode, and the pair is pushed to the back of the list. -/
def CreateParser.register (s : NativeParser) (project : ProjectPtr) (parser : ParserPtr) :
    NativeParser :=
  let s2 := if s.m_Parser = s.m_TempParser then SetParser s parser else s
  let s3 := if s2.m_ParserPerWorkspace then
              { s2 with m_ParsedProjects := setInsert project s2.m_ParsedProjects }
            else s2
  { s3 with m_ParserList := s3.m_ParserList ++ [(project, parser)] }

/-- The `CreateParser` of the source; `newp` is the address that `new Parser(this, project)`
returns and `newObj` the object after construction and `DoFullParsing`. -/
def CreateParser (s : NativeParser) (ide : Ide) (project : ProjectPtr) (newp : ParserPtr)
    (newObj : Parser) : ParserPtr × NativeParser :=
  if GetParserByProject s project ≠ 0 then (0, s)
  else if s.m_ParserPerWorkspace && !s.m_ParsedProjects.isEmpty then
    (beginSecond s.m_ParserList, s)
  else
    let parser := newp
    let s1 := { s with heap := Function.update s.heap parser newObj }
    if !DoFullParsing project parser then
      (0, { s1 with deleted := parser :: s1.deleted })
    else
      (parser, RemoveObsoleteParsers (CreateParser.register s1 project parser) ide)

/-- The registry part of `AddProjectToParser`; `updateOk` is the result of
`parser->UpdateParsingProject(project)` and `added` the value the function returns after adding
the files of the project to the shared parser object. -/
def AddProjectToParser (s : NativeParser) (project : ProjectPtr) (updateOk added : Bool) :
    Bool × NativeParser :=
  if GetParserByProject s project ≠ 0 then (false, s)
  else if s.m_ParsedProjects.isEmpty then (false, s)
  else
    let s1 := { s with m_ParsedProjects := setInsert project s.m_ParsedProjects }
    if GetParserByProject s1 project = 0 then (false, s1)
    else if !updateOk then
      (false, { s1 with m_ParsedProjects := setErase project s1.m_ParsedProjects })
    else (added, s1)

/-- The `RereadParserOptions` of the source from the line that reads `/parser_per_workspace` on
(the class browser handling before it touches no modelled field). -/
def RereadParserOptions (s : NativeParser) (ide : Ide) (newp : ParserPtr) (newObj : Parser) :
    NativeParser :=
  let parserPerWorkspace := ide.parserPerWorkspace
  if s.m_Parser = s.m_TempParser then
    { s with m_ParserPerWorkspace := parserPerWorkspace }
  else
    let s1 := RemoveObsoleteParsers s ide
    let opts := s1.parser.options
    -- m_Parser->ReadOptions()
    let s2 := s1.setParserObj { s1.parser with options := ide.parserOptions }
    let project := GetCurrentProject s2 ide
    let changed :=
      opts.followLocalIncludes != s2.parser.options.followLocalIncludes
      || opts.followGlobalIncludes != s2.parser.options.followGlobalIncludes
      || opts.wantPreprocessor != s2.parser.options.wantPreprocessor
      || opts.parseComplexMacros != s2.parser.options.parseComplexMacros
      || opts.platformCheck != s2.parser.options.platformCheck
      || s2.m_ParserPerWorkspace != parserPerWorkspace
    let reparse := changed && ide.answerYes
    let s3 := if reparse then ClearParsers s2 else s2
    let s4 := { s3 with m_ParserPerWorkspace := parserPerWorkspace }
    if reparse then (CreateParser s4 ide project newp newObj).2 else s4

/-! ## The editor control: the queries the resolver makes

All of them are modelled from the spec (§6, "consumed from the editor/text-buffer
collaborator"); positions are offsets into `text`. -/

namespace cbStyledTextCtrl

/-- Modelled from the spec: text length (`GetLength`, `GetTextLength`). -/
def GetLength (c : cbStyledTextCtrl) : Int := c.text.length

/-- Modelled from the spec: current caret position. -/
def GetCurrentPos (c : cbStyledTextCtrl) : Int := c.currentPos

/-- Modelled from the spec: the modification flag of the buffer. -/
def GetModify (c : cbStyledTextCtrl) : Bool := c.modify

/-- Modelled from the spec: the character at a position, the NUL character outside the text. -/
def GetCharAt (c : cbStyledTextCtrl) (pos : Int) : Char :=
  if pos < 0 then Char.ofNat 0 else c.text.getD pos.toNat (Char.ofNat 0)

/-- Modelled from the spec: the lexical style at a position. -/
def GetStyleAt (c : cbStyledTextCtrl) (pos : Int) : Style :=
  if pos < 0 then Style.code else c.styles.getD pos.toNat Style.code

/-- Modelled from the spec: style classification "string". -/
def IsString (_c : cbStyledTextCtrl) (style : Style) : Bool := style = Style.string

/-- Modelled from the spec: style classification "character". -/
def IsCharacter (_c : cbStyledTextCtrl) (style : Style) : Bool := style = Style.character

/-- Modelled from the spec: style classification "comment". -/
def IsComment (_c : cbStyledTextCtrl) (style : Style) : Bool := style = Style.comment

/-- Modelled from the spec: line-from-position: the number of line feeds before the position. -/
def LineFromPosition (c : cbStyledTextCtrl) (pos : Int) : Int :=
  ((c.text.take pos.toNat).count '\n' : Nat)

/-- The number of lines of the text. -/
def LinesTotal (c : cbStyledTextCtrl) : Nat := c.text.count '\n' + 1

/-- The offset at which line `line` starts in `text` (whose first character has offset `off`);
the end of the text when there is no such line. -/
def lineStartFrom : List Char → Nat → Nat → Nat
  | _, 0, off => off
  | [], _ + 1, off => off
  | ch :: cs, n + 1, off =>
    if ch = '\n' then lineStartFrom cs n (off + 1) else lineStartFrom cs (n + 1) (off + 1)

/-- Modelled from the spec: position-from-line: the start of the line; `-1` for a line past the
line after the last one; a negative line stands for the line of the caret. -/
def PositionFromLine (c : cbStyledTextCtrl) (line : Int) : Int :=
  let ln : Int := if line < 0 then c.LineFromPosition c.currentPos else line
  if ln > c.LinesTotal then -1 else (lineStartFrom c.text ln.toNat 0 : Nat)

/-- Modelled from the spec: the position at the end of a line, before its line end characters. -/
def GetLineEndPosition (c : cbStyledTextCtrl) (line : Int) : Int :=
  let ln := line.toNat
  if ln + 1 ≥ c.LinesTotal then c.GetLength
  else
    let next := lineStartFrom c.text (ln + 1) 0
    let e := next - 1
    if e > lineStartFrom c.text ln 0 ∧ c.text.getD (e - 1) ' ' = '\r' then ((e - 1 : Nat) : Int)
    else (e : Int)

/-- Modelled from the spec: raw text range extraction (the bounds are swapped when reversed). -/
def GetTextRange (c : cbStyledTextCtrl) (startPos endPos : Int) : wxString :=
  let a := (min startPos endPos).toNat
  let b := (max startPos endPos).toNat
  (c.text.drop a).take (b - a)

/-- The brace a brace is matched with. -/
def braceOpposite (ch : Char) : Char :=
  if ch = '(' then ')' else if ch = ')' then '('
  else if ch = '[' then ']' else if ch = ']' then '['
  else if ch = '\x7b' then '\x7d' else if ch = '\x7d' then '\x7b'
  else if ch = '<' then '>' else if ch = '>' then '<'
  else Char.ofNat 0

/-- The backward scan of brace matching: `n` is the position after the one looked at. -/
def braceMatchBack (c : cbStyledTextCtrl) (chBrace chSeek : Char) (styBrace : Style) :
    Nat → Nat → Int
  | 0, _ => -1
  | p + 1, depth =>
    if c.GetStyleAt p = styBrace then
      if c.GetCharAt p = chBrace then braceMatchBack c chBrace chSeek styBrace p (depth + 1)
      else if c.GetCharAt p = chSeek then
        (if depth = 1 then (p : Int) else braceMatchBack c chBrace chSeek styBrace p (depth - 1))
      else braceMatchBack c chBrace chSeek styBrace p depth
    else braceMatchBack c chBrace chSeek styBrace p depth

/-- The forward scan of brace matching over the `fuel` positions from `p` on. -/
def braceMatchFwd (c : cbStyledTextCtrl) (chBrace chSeek : Char) (styBrace : Style) :
    Nat → Nat → Nat → Int
  | 0, _, _ => -1
  | fuel + 1, p, depth =>
    if c.GetStyleAt p = styBrace then
      if c.GetCharAt p = chBrace then braceMatchFwd c chBrace chSeek styBrace fuel (p + 1) (depth + 1)
      else if c.GetCharAt p = chSeek then
        (if depth = 1 then (p : Int)
         else braceMatchFwd c chBrace chSeek styBrace fuel (p + 1) (depth - 1))
      else braceMatchFwd c chBrace chSeek styBrace fuel (p + 1) depth
    else braceMatchFwd c chBrace chSeek styBrace fuel (p + 1) depth

/-- Modelled from the spec: brace-matching: the position of the brace that matches the one at
`pos`, counting only braces of the same style; `-1` when there is none. -/
def BraceMatch (c : cbStyledTextCtrl) (pos : Int) : Int :=
  let chBrace := c.GetCharAt pos
  let chSeek := braceOpposite chBrace
  if chSeek = Char.ofNat 0 ∨ pos < 0 then -1
  else
    let styBrace := c.GetStyleAt pos
    if chBrace = '(' ∨ chBrace = '[' ∨ chBrace = '\x7b' ∨ chBrace = '<' then
      braceMatchFwd c chBrace chSeek styBrace (c.text.length - (pos.toNat + 1)) (pos.toNat + 1) 1
    else braceMatchBack c chBrace chSeek styBrace pos.toNat 1

/-- The characters of a word: letters, digits and the underscore. -/
def isWordChar (ch : Char) : Bool := ch.isAlphanum || ch = '_'

/-- The backward scan of word-boundary detection. -/
def wordStartFrom (c : cbStyledTextCtrl) : Nat → Nat
  | 0 => 0
  | p + 1 => if isWordChar (c.GetCharAt p) then wordStartFrom c p else p + 1

/-- The forward scan of word-boundary detection over the `fuel` positions from `p` on. -/
def wordEndFrom (c : cbStyledTextCtrl) : Nat → Nat → Nat
  | 0, p => p
  | fuel + 1, p => if isWordChar (c.GetCharAt p) then wordEndFrom c fuel (p + 1) else p

/-- Modelled from the spec: word-boundary detection (`WordStartPosition(pos, true)`). -/
def WordStartPosition (c : cbStyledTextCtrl) (pos : Int) : Int :=
  (wordStartFrom c (min pos.toNat c.text.length) : Nat)

/-- Modelled from the spec: word-boundary detection (`WordEndPosition(pos, true)`). -/
def WordEndPosition (c : cbStyledTextCtrl) (pos : Int) : Int :=
  let p := min pos.toNat c.text.length
  (wordEndFrom c (c.text.length - p) p : Nat)

end cbStyledTextCtrl

/-! ## The resolver -/

/-- A `TokenIdxSet` (`std::set<int>`): an ascending list of token indices. -/
abbrev TokenIdxSet := List Int

/-- The `std::set::insert`. -/
def TokenIdxSet.insert (a : Int) (l : TokenIdxSet) : TokenIdxSet :=
  if a ∈ l then l else l.orderedInsert (fun x y => x ≤ y) a

/-- Inserts every element of `l` into the set `acc`. -/
def TokenIdxSet.insertAll (l : List Int) (acc : TokenIdxSet) : TokenIdxSet :=
  l.foldl (fun r a => TokenIdxSet.insert a r) acc

/-- The `ccSearchData` of the source: the control and the file name of the editor. -/
structure ccSearchData where
  control : cbStyledTextCtrl
  file : wxString
  deriving DecidableEq, Repr

/-- Modelled from the spec: one element of the expression component chain, a (name, operator)
pair (§3). -/
structure ParserComponent where
  component : wxString
  tokenOperator : wxString
  deriving DecidableEq, Repr

/-- The functions of the repository that `nativeparser.cpp` calls and that are not among the
sources (`NativeParserBase`, `Parser`): they are parameters of the resolver.  They only read the
token tree. -/
structure Helpers where
  /-- The component chain of an expression text (`BreakUpComponents`). -/
  BreakUpComponents : wxString → List ParserComponent
  /-- The matches of a scope chain below the global scope among namespaces, classes and
  typedefs (`FindAIMatches(tree, ns, scope_result, -1, true, true, false, ...)`). -/
  FindAIMatches : TokenTree → List ParserComponent → List Int
  /-- The function and class tokens of a name in a parent scope
  (`GenerateResultSet(tree, procName, parent, result, true, false, tkAnyFunction | tkClass)`). -/
  GenerateResultSet : TokenTree → wxString → Int → List Int
  /-- The function and class tokens declared in a file (`m_Parser->FindTokensInFile`). -/
  FindTokensInFile : Parser → wxString → TokenIdxSet
  /-- The token whose implementation contains a line (`GetTokenFromCurrentLine`). -/
  GetTokenFromCurrentLine : TokenTree → TokenIdxSet → Int → wxString → Int
  /-- The scopes of the enclosing function (`FindCurrentFunctionScope`). -/
  FindCurrentFunctionScope : TokenTree → TokenIdxSet → List Int
  /-- The search scope without the tokens that are no scopes (`CleanupSearchScope`). -/
  CleanupSearchScope : TokenTree → TokenIdxSet → TokenIdxSet
  /-- The tokens a component chain resolves to, added to the result set
  (`ResolveExpression`). -/
  ResolveExpression : TokenTree → List ParserComponent → TokenIdxSet → TokenIdxSet → Bool → Bool →
    TokenIdxSet
  /-- The namespace paths of the "using namespace" directives of a buffer
  (`m_Parser->ParseBufferForUsingNamespace`). -/
  UsingNamespaces : wxString → Bool → List wxString
  /-- The names a buffer declares, as found by a temporary buffer parse. -/
  declared : wxString → List wxString
  /-- The result of `m_Parser->ParseBuffer` on a buffer. -/
  parseOk : wxString → Bool

/-- The tokens a temporary buffer parse adds: one temporary variable token for each declared
name, parented under the anchor; `base` is the index of the first new token. -/
def tempTokens (bp : BufferParse) : List wxString → Nat → List (Option Token)
  | [], _ => []
  | name :: rest, base =>
    some { m_TokenKind := TokenKind.tkVariable, m_Name := name, m_Namespace := [], m_Args := [],
           m_ParentIndex := bp.parentIdx, m_Index := (base : Int), m_ImplLine := 0,
           m_ImplLineStart := 0, m_ImplLineEnd := 0, m_IsTemp := bp.isTemp,
           m_Filename := bp.filename } :: tempTokens bp rest (base + 1)

/-- Modelled from the spec: `m_Parser->ParseBuffer(...)` (`Parser` is not among the sources): a
temporary buffer parse adds tokens for the declarations of the buffer to the token tree, flagged
temporary and parented under the anchor index (§4.3, 4. and 5.); the call is logged. -/
def ParseBuffer (h : Helpers) (s : NativeParser) (bp : BufferParse) : Bool × NativeParser :=
  let p := s.parser
  let tree : TokenTree :=
    ⟨p.tokenTree.m_Tokens ++ tempTokens bp (h.declared bp.buffer) p.tokenTree.m_Tokens.length⟩
  let s1 := s.setParserObj { p with tokenTree := tree }
  (h.parseOk bp.buffer, { s1 with parses := bp :: s1.parses })

/-- The loop of `FindCurrentFunctionStart` that looks for the opening brace from `m_LastResult`
on: the new `m_LastResult`, and whether the NUL character stopped the search. -/
def FindCurrentFunctionStart.braceLoop (c : cbStyledTextCtrl) : Nat → Int → Int × Bool
  | 0, r => (r, false)
  | fuel + 1, r =>
    if r < c.GetLength then
      let ch := c.GetCharAt r
      if ch = '\x7b' then (r, false)
      else if ch = Char.ofNat 0 then (r, true)
      else FindCurrentFunctionStart.braceLoop c fuel (r + 1)
    else (r, false)

/-- The `FindCurrentFunctionStart` of the source.  The out-parameters `nameSpace`, `procName`
and `functionIndex` are `none` for a null pointer and hold the pointed-to value otherwise; their
values on return are part of the result. -/
def FindCurrentFunctionStart (h : Helpers) (s : NativeParser) (searchData : ccSearchData)
    (nameSpace procName : Option wxString) (functionIndex : Option Int) (caretPos : Int) :
    Int × Option wxString × Option wxString × Option Int × NativeParser :=
  let control := searchData.control
  let pos := if caretPos = -1 then control.GetCurrentPos else caretPos
  if pos < 0 || pos > control.GetLength then (-1, nameSpace, procName, functionIndex, s)
  else
    let curLine := control.LineFromPosition pos + 1
    if curLine = s.m_LastLine && (control.id = s.m_LastControl && !control.GetModify)
        && searchData.file = s.m_LastFile then
      (s.m_LastResult, nameSpace.map (fun _ => s.m_LastNamespace),
        procName.map (fun _ => s.m_LastPROC), functionIndex.map (fun _ => s.m_LastFunctionIndex), s)
    else
      let s1 := { s with m_LastFile := searchData.file, m_LastControl := control.id,
                         m_LastLine := curLine }
      let result := h.FindTokensInFile s1.parser searchData.file
      let tree := s1.parser.tokenTree
      let idx := h.GetTokenFromCurrentLine tree result curLine searchData.file
      match tree.at idx with
      | some token =>
        let s2 := { s1 with m_LastNamespace := token.m_Namespace, m_LastPROC := token.m_Name,
                            m_LastFunctionIndex := token.m_Index,
                            m_LastResult := control.PositionFromLine ((token.m_ImplLine : Int) - 1) }
        let r : Int × Bool :=
          if token.m_TokenKind.isAnyFunction then
            FindCurrentFunctionStart.braceLoop control
              ((control.GetLength - s2.m_LastResult).toNat + 1) s2.m_LastResult
          else (s2.m_LastResult, false)
        let s3 := { s2 with m_LastResult := r.1 }
        if r.2 then (-1, nameSpace, procName, functionIndex, s3)
        else
          (s3.m_LastResult, nameSpace.map (fun _ => s3.m_LastNamespace),
            procName.map (fun _ => s3.m_LastPROC), functionIndex.map (fun _ => token.m_Index), s3)
      | none => (-1, nameSpace, procName, functionIndex, { s1 with m_LastResult := -1 })

/-- The `wxString::RemoveLast()`. -/
def wxRemoveLast (s : wxString) : wxString := s.dropLast

def FindCurrentFunctionToken (h : Helpers) (s : NativeParser) (searchData : ccSearchData)
    (result : TokenIdxSet) (caretPos : Int) : Nat × TokenIdxSet × NativeParser :=
  let r := FindCurrentFunctionStart h s searchData (some []) (some []) none caretPos
  let scopeName : wxString := r.2.1.getD []
  let procName : wxString := r.2.2.1.getD []
  let s1 := r.2.2.2.2
  if procName.isEmpty then (0, result, s1)
  else
    let scope_result : TokenIdxSet :=
      if !scopeName.isEmpty then
        let scopeName2 := wxRemoveLast (wxRemoveLast scopeName)
        let ns := h.BreakUpComponents scopeName2
        TokenIdxSet.insertAll (h.FindAIMatches s1.parser.tokenTree ns) []
      else []
    let scope_result2 : TokenIdxSet :=
      if scope_result.isEmpty then TokenIdxSet.insert (-1) scope_result else scope_result
    let result2 : TokenIdxSet :=
      scope_result2.foldl
        (fun res tis => TokenIdxSet.insertAll (h.GenerateResultSet s1.parser.tokenTree procName tis) res)
        result
    (result2.length, result2, s1)

/-- The `while` loop of `ParseBufferForUsingNamespace` over the components of the path of one
"using namespace" directive: the final `parentIdx`. -/
def ParseBufferForUsingNamespace.resolve (tree : TokenTree) : List ParserComponent → Int → Int
  | [], parentIdx => parentIdx
  | pc :: rest, parentIdx =>
    let id := tree.TokenExists pc.component parentIdx TokenKind.tkNamespace
    if id = -1 then -1 else ParseBufferForUsingNamespace.resolve tree rest id

def ParseBufferForUsingNamespace (h : Helpers) (s : NativeParser) (buffer : wxString)
    (search_scope : TokenIdxSet) (bufferSkipBlocks : Bool) : Bool × TokenIdxSet :=
  let ns := h.UsingNamespaces buffer bufferSkipBlocks
  let tree := s.parser.tokenTree
  (true, ns.foldl
    (fun scope n =>
      TokenIdxSet.insert (ParseBufferForUsingNamespace.resolve tree (h.BreakUpComponents n) (-1))
        scope)
    search_scope)

def ParseUsingNamespace (h : Helpers) (s : NativeParser) (searchData : ccSearchData)
    (search_scope : TokenIdxSet) (caretPos : Int) : Bool × TokenIdxSet :=
  let pos := if caretPos = -1 then searchData.control.GetCurrentPos else caretPos
  if pos < 0 || pos > searchData.control.GetLength then (false, search_scope)
  else
    let buffer := searchData.control.GetTextRange 0 pos
    ParseBufferForUsingNamespace h s buffer search_scope true

/-- The loop `while (paraPos < textLength && GetCharAt(paraPos++) != c0)` (with `stop` the test
that ends it) of `ParseFunctionArguments`: the final `paraPos`. -/
def ParseFunctionArguments.skip (c : cbStyledTextCtrl) (textLength : Int) (stop : Char → Bool) :
    Nat → Int → Int
  | 0, paraPos => paraPos
  | fuel + 1, paraPos =>
    if paraPos < textLength then
      if stop (c.GetCharAt paraPos) then paraPos + 1
      else ParseFunctionArguments.skip c textLength stop fuel (paraPos + 1)
    else paraPos

/-- The `wxString::Replace(",", ";")`. -/
def replaceCommas (s : wxString) : wxString :=
  s.map (fun ch => if ch = ',' then ';' else ch)

/-- The text `ParseFunctionArguments` makes of an argument list: the first and the last
character removed, commas replaced by semicolons, a semicolon appended, trimmed. -/
def ParseFunctionArguments.argsBuffer (args : wxString) : wxString :=
  wxTrim (replaceCommas (wxRemoveLast (args.drop 1)) ++ [';'])

/-- The call of `ParseBuffer` that one iteration of the `for` loop of `ParseFunctionArguments`
makes for the element `tis` of `proc_result`; `none` when the iteration makes no call (a
`continue`, or an empty buffer). -/
def ParseFunctionArguments.parseOf (searchData : ccSearchData) (curLine : Nat) (tree : TokenTree)
    (tis : Int) : Option BufferParse :=
  match tree.at tis with
  | none => none
  | some token =>
    if curLine < token.m_ImplLineStart || curLine > token.m_ImplLineEnd then none
    else if !token.m_Args.isEmpty && !(token.m_Args = ['(', ')']) then
      let buffer := ParseFunctionArguments.argsBuffer token.m_Args
      if !buffer.isEmpty then
        let control := searchData.control
        let textLength := control.GetLength
        if textLength = -1 then none
        else
          let paraPos := control.PositionFromLine ((token.m_ImplLine : Int) - 1)
          if paraPos = -1 then none
          else
            let fuel := (textLength - paraPos).toNat + 1
            let paraPos1 := ParseFunctionArguments.skip control textLength (fun ch => ch = '(')
              fuel paraPos
            let paraPos2 := ParseFunctionArguments.skip control textLength (fun ch => !(ch < ' '))
              fuel paraPos1
            let initLine := control.LineFromPosition paraPos2 + 1
            if initLine = -1 then none
            else
              let tokenIdx := token.m_Index
              some { buffer := buffer, isLocal := false, bufferSkipBlocks := false, isTemp := true,
                     filename := searchData.file, parentIdx := tokenIdx, initLine := initLine }
      else none
    else none

/-- One iteration of the `for` loop of `ParseFunctionArguments`, for the element `tis` of
`proc_result`. -/
def ParseFunctionArguments.body (h : Helpers) (searchData : ccSearchData) (curLine : Nat)
    (s : NativeParser) (tis : Int) : NativeParser :=
  match ParseFunctionArguments.parseOf searchData curLine s.parser.tokenTree tis with
  | some bp => (ParseBuffer h s bp).2
  | none => s

def ParseFunctionArguments (h : Helpers) (s : NativeParser) (searchData : ccSearchData)
    (caretPos : Int) : Bool × NativeParser :=
  let r := FindCurrentFunctionToken h s searchData [] caretPos
  let found_at := r.1
  let proc_result := r.2.1
  let s1 := r.2.2
  if found_at = 0 then (false, s1)
  else
    let pos := if caretPos = -1 then searchData.control.GetCurrentPos else caretPos
    let curLine := (searchData.control.LineFromPosition pos + 1).toNat
    (true, proc_result.foldl (ParseFunctionArguments.body h searchData curLine) s1)

/-- The loops of `ParseLocalBlock` that step `prevCharIdx` back over comments and white space
while it is above `blockStart`; `n` is `prevCharIdx - blockStart`. -/
def ParseLocalBlock.skipBack (stc : cbStyledTextCtrl) : Nat → Int → Int
  | 0, prevCharIdx => prevCharIdx
  | n + 1, prevCharIdx =>
    if stc.IsComment (stc.GetStyleAt prevCharIdx) then ParseLocalBlock.skipBack stc n (prevCharIdx - 1)
    else if !wxIsspace (stc.GetCharAt prevCharIdx) then prevCharIdx
    else ParseLocalBlock.skipBack stc n (prevCharIdx - 1)

/-- The `buffer.Prepend(wxString('\n', endLn - startLn))` of `ParseLocalBlock`, done when
`startLn < endLn`. -/
def ParseLocalBlock.padLines (startLn endLn : Int) (buffer : wxString) : wxString :=
  if startLn < endLn then List.replicate (endLn - startLn).toNat '\n' ++ buffer else buffer

/-- The loop "condense out-of-scope braces" of `ParseLocalBlock`, from the test of `curPos` on:
the final `scanPos` and `buffer`.  Every pass lowers `curPos`, so `fuel` above `pos - blockStart`
is never used up. -/
def ParseLocalBlock.condense (stc : cbStyledTextCtrl) (blockStart : Int) :
    Nat → Int → Int → wxString → Int × wxString
  | 0, _, scanPos, buffer => (scanPos, buffer)
  | fuel + 1, curPos, scanPos, buffer =>
    if curPos > blockStart then
      if stc.GetCharAt curPos ≠ '\x7d' then
        ParseLocalBlock.condense stc blockStart fuel (curPos - 1) scanPos buffer
      else
        let style := stc.GetStyleAt curPos
        if stc.IsString style || stc.IsCharacter style || stc.IsComment style then
          ParseLocalBlock.condense stc blockStart fuel (curPos - 1) scanPos buffer
        else
          let scopeStart := stc.BraceMatch curPos
          if scopeStart < blockStart then (scanPos, buffer)
          else
            let buffer1 := stc.GetTextRange curPos scanPos ++ buffer
            let buffer2 := ParseLocalBlock.padLines (stc.LineFromPosition scopeStart)
              (stc.LineFromPosition curPos) buffer1
            let scanPos1 := scopeStart + 1
            let curPos1 := scopeStart
            -- condense out-of-scope for/if/while declarations
            let prevCharIdx := ParseLocalBlock.skipBack stc (scopeStart - 1 - blockStart).toNat
              (scopeStart - 1)
            if stc.GetCharAt prevCharIdx ≠ ')' then
              ParseLocalBlock.condense stc blockStart fuel (curPos1 - 1) scanPos1 buffer2
            else
              let paramStart := stc.BraceMatch prevCharIdx
              if paramStart < blockStart then
                ParseLocalBlock.condense stc blockStart fuel (curPos1 - 1) scanPos1 buffer2
              else
                let prevCharIdx2 := ParseLocalBlock.skipBack stc (paramStart - 1 - blockStart).toNat
                  (paramStart - 1)
                let text := stc.GetTextRange (stc.WordStartPosition prevCharIdx2)
                  (stc.WordEndPosition prevCharIdx2)
                if text = ['f', 'o', 'r'] ∨ text = ['i', 'f'] ∨ text = ['w', 'h', 'i', 'l', 'e']
                    ∨ text = ['c', 'a', 't', 'c', 'h'] then
                  let buffer3 : wxString :=
                    (if text = ['f', 'o', 'r'] then ['(', ';', ';', ')', '\x7b']
                     else ['(', '0', ')', '\x7b']) ++ buffer2
                  let buffer4 := ParseLocalBlock.padLines (stc.LineFromPosition prevCharIdx2)
                    (stc.LineFromPosition scopeStart) buffer3
                  let curPos2 := stc.WordStartPosition prevCharIdx2
                  let scanPos2 := stc.WordEndPosition prevCharIdx2
                  ParseLocalBlock.condense stc blockStart fuel (curPos2 - 1) scanPos2 buffer4
                else
                  ParseLocalBlock.condense stc blockStart fuel (curPos1 - 1) scanPos1 buffer2
    else (scanPos, buffer)

/-- The condensed buffer of `ParseLocalBlock` for a body that starts at `blockStart` (after the
clamp to `blockEnd`), before its `Trim()`. -/
def ParseLocalBlock.buffer (stc : cbStyledTextCtrl) (blockStart pos blockEnd : Int) : wxString :=
  let r := ParseLocalBlock.condense stc blockStart ((pos - blockStart).toNat + 1) pos blockEnd []
  stc.GetTextRange blockStart r.1 ++ r.2

def ParseLocalBlock (h : Helpers) (s : NativeParser) (searchData : ccSearchData)
    (search_scope : TokenIdxSet) (caretPos : Int) : Bool × TokenIdxSet × NativeParser :=
  let r := FindCurrentFunctionStart h s searchData none none (some (-1)) caretPos
  let blockStart := r.1
  let parentIdx : Int := r.2.2.2.1.getD (-1)
  let s1 := r.2.2.2.2
  let parent := s1.parser.tokenTree.at parentIdx
  let isFunction : Bool := match parent with
    | some p => p.m_TokenKind.isAnyFunction
    | none => false
  let s2 : NativeParser :=
    if parentIdx ≠ -1 then
      match parent with
      | some p => if p.m_TokenKind.isAnyFunction then { s1 with m_LastFuncTokenIdx := p.m_Index }
                  else s1
      | none => s1
    else s1
  let initLine : Int :=
    if parentIdx ≠ -1 then
      match parent with
      | some p => if p.m_TokenKind.isAnyFunction then (p.m_ImplLineStart : Int) else 0
      | none => 0
    else 0
  if parentIdx ≠ -1 ∧ !isFunction then (false, search_scope, s2)
  else if blockStart ≠ -1 then
    let stc := searchData.control
    let blockStart1 := if stc.GetCharAt blockStart = '\x7b' then blockStart + 1 else blockStart
    let pos := if caretPos = -1 then stc.GetCurrentPos else caretPos
    let line := stc.LineFromPosition pos
    let blockEnd := stc.GetLineEndPosition line
    if blockEnd < 0 || blockEnd > stc.GetLength then (false, search_scope, s2)
    else
      let blockStart2 := if blockStart1 ≥ blockEnd then blockEnd else blockStart1
      let buffer := wxTrim (ParseLocalBlock.buffer stc blockStart2 pos blockEnd)
      let search_scope1 := (ParseBufferForUsingNamespace h s2 buffer search_scope false).2
      if buffer.isEmpty then (true, search_scope1, s2)
      else
        let pr := ParseBuffer h s2
          { buffer := buffer, isLocal := false, bufferSkipBlocks := false, isTemp := true,
            filename := searchData.file, parentIdx := s2.m_LastFuncTokenIdx, initLine := initLine }
        if !pr.1 then (false, search_scope1, pr.2) else (true, search_scope1, pr.2)
  else (false, search_scope, s2)

/-- The search text of `AI`: `lineText`, or when that is empty the text from the start of the
line of `pos` up to `pos`, trimmed. -/
def AI.actualSearch (searchData : ccSearchData) (lineText : wxString) (pos : Int) : wxString :=
  let line := searchData.control.LineFromPosition pos
  if lineText.isEmpty then
    let startPos := searchData.control.PositionFromLine line
    wxTrim (searchData.control.GetTextRange startPos pos)
  else lineText

/-- The `AI` of the source; `search_scope` is `none` for a null pointer. -/
def AI (h : Helpers) (s : NativeParser) (result : TokenIdxSet) (searchData : ccSearchData)
    (lineText : wxString) (isPrefix caseSensitive : Bool) (search_scope : Option TokenIdxSet)
    (caretPos : Int) : Nat × TokenIdxSet × NativeParser :=
  let s0 := { s with m_LastAISearchWasGlobal := false, m_LastAIGlobalSearch := [] }
  let pos := if caretPos = -1 then searchData.control.GetCurrentPos else caretPos
  if pos < 0 || pos > searchData.control.GetLength then (0, result, s0)
  else
    let actual_search := AI.actualSearch searchData lineText pos
    let r := FindCurrentFunctionToken h s0 searchData [] pos
    let found_at := r.1
    let proc_result := r.2.1
    let s1 := r.2.2
    let tree := s1.parser.tokenTree
    let scope_result : TokenIdxSet :=
      if found_at ≠ 0 then TokenIdxSet.insertAll (h.FindCurrentFunctionScope tree proc_result) []
      else []
    let scope1 : TokenIdxSet := match search_scope with
      | none => scope_result
      | some sc => TokenIdxSet.insertAll scope_result sc
    let scope2 := h.CleanupSearchScope tree scope1
    let components := h.BreakUpComponents actual_search
    let s2 := { s1 with m_LastAISearchWasGlobal := decide (components.length ≤ 1) }
    let s3 := match components with
      | [] => s2
      | front :: _ => { s2 with m_LastAIGlobalSearch := front.component }
    let result1 := h.ResolveExpression tree components scope2 result caseSensitive isPrefix
    (result1.length, result1, s3)

/-- The two statements of `MarkItemsByAI` that remove the old temporaries: the temp tree is
cleared, and `RemoveLastFunctionChildren` is run on the main tree for `m_LastFuncTokenIdx`. -/
def MarkItemsByAI.removeOldTemporaries (s : NativeParser) : NativeParser :=
  let s1 := s.setParserObj { s.parser with tempTokenTree := s.parser.tempTokenTree.clear }
  s1.setParserObj { s1.parser with
    tokenTree := RemoveLastFunctionChildren s1.parser.tokenTree s1.m_LastFuncTokenIdx }

/-- The `MarkItemsByAI(ccSearchData*, TokenIdxSet&, bool, bool, bool, int)` of the source. -/
def MarkItemsByAI (h : Helpers) (s : NativeParser) (searchData : ccSearchData)
    (_result : TokenIdxSet) (reallyUseAI : Bool) ( isPrefix : Bool) (caseSensitive : Bool)
    (caretPos : Int) : Nat × TokenIdxSet × NativeParser :=
  let result : TokenIdxSet := []
  if !s.parser.done then (0, result, s)
  else
    -- remove old temporaries
    let s2 := MarkItemsByAI.removeOldTemporaries s
    -- find "using namespace" directives in the file
    let search_scope := (ParseUsingNamespace h s2 searchData [] caretPos).2
    -- parse function's arguments
    let s3 := (ParseFunctionArguments h s2 searchData caretPos).2
    -- parse current code block (from the start of function up to the cursor)
    let r := ParseLocalBlock h s3 searchData search_scope caretPos
    let search_scope1 := r.2.1
    let s4 := r.2.2
    if !reallyUseAI then
      let tree := s4.parser.tokenTree
      -- all tokens, no AI whatsoever
      let result1 : TokenIdxSet := List.map Int.ofNat (List.range tree.size)
      (result1.length, result1, s4)
    else
      AI h s4 result searchData [] isPrefix caseSensitive (some search_scope1) caretPos

/-- The `MarkItemsByAI(TokenIdxSet&, bool, bool, bool, int)` of the source, which takes the
search data from the active editor. -/
def MarkItemsByAI_1 (h : Helpers) (s : NativeParser) (ide : Ide) (result : TokenIdxSet)
    (reallyUseAI : Bool) ( isPrefix : Bool) (caseSensitive : Bool) (caretPos : Int) :
    Nat × TokenIdxSet × NativeParser :=
  match ide.activeEditor with
  | none => (0, result, s)
  | some editor =>
    MarkItemsByAI h s { control := editor.control, file := editor.filename } result reallyUseAI
      isPrefix caseSensitive caretPos

/-! ## The search directories in the project metadata -/

/-- A C string (`const char*`). -/
abbrev CStr := List Char

/-- A node of the TinyXML tree of the project file: an element with its tag, its attributes and
its children, or a node of another kind (text, comment, ...), for which `ToElement()` is
null. -/
inductive TiXmlNode where
  | element (value : CStr) (attributes : List (CStr × CStr)) (children : List TiXmlNode)
  | other (value : CStr)

/-- The part of a `cbProject` the two functions use: the result of `GetExtensionsNode()`, `none`
for a null pointer. -/
structure cbProject where
  extensionsNode : Option TiXmlNode

/-- Modelled from the spec: `cbU2C` of the SDK (not among the sources): the encoding of a
`wxString` as a C string; the model keeps the characters. -/
def cbU2C (s : wxString) : CStr := s

/-- Modelled from the spec: `cbC2U` of the SDK (not among the sources): the decoding of a C
string. -/
def cbC2U (s : CStr) : wxString := s

/-- Whether a node is an element with the tag `name`. -/
def TiXmlNode.isElementNamed (name : CStr) : TiXmlNode → Bool
  | .element value _ _ => value = name
  | .other _ => false

/-- The `FirstChildElement(name)` of a list of children. -/
def FirstChildElement (children : List TiXmlNode) (name : CStr) : Option TiXmlNode :=
  children.find? (TiXmlNode.isElementNamed name)

/-- The `Attribute(name)` of an element: `none` when it has no such attribute. -/
def TiXmlNode.Attribute (name : CStr) : TiXmlNode → Option CStr
  | .element _ attributes _ => (attributes.find? (fun a => a.1 = name)).map (fun a => a.2)
  | .other _ => none

/-- The children of a node. -/
def TiXmlNode.children : TiXmlNode → List TiXmlNode
  | .element _ _ children => children
  | .other _ => []

/-- The `while (pathsElem)` loop of `ParseProjectSearchDirs` over the children from the first
"search_path" element on (`NextSiblingElement` skips the other nodes). -/
def ParseProjectSearchDirs.loop : List TiXmlNode → List wxString → List wxString
  | [], pdirs => pdirs
  | pathsElem :: rest, pdirs =>
    if pathsElem.isElementNamed "search_path".toList then
      match pathsElem.Attribute "add".toList with
      | some a =>
        let dir := cbC2U a
        if dir ∈ pdirs then ParseProjectSearchDirs.loop rest pdirs
        else ParseProjectSearchDirs.loop rest (pdirs ++ [dir])
      | none => ParseProjectSearchDirs.loop rest pdirs
    else ParseProjectSearchDirs.loop rest pdirs

def ParseProjectSearchDirs (project : cbProject) : List wxString :=
  match project.extensionsNode with
  | none => []
  | some (.other _) => []
  | some (.element _ _ children) =>
    match FirstChildElement children "code_completion".toList with
    | some CCConf => ParseProjectSearchDirs.loop CCConf.children []
    | none => []

/-- The children `SetProjectSearchDirs` gives the "code_completion" node: one "search_path"
element with the attribute "add" for each directory. -/
def SetProjectSearchDirs.paths (dirs : List wxString) : List TiXmlNode :=
  dirs.map (fun d => TiXmlNode.element "search_path".toList [("add".toList, cbU2C d)] [])

/-- The children of the extensions element after `SetProjectSearchDirs`: the first
"code_completion" element has its children replaced; when there is none, a new one is put at
the end. -/
def SetProjectSearchDirs.update (dirs : List wxString) : List TiXmlNode → List TiXmlNode
  | [] => [TiXmlNode.element "code_completion".toList [] (SetProjectSearchDirs.paths dirs)]
  | (.element value attributes children) :: rest =>
    if value = "code_completion".toList then
      TiXmlNode.element value attributes (SetProjectSearchDirs.paths dirs) :: rest
    else TiXmlNode.element value attributes children :: SetProjectSearchDirs.update dirs rest
  | (.other value) :: rest => TiXmlNode.other value :: SetProjectSearchDirs.update dirs rest

def SetProjectSearchDirs (project : cbProject) (dirs : List wxString) : cbProject :=
  match project.extensionsNode with
  | none => project
  | some (.other _) => project
  | some (.element value attributes children) =>
    { extensionsNode :=
        some (TiXmlNode.element value attributes (SetProjectSearchDirs.update dirs children)) }

/-! ## An instance of the helper functions, written from the spec

It is used to run the resolver on concrete inputs. -/

/-- The indices of the tokens of a tree that satisfy `p`, in ascending order of slot. -/
def TokenTree.indicesWhere (tree : TokenTree) (p : Token → Bool) : List Int :=
  tree.m_Tokens.filterMap (fun t => match t with
    | some tk => if p tk then some tk.m_Index else none
    | none => none)

/-- Modelled from the spec: `BreakUpComponents` (§3 "Expression component chain"): the text is
broken at ".", "->" and "::" into (name, operator) pairs, in order; `cur` is the name read so
far. -/
def specBreakUpComponents.go : List Char → wxString → List ParserComponent
  | [], cur => if cur.isEmpty then [] else [⟨cur, []⟩]
  | [c], cur => if c = '.' then [⟨cur, ['.']⟩] else [⟨cur ++ [c], []⟩]
  | c :: d :: rest, cur =>
    if c = '.' then ⟨cur, ['.']⟩ :: specBreakUpComponents.go (d :: rest) []
    else if (c = '-' ∧ d = '>') ∨ (c = ':' ∧ d = ':') then
      ⟨cur, [c, d]⟩ :: specBreakUpComponents.go rest []
    else specBreakUpComponents.go (d :: rest) (cur ++ [c])

/-- Modelled from the spec: `BreakUpComponents`. -/
def specBreakUpComponents (text : wxString) : List ParserComponent :=
  specBreakUpComponents.go text []

/-- Modelled from the spec: `FindAIMatches` as `FindCurrentFunctionToken` uses it (§4.3, 2.):
each component is resolved among the namespaces, classes and typedefs below the scopes found so
far, starting at the global scope. -/
def specFindAIMatches (tree : TokenTree) : List ParserComponent → List Int → List Int
  | [], parents => parents
  | pc :: rest, parents =>
    specFindAIMatches tree rest
      (tree.indicesWhere (fun tk => tk.m_Name = pc.component && tk.m_ParentIndex ∈ parents
        && tk.m_TokenKind.isNamespaceClassTypedef))

/-- Modelled from the spec: `GenerateResultSet` as `FindCurrentFunctionToken` uses it (§4.3, 2.):
the function and class tokens of a scope that have the name. -/
def specGenerateResultSet (tree : TokenTree) (name : wxString) (parentIdx : Int) : List Int :=
  tree.indicesWhere (fun tk => tk.m_Name = name && tk.m_ParentIndex = parentIdx
    && tk.m_TokenKind.isAnyFunctionOrClass)

/-- Modelled from the spec: `FindTokensInFile(file, kindMask)` (§3): the function and class
tokens declared in the file. -/
def specFindTokensInFile (p : Parser) (file : wxString) : TokenIdxSet :=
  TokenIdxSet.insertAll
    (p.tokenTree.indicesWhere (fun tk => tk.m_Filename = file && tk.m_TokenKind.isAnyFunctionOrClass))
    []

/-- Modelled from the spec: `GetTokenFromCurrentLine` (§4.3, 1.): the first token of the set
whose implementation line range contains the line, `-1` when there is none. -/
def specGetTokenFromCurrentLine (tree : TokenTree) (tokens : TokenIdxSet) (curLine : Int)
    (_file : wxString) : Int :=
  match tokens.find? (fun i => match tree.at i with
      | some tk => decide ((tk.m_ImplLineStart : Int) ≤ curLine ∧ curLine ≤ (tk.m_ImplLineEnd : Int))
      | none => false) with
  | some i => i
  | none => -1

/-- Modelled from the spec: `FindCurrentFunctionScope` (§3 "Search-scope set"): the scope that
owns each enclosing function token. -/
def specFindCurrentFunctionScope (tree : TokenTree) (procs : TokenIdxSet) : List Int :=
  procs.filterMap (fun i => (tree.at i).map (fun tk => tk.m_ParentIndex))

/-- Modelled from the spec: `CleanupSearchScope` (§4.3, 6.): only the global scope and the
tokens that are namespaces or class like stay in the search scope. -/
def specCleanupSearchScope (tree : TokenTree) (scope : TokenIdxSet) : TokenIdxSet :=
  scope.filter (fun i => i = -1 || (match tree.at i with
    | some tk => tk.m_TokenKind.isNamespaceClassTypedef
    | none => false))

/-- Whether a token name matches a component: equal, or an extension of it for a prefix search;
letters are compared in lower case unless the search is case sensitive. -/
def specNameMatches (caseSensitive : Bool) ( isPrefix : Bool) (name target : wxString) : Bool :=
  let n := if caseSensitive then name else name.map Char.toLower
  let t := if caseSensitive then target else target.map Char.toLower
  if isPrefix then t.isPrefixOf n else n = t

/-- Modelled from the spec: the chain resolution of `ResolveExpression` (§4.3, 6.): the first
component is looked up in the search scope, the global scope and the enclosing functions, each
further component among the children of the tokens found before. -/
def specResolve (tree : TokenTree) (caseSensitive : Bool) ( isPrefix : Bool) :
    List ParserComponent → List Int → List Int
  | [], parents => parents
  | [pc], parents =>
    tree.indicesWhere (fun tk => specNameMatches caseSensitive isPrefix tk.m_Name pc.component
      && tk.m_ParentIndex ∈ parents)
  | pc :: rest, parents =>
    specResolve tree caseSensitive isPrefix rest
      (tree.indicesWhere (fun tk => specNameMatches caseSensitive false tk.m_Name pc.component
        && tk.m_ParentIndex ∈ parents))

/-- Modelled from the spec: `ResolveExpression`: the matches are added to the result set. -/
def specResolveExpression (tree : TokenTree) (components : List ParserComponent)
    (search_scope : TokenIdxSet) (result : TokenIdxSet) (caseSensitive : Bool) ( isPrefix : Bool) :
    TokenIdxSet :=
  match components with
  | [] => result
  | _ =>
    TokenIdxSet.insertAll
      (specResolve tree caseSensitive isPrefix components
        ((-1) :: search_scope ++ tree.indicesWhere (fun tk => tk.m_TokenKind.isAnyFunction)))
      result

/-- Modelled from the spec: the scan for "using namespace" directives (§4.3, 3.): the namespace
path after each occurrence of the two keywords. -/
def specUsingNamespaces : List Char → List wxString
  | [] => []
  | c :: rest =>
    if "using namespace ".toList.isPrefixOf (c :: rest) then
      ((c :: rest).drop 16).takeWhile (fun ch => cbStyledTextCtrl.isWordChar ch || ch = ':')
        :: specUsingNamespaces rest
    else specUsingNamespaces rest

/-- The name a statement declares: its last word, when it has at least two words. -/
def specDeclared.finish (cur : wxString) (words : List wxString) : List wxString :=
  let ws := if cur.isEmpty then words else words ++ [cur]
  match ws.getLast? with
  | some w => if ws.length ≥ 2 then [w] else []
  | none => []

/-- Modelled from the spec: the declarations a temporary buffer parse finds (§4.3, 4. and 5.):
for each statement (ended by a semicolon or a brace) the last word before its initialiser. -/
def specDeclared.go : List Char → wxString → List wxString → Bool → List wxString
  | [], cur, words, _ => specDeclared.finish cur words
  | c :: rest, cur, words, afterEq =>
    if c = ';' ∨ c = '\x7b' ∨ c = '\x7d' then
      specDeclared.finish cur words ++ specDeclared.go rest [] [] false
    else if afterEq then specDeclared.go rest cur words true
    else if c = '=' then specDeclared.go rest cur words true
    else if cbStyledTextCtrl.isWordChar c then specDeclared.go rest (cur ++ [c]) words false
    else specDeclared.go rest [] (if cur.isEmpty then words else words ++ [cur]) false

/-- The helper functions as the spec describes them. -/
def specHelpers : Helpers :=
  { BreakUpComponents := specBreakUpComponents
    FindAIMatches := fun tree ns => match ns with
      | [] => []
      | _ => specFindAIMatches tree ns [-1]
    GenerateResultSet := specGenerateResultSet
    FindTokensInFile := specFindTokensInFile
    GetTokenFromCurrentLine := specGetTokenFromCurrentLine
    FindCurrentFunctionScope := specFindCurrentFunctionScope
    CleanupSearchScope := specCleanupSearchScope
    ResolveExpression := specResolveExpression
    UsingNamespaces := fun buffer _ => specUsingNamespaces buffer
    declared := fun buffer => specDeclared.go buffer [] [] false
    parseOk := fun _ => true }

/-! ## Notions used to state the properties -/

/-- The caret position a query works with: `caretPos`, or the current position of the control
when `caretPos` is `-1`. -/
def caretPosition (control : cbStyledTextCtrl) (caretPos : Int) : Int :=
  if caretPos = -1 then control.GetCurrentPos else caretPos

/-- The names and parent indices of the temporary tokens of a tree. -/
def TokenTree.temporaries (tree : TokenTree) : List (wxString × Int) :=
  tree.m_Tokens.filterMap (fun t => match t with
    | some tk => if tk.m_IsTemp then some (tk.m_Name, tk.m_ParentIndex) else none
    | none => none)

/-- A list of paths without the repetitions: every path is kept where it occurs first. -/
def keepFirst : List wxString → List wxString
  | [] => []
  | d :: ds => d :: (keepFirst ds).filter (fun x => x ≠ d)

/-! ## Reachable registry states -/

/-- What `new Parser` can return in state `s`: an address that is not null and not the address of
a parser that is alive (the fallback parser or a registered one). -/
def freshParser (s : NativeParser) (newp : ParserPtr) : Prop :=
  newp ≠ 0 ∧ newp ≠ s.m_TempParser ∧ newp ∉ s.m_ParserList.map Prod.snd

instance (s : NativeParser) (newp : ParserPtr) : Decidable (freshParser s newp) := by
  unfold freshParser
  infer_instance

/-- The states of the registry that can be reached from the initial one by `CreateParser`,
`DeleteParser`, `SwitchParser`, `AddProjectToParser`, `ClearParsers`, `RemoveObsoleteParsers`
and `RereadParserOptions`, with any arguments and any state of the IDE. -/
inductive Reachable : NativeParser → Prop where
  | init (temp : ParserPtr) (perWorkspace : Bool) (htemp : temp ≠ 0) :
      Reachable (NativeParser.init temp perWorkspace)
  | createParser (s : NativeParser) (ide : Ide) (project : ProjectPtr) (newp : ParserPtr)
      (newObj : Parser) (hs : Reachable s) (hnew : freshParser s newp) :
      Reachable (CreateParser s ide project newp newObj).2
  | deleteParser (s : NativeParser) (project : ProjectPtr) (hs : Reachable s) :
      Reachable (DeleteParser s project).2
  | switchParser (s : NativeParser) (project : ProjectPtr) (parser : ParserPtr)
      (hs : Reachable s) : Reachable (SwitchParser s project parser).2
  | addProjectToParser (s : NativeParser) (project : ProjectPtr) (updateOk added : Bool)
      (hs : Reachable s) : Reachable (AddProjectToParser s project updateOk added).2
  | clearParsers (s : NativeParser) (hs : Reachable s) : Reachable (ClearParsers s)
  | removeObsoleteParsers (s : NativeParser) (ide : Ide) (hs : Reachable s) :
      Reachable (RemoveObsoleteParsers s ide)
  | rereadParserOptions (s : NativeParser) (ide : Ide) (newp : ParserPtr) (newObj : Parser)
      (hs : Reachable s) (hnew : freshParser s newp) :
      Reachable (RereadParserOptions s ide newp newObj)

/-! ## Concrete inputs -/

/-- An IDE with no open editor and the default configuration (at most five parsers, one parser
for each project). -/
def exIde : Ide :=
  { activeEditor := none, activeProject := 0, projects := [], projectHasFile := fun _ _ => false,
    maxParsers := 5, parserPerWorkspace := false,
    parserOptions := ⟨false, false, false, false, false⟩, answerYes := false }

/-- The same IDE after the user has chosen "one parser per workspace" in the settings (and
answers "no" to the question whether to reparse). -/
def exIdeWorkspace : Ide := { exIde with parserPerWorkspace := true }

/-- Workspace mode, project 1 merged into the shared parser 10. -/
def exShared : NativeParser :=
  (CreateParser (NativeParser.init 100 true) exIdeWorkspace 1 10 Parser.empty).2

/-- Project mode, project 1 has the parser 10. -/
def exOne : NativeParser :=
  (CreateParser (NativeParser.init 100 false) exIde 1 10 Parser.empty).2

/-- The state `exOne` after the mode was changed to "one parser per workspace" without a
reparse. -/
def exOneSwitched : NativeParser := RereadParserOptions exOne exIdeWorkspace 11 Parser.empty

/-- The state `exOneSwitched` after `CreateParser` for project 1. -/
def exDup : NativeParser := (CreateParser exOneSwitched exIdeWorkspace 1 11 Parser.empty).2

/-- Project mode, projects 1 and 2 have the parsers 10 and 20; then the mode is changed to "one
parser per workspace" without a reparse and `CreateParser` is called for project 2. -/
def exStale : NativeParser :=
  (CreateParser
    (RereadParserOptions
      (CreateParser (CreateParser (NativeParser.init 100 false) exIde 1 10 Parser.empty).2
        exIde 2 20 Parser.empty).2
      exIdeWorkspace 21 Parser.empty)
    exIdeWorkspace 2 21 Parser.empty).2

/-- An editor on a file of project 2. -/
def exEditor2 : cbEditor :=
  { parentProject := 2, filename := "b.cpp".toList,
    control := { id := 1, text := [], styles := [], currentPos := 0, modify := false } }

/-- The IDE with the editor of project 2 focused and at most two parsers allowed. -/
def exIdeEditor2 : Ide := { exIdeWorkspace with activeEditor := some exEditor2, maxParsers := 2 }

/-- The function token of `void f(int x)`, implemented on line 1 of "a.cpp". -/
def exTokenF : Token :=
  { m_TokenKind := TokenKind.tkFunction, m_Name := "f".toList, m_Namespace := [],
    m_Args := "(int x)".toList, m_ParentIndex := -1, m_Index := 0, m_ImplLine := 1,
    m_ImplLineStart := 1, m_ImplLineEnd := 1, m_IsTemp := false, m_Filename := "a.cpp".toList }

/-- A resolver state whose active parser is done and holds the token of `f`. -/
def exStateF : NativeParser :=
  (NativeParser.init 100 false).setParserObj { Parser.empty with tokenTree := ⟨[some exTokenF]⟩ }

/-- The same state while the batch parse of the active parser is still running. -/
def exStateNotDone : NativeParser :=
  (NativeParser.init 100 false).setParserObj
    { Parser.empty with done := false, tokenTree := ⟨[some exTokenF]⟩ }

/-- The editor of "a.cpp" with the one line `void f(int x){ { int y = 1; } }` (31 characters, the
body starts at offset 14, the inner block is closed at offset 28, the body at offset 30). -/
def exSearchF : ccSearchData :=
  { control := { id := 1, text := "void f(int x)\x7b \x7b int y = 1; \x7d \x7d".toList, styles := [],
                 currentPos := 29, modify := false },
    file := "a.cpp".toList }

/-- The function token of `void helper(int a)` of "a.cpp", implemented on the lines 2 to 5. -/
def exHelperA : Token :=
  { m_TokenKind := TokenKind.tkFunction, m_Name := "helper".toList, m_Namespace := [],
    m_Args := "(int a)".toList, m_ParentIndex := -1, m_Index := 0, m_ImplLine := 1,
    m_ImplLineStart := 2, m_ImplLineEnd := 5, m_IsTemp := false, m_Filename := "a.cpp".toList }

/-- The function token of another `void helper(char b)`, of "b.cpp", implemented on the lines 3
to 9 of that file. -/
def exHelperB : Token :=
  { m_TokenKind := TokenKind.tkFunction, m_Name := "helper".toList, m_Namespace := [],
    m_Args := "(char b)".toList, m_ParentIndex := -1, m_Index := 1, m_ImplLine := 2,
    m_ImplLineStart := 3, m_ImplLineEnd := 9, m_IsTemp := false, m_Filename := "b.cpp".toList }

/-- A resolver state whose active parser is done and holds the two `helper` tokens. -/
def exStateHelpers : NativeParser :=
  (NativeParser.init 100 false).setParserObj
    { Parser.empty with tokenTree := ⟨[some exHelperA, some exHelperB]⟩ }

/-- The editor of "a.cpp" with the five lines of `void helper(int a)`; the caret is at the end of
line 4 (offset 32), inside the body. -/
def exSearchHelper : ccSearchData :=
  { control := { id := 1, text := "void helper(int a)\n\x7b\n  int v;\n  \n\x7d".toList,
                 styles := [], currentPos := 32, modify := false },
    file := "a.cpp".toList }

/-- The state after a first query `MarkItemsByAI` at the caret in `helper`. -/
def exAfterQuery1 : NativeParser :=
  (MarkItemsByAI specHelpers exStateHelpers exSearchHelper [] true false true (-1)).2.2

/-- The state after a second query at the same caret. -/
def exAfterQuery2 : NativeParser :=
  (MarkItemsByAI specHelpers exAfterQuery1 exSearchHelper [] true false true (-1)).2.2

/-- An editor with the text `foo` and the caret at its end. -/
def exSearchFoo : ccSearchData :=
  { control := { id := 2, text := "foo".toList, styles := [], currentPos := 3, modify := false },
    file := "c.cpp".toList }

/-- An editor with the text `objA.m_bbb` and the caret at its end. -/
def exSearchMember : ccSearchData :=
  { control := { id := 3, text := "objA.m_bbb".toList, styles := [], currentPos := 10,
                 modify := false },
    file := "c.cpp".toList }

/-- A project whose extensions node is an empty element. -/
def exProject : cbProject :=
  { extensionsNode := some (TiXmlNode.element "Extensions".toList [] []) }

/-! ## The registry view and its invariants -/

/-- The part of the state the registry invariants speak about: the association list, the active
parser, the fallback parser and the log of destroyed parsers. -/
abbrev RegistryView := List (ProjectPtr × ParserPtr) × ParserPtr × ParserPtr × List ParserPtr

/-- The registry view of a state. -/
def registryView (s : NativeParser) : RegistryView :=
  (s.m_ParserList, s.m_Parser, s.m_TempParser, s.deleted)

/-- The view after the pair `(project, newp)` was pushed to the back of the list, the new parser
becoming active when the fallback was. -/
def addPair (v : RegistryView) (project : ProjectPtr) (newp : ParserPtr) : RegistryView :=
  (v.1 ++ [(project, newp)], (if v.2.1 = v.2.2.1 then newp else v.2.1), v.2.2.1, v.2.2.2)

/-- The registry invariant: the active parser is the fallback parser or the parser of a pair of
the list; the fallback parser is in no pair; no parser is in two pairs; and, when addresses are
not reused (`strict`), no destroyed parser is the fallback or in a pair. -/
def viewOk (strict : Bool) (v : RegistryView) : Prop :=
  (v.2.1 = v.2.2.1 ∨ v.2.1 ∈ v.1.map Prod.snd)
  ∧ v.2.2.1 ∉ v.1.map Prod.snd
  ∧ (v.1.map Prod.snd).Nodup
  ∧ (strict = true → ∀ p ∈ v.2.2.2, p ≠ v.2.2.1 ∧ p ∉ v.1.map Prod.snd)

/-- The address `newp` is free in the view: it is not the fallback parser, in no pair, and, when
addresses are not reused, not the address of a destroyed parser. -/
def viewFresh (strict : Bool) (newp : ParserPtr) (v : RegistryView) : Prop :=
  newp ≠ v.2.2.1 ∧ newp ∉ v.1.map Prod.snd ∧ (strict = true → newp ∉ v.2.2.2)

/-- The view after the pair at index `i` was destroyed and erased. -/
def dropPair (v : RegistryView) (i : Nat) : RegistryView :=
  (v.1.eraseIdx i, (if (v.1.getD i (0, 0)).2 = v.2.1 then v.2.2.1 else v.2.1), v.2.2.1,
    (v.1.getD i (0, 0)).2 :: v.2.2.2)

/-- The active parser is the fallback parser or the parser of a pair of the list. -/
def activeRegistered (s : NativeParser) : Prop :=
  s.m_Parser = s.m_TempParser ∨ s.m_Parser ∈ s.m_ParserList.map Prod.snd

/-- The reachable registry states when `new Parser` never returns the address of a parser that
was destroyed before: addresses then identify parser objects, and `deleted` lists the destroyed
objects. -/
inductive ReachableNoReuse : NativeParser → Prop where
  | init (temp : ParserPtr) (perWorkspace : Bool) (htemp : temp ≠ 0) :
      ReachableNoReuse (NativeParser.init temp perWorkspace)
  | createParser (s : NativeParser) (ide : Ide) (project : ProjectPtr) (newp : ParserPtr)
      (newObj : Parser) (hs : ReachableNoReuse s) (hnew : freshParser s newp)
      (hnever : newp ∉ s.deleted) : ReachableNoReuse (CreateParser s ide project newp newObj).2
  | deleteParser (s : NativeParser) (project : ProjectPtr) (hs : ReachableNoReuse s) :
      ReachableNoReuse (DeleteParser s project).2
  | switchParser (s : NativeParser) (project : ProjectPtr) (parser : ParserPtr)
      (hs : ReachableNoReuse s) : ReachableNoReuse (SwitchParser s project parser).2
  | addProjectToParser (s : NativeParser) (project : ProjectPtr) (updateOk added : Bool)
      (hs : ReachableNoReuse s) : ReachableNoReuse (AddProjectToParser s project updateOk added).2
  | clearParsers (s : NativeParser) (hs : ReachableNoReuse s) : ReachableNoReuse (ClearParsers s)
  | removeObsoleteParsers (s : NativeParser) (ide : Ide) (hs : ReachableNoReuse s) :
      ReachableNoReuse (RemoveObsoleteParsers s ide)
  | rereadParserOptions (s : NativeParser) (ide : Ide) (newp : ParserPtr) (newObj : Parser)
      (hs : ReachableNoReuse s) (hnew : freshParser s newp) (hnever : newp ∉ s.deleted) :
      ReachableNoReuse (RereadParserOptions s ide newp newObj)

/-- Project mode, the projects 1 and 2 have the parsers 10 and 20; the parser 10 is active. -/
def exTwo : NativeParser := (CreateParser exOne exIde 2 20 Parser.empty).2

/-- Workspace mode, the projects 1 and 2 are merged into the shared parser 10. -/
def exSharedTwo : NativeParser := (AddProjectToParser exShared 2 true true).2

/-- The state `exShared` after the mode was changed to "one parser per project" without a
reparse: project mode, the pair (1,10) in the list and project 1 still in the merged set. -/
def exSharedSwitched : NativeParser := RereadParserOptions exShared exIde 11 Parser.empty

/-- The state `exSharedSwitched` after `CreateParser` for project 2. -/
def exSharedSwitchedTwo : NativeParser :=
  (CreateParser exSharedSwitched exIde 2 20 Parser.empty).2

/-- The default IDE with at most one parser allowed. -/
def exIdeCap1 : Ide := { exIde with maxParsers := 1 }

/-- The IDE in project mode with the editor of project 2 focused and at most one parser
allowed. -/
def exIdeEditor2Cap1 : Ide := { exIde with activeEditor := some exEditor2, maxParsers := 1 }

/-- The measure that every successful `DeleteParser` decreases: the number of pairs plus the
number of merged projects. -/
def registryMeasure (s : NativeParser) : Nat :=
  s.m_ParserList.length + s.m_ParsedProjects.length

/-! ## The predefined macros of the compiler -/

/-- The `wxString::Find(const wxString&)`: the offset of the first occurrence of `sub` from
offset `n` on, `wxNOT_FOUND` (-1) when there is none. -/
def wxFind.go (sub : wxString) : wxString → Nat → Int
  | [], n => if sub = [] then (n : Int) else -1
  | c :: cs, n => if sub.isPrefixOf (c :: cs) then (n : Int) else wxFind.go sub cs (n + 1)

def wxFind (s sub : wxString) : Int := wxFind.go sub s 0

/-- The `wxString::Find(wxChar)`: the offset of the first occurrence of the character. -/
def wxFindChar (s : wxString) (ch : Char) : Int :=
  match s.findIdx? (fun c => c = ch) with
  | some i => (i : Int)
  | none => -1

/-- The `wxString::Mid(first, count)`. -/
def wxMid (s : wxString) (first count : Nat) : wxString := (s.drop first).take count

/-- The `wxString::Contains`. -/
def wxContains (s sub : wxString) : Bool := wxFind s sub ≠ -1

/-- The `wxString::IsSameAs` (case sensitive). -/
def IsSameAs (s t : wxString) : Bool := s = t

/-- The world outside the program that `SafeExecute` reads and writes: the environment variable
PATH, the file system, the process launcher, the macros manager, and the static flag `reentry`
of the function. -/
structure ExecWorld where
  /-- The value of the environment variable PATH, `none` when it is not set. -/
  pathEnv : Option wxString
  /-- The `wxFileExists`. -/
  fileExists : wxString → Bool
  /-- Whether `wxSetEnv("PATH", value)` succeeds. -/
  setEnvOk : wxString → Bool
  /-- The `wxExecute` of a command line under a value of PATH: `none` for the result -1,
  otherwise the lines written to the standard output and to the diagnostic output. -/
  execute : wxString → Option wxString → Option (List wxString × List wxString)
  /-- The `MacrosManager::ReplaceMacros`. -/
  replaceMacros : wxString → wxString
  /-- The constant `platform::windows`. -/
  windows : Bool
  /-- The static flag `reentry`. -/
  reentry : Bool

/-- The `wxSetEnv("PATH", value)`. -/
def wxSetEnvPath (w : ExecWorld) (value : wxString) : Bool × ExecWorld :=
  if w.setEnvOk value then (true, { w with pathEnv := some value }) else (false, w)

/-- The `SafeExecute` of the source: the result, the arrays `output` and `error`, and the world
after the call. -/
def SafeExecute (w : ExecWorld) (app_path app args : wxString) :
    Bool × List wxString × List wxString × ExecWorld :=
  let sep : wxString := if w.windows then "\\".toList else "/".toList
  let pth : wxString :=
    w.replaceMacros (if app_path.isEmpty then [] else app_path ++ sep ++ "bin".toList ++ sep)
  let cmd : wxString := w.replaceMacros (pth ++ app)
  if !w.fileExists cmd then (false, [], [], w)
  else if w.reentry then (false, [], [], w)
  else
    let w1 := { w with reentry := true }
    -- wxGetEnv leaves path_env empty when PATH is not set
    let gotEnv : Bool := !pth.isEmpty && w1.pathEnv.isSome
    let path_env : wxString := if gotEnv then w1.pathEnv.getD [] else []
    let w2 :=
      if gotEnv then
        (wxSetEnvPath w1 (pth ++ (if w.windows then ";".toList else ":".toList) ++ path_env)).2
      else w1
    match w2.execute (cmd ++ args) w2.pathEnv with
    | none => (false, [], [], { w2 with reentry := false })
    | some (output, error) =>
      let w3 := if !pth.isEmpty then (wxSetEnvPath w2 path_env).2 else w2
      (true, output, error, { w3 with reentry := false })

/-- The part of a `Compiler` object that the predefined-macro code reads. -/
structure Compiler where
  /-- The `GetMasterPath()`. -/
  masterPath : wxString
  /-- The `GetPrograms().C`. -/
  programC : wxString
  /-- The `SupportsCurrentPlatform()`. -/
  supportsCurrentPlatform : Bool

/-- The static variables of `AddCompilerPredefinedMacrosVC`. -/
structure VCStatics where
  vcDefs : wxString
  firstExecute : Bool
  deriving DecidableEq, Repr

/-- The static variables before the first call. -/
def VCStatics.init : VCStatics := { vcDefs := [], firstExecute := true }

/-- The `_WIN32` or `_WIN64` define that `AddCompilerPredefinedMacrosVC` appends for a version
banner. -/
def AddCompilerPredefinedMacrosVC.bits (compilerVersionInfo : wxString) : wxString :=
  let tmp : wxString := "Microsoft (R) ".toList
  let pos := wxFind compilerVersionInfo tmp
  if pos ≠ -1 then
    let bit := wxMid compilerVersionInfo (pos + (tmp.length : Int)).toNat 2
    if IsSameAs bit "32".toList || wxContains compilerVersionInfo "x86".toList then
      "#define _WIN32".toList ++ "\n".toList
    else if IsSameAs bit "64".toList || wxContains compilerVersionInfo "x64".toList then
      "#define _WIN64".toList ++ "\n".toList
    else []
  else []

/-- The `_MSC_VER` define that `AddCompilerPredefinedMacrosVC` appends for a version banner.
The assignment `ver[pos + 1] = '0'` past the last character of `ver` (undefined in the source)
writes nothing in the model, and `ver[pos + 1]` reads the NUL character there. -/
def AddCompilerPredefinedMacrosVC.version (compilerVersionInfo : wxString) : wxString :=
  let tmp : wxString := "Compiler Version ".toList
  let pos := wxFind compilerVersionInfo tmp
  if pos ≠ -1 then
    let ver := wxMid compilerVersionInfo (pos + (tmp.length : Int)).toNat 4
    let pos := wxFindChar ver '.'
    if pos ≠ -1 then
      let ver1 := ver.set pos.toNat (ver.getD (pos.toNat + 1) (Char.ofNat 0))
      let ver2 := ver1.set (pos.toNat + 1) '0'
      "#define _MSC_VER ".toList ++ ver2
    else []
  else []

/-- The `AddCompilerPredefinedMacrosVC` of the source.  `getCompiler` is
`CompilerFactory::GetCompiler`, `shuttingDown` the value of `Manager::IsAppShuttingDown()` after
the compiler was run, `st` the static variables of the function, `defs` the in-out parameter;
the result holds the return value, `defs` on return, the static variables and the world
afterwards. -/
def AddCompilerPredefinedMacrosVC (getCompiler : wxString → Option Compiler) (shuttingDown : Bool)
    (st : VCStatics) (w : ExecWorld) (compilerId : wxString) (defs : wxString) (parser : Parser) :
    Bool × wxString × VCStatics × ExecWorld :=
  if !st.firstExecute then (true, st.vcDefs, st, w)
  else
    let st1 := { st with firstExecute := false }
    match getCompiler compilerId with
    | none => (false, defs, st1, w)
    | some compiler =>
      if parser.options.platformCheck && !compiler.supportsCurrentPlatform then
        (false, defs, st1, w)
      else
        let r := SafeExecute w compiler.masterPath compiler.programC []
        let error := r.2.2.1
        let w1 := r.2.2.2
        if !r.1 then (false, defs, st1, w1)
        else if shuttingDown then (false, defs, st1, w1)
        else if error.isEmpty then (false, defs, st1, w1)
        else
          let compilerVersionInfo := error.headD []
          let defs := defs ++ AddCompilerPredefinedMacrosVC.bits compilerVersionInfo
          let _defs := defs ++ AddCompilerPredefinedMacrosVC.version compilerVersionInfo
          -- defs = vcDefs;
          (true, st1.vcDefs, st1, w1)

/-- The version banner of the 32-bit compiler of MSVC 6.0 (compiler version 12.00). -/
def exBannerVC : wxString :=
  "Microsoft (R) 32-bit C/C++ Optimizing Compiler Version 12.00.8168 for 80x86".toList

/-- A world in which the compiler `C:\VC\bin\cl.exe` exists and prints `exBannerVC` as its first
diagnostic line. -/
def exWorldVC : ExecWorld :=
  { pathEnv := some "C:\\Windows".toList, fileExists := fun _ => true, setEnvOk := fun _ => true,
    execute := fun _ _ =>
      some ([], [exBannerVC,
                 "Copyright (C) Microsoft Corp 1984-1998. All rights reserved.".toList]),
    replaceMacros := fun x => x, windows := true, reentry := false }

/-- The compiler factory that knows the compiler "msvc8". -/
def exGetCompiler (compilerId : wxString) : Option Compiler :=
  if compilerId = "msvc8".toList then
    some { masterPath := "C:\\VC".toList, programC := "cl.exe".toList,
           supportsCurrentPlatform := true }
  else none

/-! ## Concrete inputs for the function start -/

/-- The editor of "a.cpp" with the one line `void f(int x)`: the text holds no brace. -/
def exSearchNoBrace : ccSearchData :=
  { control := { id := 1, text := "void f(int x)".toList, styles := [], currentPos := 5,
                 modify := false },
    file := "a.cpp".toList }

/-- The editor of "a.cpp" with the two lines `void f(int x){ }` and `int g;`; the caret is on
line 2 (offset 20), outside every function. -/
def exSearchTwoLines : ccSearchData :=
  { control := { id := 1, text := "void f(int x)\x7b \x7d\nint g;".toList, styles := [],
                 currentPos := 20, modify := false },
    file := "a.cpp".toList }

/-- The state after `FindCurrentFunctionStart` was called in `exSearchTwoLines` with the caret
at offset 3, on line 1 inside `f`. -/
def exAfterStartInF : NativeParser :=
  (FindCurrentFunctionStart specHelpers exStateF exSearchTwoLines (some []) (some []) (some (-1))
    3).2.2.2.2

/-- The state after a following call with the caret on line 2, which is not a cache hit. -/
def exAfterStartOutside : NativeParser :=
  (FindCurrentFunctionStart specHelpers exAfterStartInF exSearchTwoLines (some []) (some [])
    (some (-1)) (-1)).2.2.2.2

/-- The editor of "a.cpp" with the one line `void f(int x)`, a NUL character, and `{ }`. -/
def exSearchNul : ccSearchData :=
  { control := { id := 1, text := "void f(int x)".toList ++ [Char.ofNat 0] ++ "\x7b \x7d".toList,
                 styles := [], currentPos := 3, modify := false },
    file := "a.cpp".toList }

/-- The state after `FindCurrentFunctionStart` was called in `exSearchNul`. -/
def exAfterStartNul : NativeParser :=
  (FindCurrentFunctionStart specHelpers exStateF exSearchNul (some []) (some []) (some (-1))
    (-1)).2.2.2.2

/-! ## Concrete inputs of the process launch and the namespace index of the specification -/

/-- A world like `exWorldVC` in which the launch of the compiler fails (`wxExecute` gives -1). -/
def exWorldFails : ExecWorld := { exWorldVC with execute := fun _ _ => none }

/-- A world like `exWorldVC` in which the environment variable PATH is not set. -/
def exWorldNoPath : ExecWorld := { exWorldVC with pathEnv := none }

/-- An editor on a file of project 1. -/
def exEditor1 : cbEditor :=
  { parentProject := 1, filename := "a.cpp".toList,
    control := { id := 1, text := [], styles := [], currentPos := 0, modify := false } }

/-- The IDE in project mode with the editor of project 1 focused and at most one parser
allowed. -/
def exIdeEditor1Cap1 : Ide := { exIde with activeEditor := some exEditor1, maxParsers := 1 }

/-- The index the specification gives for the components of a namespace path: the components
are looked up one after the other with `TokenExists(component, previous index, namespace kind)`,
starting from the global scope -1; `none` as soon as a component does not resolve. -/
def specNamespaceChain (tree : TokenTree) : List ParserComponent → Int → Option Int
  | [], idx => some idx
  | pc :: rest, idx =>
    if tree.TokenExists pc.component idx TokenKind.tkNamespace = -1 then none
    else specNamespaceChain tree rest (tree.TokenExists pc.component idx TokenKind.tkNamespace)

/-- The element the specification adds to the search scope for a namespace path: the index of
the chain when every component resolves, the global-scope sentinel -1 otherwise. -/
def specNamespaceIndex (tree : TokenTree) (components : List ParserComponent) : Int :=
  (specNamespaceChain tree components (-1)).getD (-1)

/-! ## The condensed buffer with the origin of its characters -/

/-- A character of the condensed buffer together with the offset in the editor text it was
copied from; `none` for a character that `ParseLocalBlock` wrote itself. -/
abbrev TaggedChar := Char × Option Int

/-- The `GetTextRange` of the editor with every character tagged with its offset. -/
def cbStyledTextCtrl.GetTextRangeTagged (c : cbStyledTextCtrl) (startPos endPos : Int) :
    List TaggedChar :=
  let a := (min startPos endPos).toNat
  let b := (max startPos endPos).toNat
  (List.enumFrom a ((c.text.drop a).take (b - a))).map (fun p => (p.2, some (p.1 : Int)))

/-- The `padLines` of `ParseLocalBlock` on a tagged buffer. -/
def ParseLocalBlock.padLinesTagged (startLn endLn : Int) (buffer : List TaggedChar) :
    List TaggedChar :=
  if startLn < endLn then List.replicate (endLn - startLn).toNat ('\n', none) ++ buffer
  else buffer

/-- The loop "condense out-of-scope braces" of `ParseLocalBlock` with the buffer tagged: the
same statements as `ParseLocalBlock.condense`, every `GetTextRange` keeping the offsets. -/
def ParseLocalBlock.condenseTagged (stc : cbStyledTextCtrl) (blockStart : Int) :
    Nat → Int → Int → List TaggedChar → Int × List TaggedChar
  | 0, _, scanPos, buffer => (scanPos, buffer)
  | fuel + 1, curPos, scanPos, buffer =>
    if curPos > blockStart then
      if stc.GetCharAt curPos ≠ '\x7d' then
        ParseLocalBlock.condenseTagged stc blockStart fuel (curPos - 1) scanPos buffer
      else
        let style := stc.GetStyleAt curPos
        if stc.IsString style || stc.IsCharacter style || stc.IsComment style then
          ParseLocalBlock.condenseTagged stc blockStart fuel (curPos - 1) scanPos buffer
        else
          let scopeStart := stc.BraceMatch curPos
          if scopeStart < blockStart then (scanPos, buffer)
          else
            let buffer1 := stc.GetTextRangeTagged curPos scanPos ++ buffer
            let buffer2 := ParseLocalBlock.padLinesTagged (stc.LineFromPosition scopeStart)
              (stc.LineFromPosition curPos) buffer1
            let scanPos1 := scopeStart + 1
            let curPos1 := scopeStart
            let prevCharIdx := ParseLocalBlock.skipBack stc (scopeStart - 1 - blockStart).toNat
              (scopeStart - 1)
            if stc.GetCharAt prevCharIdx ≠ ')' then
              ParseLocalBlock.condenseTagged stc blockStart fuel (curPos1 - 1) scanPos1 buffer2
            else
              let paramStart := stc.BraceMatch prevCharIdx
              if paramStart < blockStart then
                ParseLocalBlock.condenseTagged stc blockStart fuel (curPos1 - 1) scanPos1 buffer2
              else
                let prevCharIdx2 := ParseLocalBlock.skipBack stc (paramStart - 1 - blockStart).toNat
                  (paramStart - 1)
                let text := stc.GetTextRange (stc.WordStartPosition prevCharIdx2)
                  (stc.WordEndPosition prevCharIdx2)
                if text = ['f', 'o', 'r'] ∨ text = ['i', 'f'] ∨ text = ['w', 'h', 'i', 'l', 'e']
                    ∨ text = ['c', 'a', 't', 'c', 'h'] then
                  let buffer3 : List TaggedChar :=
                    ((if text = ['f', 'o', 'r'] then ['(', ';', ';', ')', '\x7b']
                      else ['(', '0', ')', '\x7b']).map (fun ch => (ch, none))) ++ buffer2
                  let buffer4 := ParseLocalBlock.padLinesTagged (stc.LineFromPosition prevCharIdx2)
                    (stc.LineFromPosition scopeStart) buffer3
                  let curPos2 := stc.WordStartPosition prevCharIdx2
                  let scanPos2 := stc.WordEndPosition prevCharIdx2
                  ParseLocalBlock.condenseTagged stc blockStart fuel (curPos2 - 1) scanPos2 buffer4
                else
                  ParseLocalBlock.condenseTagged stc blockStart fuel (curPos1 - 1) scanPos1 buffer2
    else (scanPos, buffer)

/-- The condensed buffer of `ParseLocalBlock` (before its `Trim()`) with every character tagged
with the offset it was copied from. -/
def ParseLocalBlock.bufferTagged (stc : cbStyledTextCtrl) (blockStart pos blockEnd : Int) :
    List TaggedChar :=
  let r := ParseLocalBlock.condenseTagged stc blockStart ((pos - blockStart).toNat + 1) pos
    blockEnd []
  stc.GetTextRangeTagged blockStart r.1 ++ r.2

/-- The words that make `ParseLocalBlock` rewrite the header of a spliced-out block. -/
def ParseLocalBlock.isHeaderKeyword (text : wxString) : Prop :=
  text = ['f', 'o', 'r'] ∨ text = ['i', 'f'] ∨ text = ['w', 'h', 'i', 'l', 'e']
    ∨ text = ['c', 'a', 't', 'c', 'h']

instance (text : wxString) : Decidable (ParseLocalBlock.isHeaderKeyword text) := by
  unfold ParseLocalBlock.isHeaderKeyword
  infer_instance

/-- The number of line feeds of a text. -/
def countLines (s : wxString) : Nat := s.count '\n'

/-- The alignment of a tagged buffer with the editor text, seen from its end: every character
copied from offset `o` lies in the range from `blockStart` to `blockEnd`, is the character of
the text at `o`, and is followed in the buffer by as many line feeds as in the text between
`o + 1` and `blockEnd`. -/
def alignedToEnd (stc : cbStyledTextCtrl) (blockStart blockEnd : Int) : List TaggedChar → Prop
  | [] => True
  | (ch, tag) :: post =>
    (match tag with
     | some o => blockStart ≤ o ∧ o < blockEnd ∧ ch = stc.GetCharAt o
        ∧ (countLines (post.map Prod.fst) : Int)
            = stc.LineFromPosition blockEnd - stc.LineFromPosition (o + 1)
     | none => True)
    ∧ alignedToEnd stc blockStart blockEnd post

/-- The test of the loop of `ParseLocalBlock` on the character at `p`: it is a closing brace
outside strings, character literals and comments. -/
def ParseLocalBlock.closesBlock (stc : cbStyledTextCtrl) (p : Int) : Bool :=
  stc.GetCharAt p = '\x7d'
    && !(stc.IsString (stc.GetStyleAt p) || stc.IsCharacter (stc.GetStyleAt p)
          || stc.IsComment (stc.GetStyleAt p))

/-! ## Concrete inputs for the condensed buffer -/

/-- The editor of "a.cpp" with the one line `void f(int x){ int y; int z; }` (30 characters, the
body starts at offset 14, the caret stands at offset 21 after `int y;`). -/
def exSearchDecls : ccSearchData :=
  { control := { id := 1, text := "void f(int x)\x7b int y; int z; \x7d".toList, styles := [],
                 currentPos := 21, modify := false },
    file := "a.cpp".toList }

/-- The editor of "a.cpp" with the one line `void f(int x){ if (x) { int y; } }` (34 characters,
the body starts at offset 14, the block of the `if` is closed at offset 31). -/
def exSearchIf : ccSearchData :=
  { control := { id := 1, text := "void f(int x)\x7b if (x) \x7b int y; \x7d \x7d".toList,
                 styles := [], currentPos := 32, modify := false },
    file := "a.cpp".toList }

/-- The editor of "a.cpp" with a function of twelve lines: a `for` and a `while` with their
blocks on lines of their own, a `switch` with its block on one line, and a declaration of `z`
on the line of the caret (offset 121, the end of that line; the body starts at offset 15). -/
def exSearchLoops : ccSearchData :=
  { control := { id := 1,
                 text := ("void f(int x)\n\x7b\n  for (int i = 0; i < x; ++i)\n  \x7b\n    int y;\n  \x7d\n"
                   ++ "  while (x)\n  \x7b\n  \x7d\n  switch (x) \x7b default: ; \x7d\n  int z;\n\x7d").toList,
                 styles := [], currentPos := 121, modify := false },
    file := "a.cpp".toList }

/-! ## The lock of the token tree -/

/-- An event on the mutex `s_TokenTreeMutex` of the token tree: `CC_LOCKER_TRACK_TT_MTX_LOCK` or
`CC_LOCKER_TRACK_TT_MTX_UNLOCK`. -/
inductive LockEvent where
  | lock
  | unlock
  deriving DecidableEq, Repr

/-- The lock-depth counter over a sequence of events, from the depth `depth` on: `none` when the
lock is acquired while it is held or released while it is free, otherwise the final depth. -/
def runLocks : List LockEvent → Nat → Option Nat
  | [], depth => some depth
  | LockEvent.lock :: rest, depth => if depth = 0 then runLocks rest 1 else none
  | LockEvent.unlock :: rest, depth => if depth = 1 then runLocks rest 0 else none

/-- The lock events of `FindCurrentFunctionStart` in program order.  The two early returns come
before the lock is taken; after it the function returns through the `UNLOCK` in the brace loop
(NUL character), through the one at the end of the `if (token)` block, or through the one after
that block.  `GetTokenFromCurrentLine` and `tree->at` run under the lock and do not take it. -/
def FindCurrentFunctionStart.locks (h : Helpers) (s : NativeParser) (searchData : ccSearchData)
    (caretPos : Int) : List LockEvent :=
  let control := searchData.control
  let pos := if caretPos = -1 then control.GetCurrentPos else caretPos
  if pos < 0 || pos > control.GetLength then []
  else
    let curLine := control.LineFromPosition pos + 1
    if curLine = s.m_LastLine && (control.id = s.m_LastControl && !control.GetModify)
        && searchData.file = s.m_LastFile then []
    else
      let s1 := { s with m_LastFile := searchData.file, m_LastControl := control.id,
                         m_LastLine := curLine }
      let result := h.FindTokensInFile s1.parser searchData.file
      let tree := s1.parser.tokenTree
      let idx := h.GetTokenFromCurrentLine tree result curLine searchData.file
      LockEvent.lock ::
        (match tree.at idx with
         | some token =>
           let lastResult := control.PositionFromLine ((token.m_ImplLine : Int) - 1)
           let r : Int × Bool :=
             if token.m_TokenKind.isAnyFunction then
               FindCurrentFunctionStart.braceLoop control
                 ((control.GetLength - lastResult).toNat + 1) lastResult
             else (lastResult, false)
           if r.2 then [LockEvent.unlock]
           else [LockEvent.unlock]
         | none => [LockEvent.unlock])

/-- The lock events of `FindCurrentFunctionToken` in program order: those of
`FindCurrentFunctionStart`, then, when a function name was found, one critical section around
`FindAIMatches` for a non-empty scope name and one around the loop of `GenerateResultSet`. -/
def FindCurrentFunctionToken.locks (h : Helpers) (s : NativeParser) (searchData : ccSearchData)
    (caretPos : Int) : List LockEvent :=
  let r := FindCurrentFunctionStart h s searchData (some []) (some []) none caretPos
  let scopeName : wxString := r.2.1.getD []
  let procName : wxString := r.2.2.1.getD []
  FindCurrentFunctionStart.locks h s searchData caretPos
    ++ (if procName.isEmpty then []
        else
          (if !scopeName.isEmpty then [LockEvent.lock, LockEvent.unlock] else [])
            ++ [LockEvent.lock, LockEvent.unlock])

/-- The lock events of `ParseBufferForUsingNamespace`: one critical section around the loop over
the namespace paths, entered after `m_Parser->ParseBufferForUsingNamespace` has returned. -/
def ParseBufferForUsingNamespace.locks : List LockEvent := [LockEvent.lock, LockEvent.unlock]

/-- The lock events of `ParseUsingNamespace`. -/
def ParseUsingNamespace.locks (searchData : ccSearchData) (caretPos : Int) : List LockEvent :=
  let pos := if caretPos = -1 then searchData.control.GetCurrentPos else caretPos
  if pos < 0 || pos > searchData.control.GetLength then []
  else ParseBufferForUsingNamespace.locks

/-- Whether the iteration of the `for` loop of `ParseFunctionArguments` for the element `tis` of
`proc_result` ends in one of its `continue` statements, which leave the lock held. -/
def ParseFunctionArguments.continues (searchData : ccSearchData) (curLine : Nat)
    (tree : TokenTree) (tis : Int) : Bool :=
  match tree.at tis with
  | none => true
  | some token =>
    if curLine < token.m_ImplLineStart || curLine > token.m_ImplLineEnd then true
    else if !token.m_Args.isEmpty && !(token.m_Args = ['(', ')']) then
      let buffer := ParseFunctionArguments.argsBuffer token.m_Args
      if !buffer.isEmpty then
        let control := searchData.control
        let textLength := control.GetLength
        if textLength = -1 then true
        else
          let paraPos := control.PositionFromLine ((token.m_ImplLine : Int) - 1)
          if paraPos = -1 then true
          else
            let fuel := (textLength - paraPos).toNat + 1
            let paraPos1 := ParseFunctionArguments.skip control textLength (fun ch => ch = '(')
              fuel paraPos
            let paraPos2 := ParseFunctionArguments.skip control textLength (fun ch => !(ch < ' '))
              fuel paraPos1
            let initLine := control.LineFromPosition paraPos2 + 1
            if initLine = -1 then true else false
      else false
    else false

/-- The lock events of the `for` loop of `ParseFunctionArguments` over the rest of `proc_result`
and of the statement after the loop; `locked` is the flag of the source. -/
def ParseFunctionArguments.loopLocks (h : Helpers) (searchData : ccSearchData) (curLine : Nat) :
    List Int → NativeParser → Bool → List LockEvent
  | [], _, locked => if locked then [LockEvent.unlock] else []
  | tis :: rest, s, locked =>
    (if locked then [LockEvent.unlock] else [])
      ++ LockEvent.lock ::
        (if ParseFunctionArguments.continues searchData curLine s.parser.tokenTree tis then
          ParseFunctionArguments.loopLocks h searchData curLine rest s true
         else
          LockEvent.unlock ::
            ParseFunctionArguments.loopLocks h searchData curLine rest
              (ParseFunctionArguments.body h searchData curLine s tis) false)

/-- The lock events of `ParseFunctionArguments` in program order. -/
def ParseFunctionArguments.locks (h : Helpers) (s : NativeParser) (searchData : ccSearchData)
    (caretPos : Int) : List LockEvent :=
  let r := FindCurrentFunctionToken h s searchData [] caretPos
  let found_at := r.1
  let proc_result := r.2.1
  let s1 := r.2.2
  FindCurrentFunctionToken.locks h s searchData caretPos
    ++ (if found_at = 0 then []
        else
          let pos := if caretPos = -1 then searchData.control.GetCurrentPos else caretPos
          let curLine := (searchData.control.LineFromPosition pos + 1).toNat
          ParseFunctionArguments.loopLocks h searchData curLine proc_result s1 false)

/-- The lock events of `ParseLocalBlock` in program order; `debugSmartSense` is the global
`s_DebugSmartSense`, under which the local tokens are logged in a critical section. -/
def ParseLocalBlock.locks (h : Helpers) (s : NativeParser) (searchData : ccSearchData)
    (caretPos : Int) (debugSmartSense : Bool) : List LockEvent :=
  let r := FindCurrentFunctionStart h s searchData none none (some (-1)) caretPos
  let blockStart := r.1
  let parentIdx : Int := r.2.2.2.1.getD (-1)
  let s1 := r.2.2.2.2
  let parent := s1.parser.tokenTree.at parentIdx
  let isFunction : Bool := match parent with
    | some p => p.m_TokenKind.isAnyFunction
    | none => false
  let s2 : NativeParser :=
    if parentIdx ≠ -1 then
      match parent with
      | some p => if p.m_TokenKind.isAnyFunction then { s1 with m_LastFuncTokenIdx := p.m_Index }
                  else s1
      | none => s1
    else s1
  let initLine : Int :=
    if parentIdx ≠ -1 then
      match parent with
      | some p => if p.m_TokenKind.isAnyFunction then (p.m_ImplLineStart : Int) else 0
      | none => 0
    else 0
  FindCurrentFunctionStart.locks h s searchData caretPos
    ++ (if parentIdx ≠ -1 then [LockEvent.lock, LockEvent.unlock] else [])
    ++ (if parentIdx ≠ -1 ∧ !isFunction then []
        else if blockStart ≠ -1 then
          let stc := searchData.control
          let blockStart1 := if stc.GetCharAt blockStart = '\x7b' then blockStart + 1 else blockStart
          let pos := if caretPos = -1 then stc.GetCurrentPos else caretPos
          let line := stc.LineFromPosition pos
          let blockEnd := stc.GetLineEndPosition line
          if blockEnd < 0 || blockEnd > stc.GetLength then []
          else
            let blockStart2 := if blockStart1 ≥ blockEnd then blockEnd else blockStart1
            let buffer := wxTrim (ParseLocalBlock.buffer stc blockStart2 pos blockEnd)
            ParseBufferForUsingNamespace.locks
              ++ (if !buffer.isEmpty
                    && !(ParseBuffer h s2
                          { buffer := buffer, isLocal := false, bufferSkipBlocks := false,
                            isTemp := true, filename := searchData.file,
                            parentIdx := s2.m_LastFuncTokenIdx, initLine := initLine }).1 then []
                  else if debugSmartSense then [LockEvent.lock, LockEvent.unlock]
                  else [])
        else [])

/-- The lock events of `AI`: those of its call of `FindCurrentFunctionToken`. -/
def AI.locks (h : Helpers) (s : NativeParser) (searchData : ccSearchData) (caretPos : Int) :
    List LockEvent :=
  let s0 := { s with m_LastAISearchWasGlobal := false, m_LastAIGlobalSearch := [] }
  let pos := if caretPos = -1 then searchData.control.GetCurrentPos else caretPos
  if pos < 0 || pos > searchData.control.GetLength then []
  else FindCurrentFunctionToken.locks h s0 searchData pos

/-- The lock events of `MarkItemsByAI(ccSearchData*, ...)` in program order: none when the
parser is not done; otherwise the critical section around the clearing of the temporary tree,
the events of `ParseUsingNamespace`, `ParseFunctionArguments` and `ParseLocalBlock`, and then
either the critical section around the copy of all tokens or the events of `AI`. -/
def MarkItemsByAI.locks (h : Helpers) (s : NativeParser) (searchData : ccSearchData)
    (reallyUseAI : Bool) (caretPos : Int) (debugSmartSense : Bool) : List LockEvent :=
  if !s.parser.done then []
  else
    let s2 := MarkItemsByAI.removeOldTemporaries s
    let search_scope := (ParseUsingNamespace h s2 searchData [] caretPos).2
    let s3 := (ParseFunctionArguments h s2 searchData caretPos).2
    let s4 := (ParseLocalBlock h s3 searchData search_scope caretPos).2.2
    [LockEvent.lock, LockEvent.unlock]
      ++ ParseUsingNamespace.locks searchData caretPos
      ++ ParseFunctionArguments.locks h s2 searchData caretPos
      ++ ParseLocalBlock.locks h s3 searchData caretPos debugSmartSense
      ++ (if !reallyUseAI then [LockEvent.lock, LockEvent.unlock]
          else AI.locks h s4 searchData caretPos)

/-! ## The built-in search directories of the compiler -/

/-- The `wxString::Trim(false)`: drops leading white space. -/
def wxTrimLeft (s : wxString) : wxString := s.dropWhile wxIsspace

/-- The file system as the `wxFileName` of a directory sees it. -/
structure DirWorld where
  /-- The `GetPath()` of `wxFileName(path, wxEmptyString)` after `Normalize()` and
  `SetVolume(GetVolume().MakeUpper())`. -/
  normalizedPath : wxString → wxString
  /-- The `DirExists()` of that file name. -/
  dirExists : wxString → Bool

/-- The static variables of `GetGCCCompilerDirs`: the map `dirs` (a key that was never written
holds the empty array, as `operator[]` makes it) and `cached_result`. -/
structure GCCStatics where
  dirs : wxString → List wxString
  cached_result : List wxString

/-- The static variables before the first call. -/
def GCCStatics.init : GCCStatics := { dirs := fun _ => [], cached_result := [] }

/-- The marker line that precedes the built-in search directories. -/
def GetGCCCompilerDirs.marker : wxString := "#include <...>".toList

/-- The `for` loop of `GetGCCCompilerDirs` over the lines of `error`, from the test of
`idxCount` on: the directories added to `dirs[cpp_compiler]`, and the list of the indices `i` of
all accesses `error[i]` in the order they are made.  An access past the end reads the empty
string here.  Every pass raises `idxCount`, so `fuel` above the number of lines is never used
up. -/
def GetGCCCompilerDirs.scan (fs : DirWorld) (error : List wxString) :
    Nat → Nat → Bool → List wxString → List Nat → List wxString × List Nat
  | 0, _, _, added, reads => (added, reads)
  | fuel + 1, idxCount, start, added, reads =>
    if idxCount < error.length then
      let path := wxTrimLeft (wxTrim (error.getD idxCount []))
      let reads1 := reads ++ [idxCount]
      if !start then
        if !GetGCCCompilerDirs.marker.isPrefixOf path then
          GetGCCCompilerDirs.scan fs error fuel (idxCount + 1) start added reads1
        else
          let idxCount1 := idxCount + 1
          let path1 := wxTrimLeft (wxTrim (error.getD idxCount1 []))
          let reads2 := reads1 ++ [idxCount1]
          if !fs.dirExists path1 then (added, reads2)
          else
            GetGCCCompilerDirs.scan fs error fuel (idxCount1 + 1) true
              (added ++ [fs.normalizedPath path1]) reads2
      else
        if !fs.dirExists path then (added, reads1)
        else
          GetGCCCompilerDirs.scan fs error fuel (idxCount + 1) start
            (added ++ [fs.normalizedPath path]) reads1
    else (added, reads)

/-- The `GetGCCCompilerDirs` of the source: the returned array, the indices of the accesses
`error[i]` made by the scan, the static variables and the world after the call.
`appShuttingDown` is the result of `Manager::IsAppShuttingDown()` after the compiler has run;
the arguments under `#ifdef __WXMSW__` are those of a world with `platform::windows`. -/
def GetGCCCompilerDirs (w : ExecWorld) (fs : DirWorld) (st : GCCStatics) (appShuttingDown : Bool)
    (cpp_path cpp_executable : wxString) : List wxString × List Nat × GCCStatics × ExecWorld :=
  let sep : wxString := if w.windows then "\\".toList else "/".toList
  let cpp_compiler := w.replaceMacros (cpp_path ++ sep ++ "bin".toList ++ sep ++ cpp_executable)
  let st1 := { st with cached_result := st.dirs cpp_compiler }
  if !st1.cached_result.isEmpty then (st1.cached_result, [], st1, w)
  else
    let args : wxString :=
      if w.windows then " -v -E -x c++ nul".toList else " -v -E -x c++ /dev/null".toList
    let r := SafeExecute w cpp_path cpp_executable args
    let error := r.2.2.1
    let w1 := r.2.2.2
    if !r.1 then (st1.cached_result, [], st1, w1)
    else if appShuttingDown then (st1.cached_result, [], st1, w1)
    else
      let sc := GetGCCCompilerDirs.scan fs error (error.length + 1) 0 false [] []
      let st2 := { st1 with
        dirs := fun key => if key = cpp_compiler then st1.dirs cpp_compiler ++ sc.1
                           else st1.dirs key }
      (st2.dirs cpp_compiler, sc.2, st2, w1)

/-- A world in which the compiler writes the marker line as the last line of its diagnostic
output. -/
def exWorldGCC : ExecWorld :=
  { pathEnv := some "/usr/bin".toList, fileExists := fun _ => true, setEnvOk := fun _ => true,
    execute := fun _ _ =>
      some ([], ["ignoring nonexistent directory \"/usr/local/include\"".toList,
                 "#include <...> search starts here:".toList]),
    replaceMacros := fun x => x, windows := false, reentry := false }

/-- A file system in which every directory with a non-empty name exists. -/
def exDirs : DirWorld :=
  { normalizedPath := fun p => p, dirExists := fun p => !p.isEmpty }

/-! ## The call tips -/

/-- The `wxArrayString::Sort()`: the strings in ascending order. -/
def wxSort (items : List wxString) : List wxString :=
  items.insertionSort (fun a b => a ≤ b)

/-- The first loop `while (--pos > 0)` of `GetCallTips`, from the decrement of `pos` on: `none`
when the loop returns at a semicolon, otherwise `pos` and `commas` after the loop.  Every pass
lowers `pos`, so `fuel` above `pos` is never used up. -/
def GetCallTips.scan (c : cbStyledTextCtrl) : Nat → Int → Int → Int → Option (Int × Int)
  | 0, pos, _, commas => some (pos, commas)
  | fuel + 1, pos, nest, commas =>
    if pos - 1 > 0 then
      let style := c.GetStyleAt (pos - 1)
      if c.IsString style || c.IsCharacter style || c.IsComment style then
        GetCallTips.scan c fuel (pos - 1) nest commas
      else
        let ch := c.GetCharAt (pos - 1)
        if ch = ';' then none
        else if ch = ',' then
          GetCallTips.scan c fuel (pos - 1) nest (if nest = 0 then commas + 1 else commas)
        else if ch = ')' then GetCallTips.scan c fuel (pos - 1) (nest - 1) commas
        else if ch = '(' then
          if nest + 1 > 0 then some (pos - 1, commas)
          else GetCallTips.scan c fuel (pos - 1) (nest + 1) commas
        else GetCallTips.scan c fuel (pos - 1) nest commas
    else some (pos - 1, commas)

/-- The second loop `while (--pos > 0)` of `GetCallTips` ("strip un-wanted"): `pos` after the
loop. -/
def GetCallTips.strip (c : cbStyledTextCtrl) : Nat → Int → Int
  | 0, pos => pos
  | fuel + 1, pos =>
    if pos - 1 > 0 then
      if c.GetCharAt (pos - 1) ≤ ' ' || c.IsComment (c.GetStyleAt (pos - 1)) then
        GetCallTips.strip c fuel (pos - 1)
      else pos - 1
    else pos - 1

/-- The `GetCallTips` of the source: the returned position, the array `items`, `typedCommas`
and the state after the call.  `ed` is `none` for a null pointer; `computeCallTip` is the
`ComputeCallTip` of the base class, which fills `items` from the token tree and the result
set. -/
def GetCallTips (h : Helpers) (computeCallTip : TokenTree → TokenIdxSet → List wxString)
    (s : NativeParser) (ide : Ide) (ed : Option cbEditor) (pos : Int) :
    Int × List wxString × Int × NativeParser :=
  match ed with
  | none => (-1, ["Parsing at the moment...".toList], 0, s)
  | some ed =>
    if !s.parser.done then (-1, ["Parsing at the moment...".toList], 0, s)
    else
      let control := ed.control
      let pos1 := if pos = -1 then control.GetCurrentPos else pos
      match GetCallTips.scan control (pos1.toNat + 1) pos1 0 0 with
      | none => (-1, [], 0, s)
      | some (pos2, commas) =>
        let pos3 := GetCallTips.strip control (pos2.toNat + 1) pos2
        let start := control.WordStartPosition pos3
        let end_ := control.WordEndPosition pos3
        let target := control.GetTextRange start end_
        if target.isEmpty then (-1, [], 0, s)
        else
          let r := MarkItemsByAI_1 h s ide [] true false true end_
          let items := computeCallTip r.2.2.parser.tokenTree r.2.1
          (end_, wxSort items, commas, r.2.2)

/-- The offset `o` of the text is outside string, character and comment styled text. -/
def specUnstyled (c : cbStyledTextCtrl) (o : Int) : Bool :=
  !(c.IsString (c.GetStyleAt o) || c.IsCharacter (c.GetStyleAt o) || c.IsComment (c.GetStyleAt o))

/-- The offsets strictly between `lo` and `hi`, in ascending order. -/
def specOffsets (lo hi : Int) : List Int :=
  (List.range (hi - 1 - lo).toNat).map (fun (i : Nat) => lo + 1 + (i : Int))

/-- The number of unstyled opening parentheses minus the number of unstyled closing
parentheses strictly between `o` and `start`. -/
def specNest (c : cbStyledTextCtrl) (o start : Int) : Int :=
  (((specOffsets o start).countP (fun i => specUnstyled c i && c.GetCharAt i == '(') : Nat) : Int)
    - (((specOffsets o start).countP (fun i => specUnstyled c i && c.GetCharAt i == ')') : Nat)
        : Int)

/-- The number of commas strictly between `p` and `start` that are outside styled text and
outside any pair of parentheses between them: as many parentheses are opened as are closed
between the comma and `start`. -/
def specTypedCommas (c : cbStyledTextCtrl) (p start : Int) : Nat :=
  (specOffsets p start).countP
    (fun i => specUnstyled c i && c.GetCharAt i == ',' && specNest c i start == 0)

/-- The offset `p` holds the opening parenthesis that encloses `start`: an unstyled `(` at an
offset above 0 and below `start`, with every unstyled `(` after it closed before `start` and as
many parentheses opened as closed between it and `start`. -/
def specEnclosing (c : cbStyledTextCtrl) (p start : Int) : Prop :=
  0 < p ∧ p < start ∧ specUnstyled c p = true ∧ c.GetCharAt p = '('
    ∧ specNest c p start = 0
    ∧ ∀ o ∈ specOffsets p start, specUnstyled c o = true → c.GetCharAt o = '(' →
        specNest c o start < 0

instance (c : cbStyledTextCtrl) (p start : Int) : Decidable (specEnclosing c p start) := by
  unfold specEnclosing
  infer_instance

/-- No unstyled semicolon stands strictly between `p` and `start`. -/
def specNoSemicolon (c : cbStyledTextCtrl) (p start : Int) : Prop :=
  ∀ o ∈ specOffsets p start, specUnstyled c o = true → c.GetCharAt o ≠ ';'

instance (c : cbStyledTextCtrl) (p start : Int) : Decidable (specNoSemicolon c p start) := by
  unfold specNoSemicolon
  infer_instance

/-- Going back from `start`, the unstyled semicolon at the offset `j` is met before another
semicolon and before an opening parenthesis that encloses `start`. -/
def specSemicolonFirst (c : cbStyledTextCtrl) (j start : Int) : Prop :=
  0 < j ∧ j < start ∧ specUnstyled c j = true ∧ c.GetCharAt j = ';'
    ∧ specNoSemicolon c j start
    ∧ ∀ o ∈ specOffsets j start, specUnstyled c o = true → c.GetCharAt o = '(' →
        specNest c o start < 0

instance (c : cbStyledTextCtrl) (j start : Int) : Decidable (specSemicolonFirst c j start) := by
  unfold specSemicolonFirst
  infer_instance

/-- The editor of "a.cpp" with the one line `x = (a, b`, the caret at its end: the parenthesis
at offset 4 encloses the caret, and no word stands before it. -/
def exEditorParen : cbEditor :=
  { parentProject := 1, filename := "a.cpp".toList,
    control := { id := 1, text := "x = (a, b".toList, styles := [], currentPos := 9,
                 modify := false } }

/-- The editor of "a.cpp" with the one line `foo(a, (b, c), d`, the caret at its end: the
parenthesis at offset 3 encloses the caret, the commas at the offsets 5 and 13 are outside
the inner pair of parentheses. -/
def exEditorCall : cbEditor :=
  { parentProject := 1, filename := "a.cpp".toList,
    control := { id := 1, text := "foo(a, (b, c), d".toList, styles := [], currentPos := 16,
                 modify := false } }

/-- The editor of "a.cpp" with the one line `f(a); g`, the caret at its end. -/
def exEditorSemicolon : cbEditor :=
  { parentProject := 1, filename := "a.cpp".toList,
    control := { id := 1, text := "f(a); g".toList, styles := [], currentPos := 7,
                 modify := false } }

/-- A `ComputeCallTip` that makes one item of every token of the result set: its name and its
arguments. -/
def exComputeCallTip (tree : TokenTree) (result : TokenIdxSet) : List wxString :=
  result.filterMap (fun i => (tree.at i).map (fun tk => tk.m_Name ++ tk.m_Args))

/-! ## The block-by-block condensing of the specification -/

/-- Written from the amended claim: the condensing of the text between the body start and the
offset `curPos`, block by block.  `specCondenses stc blockStart curPos scanPos buffer r` says
that, with the text from `scanPos` on already in `buffer`, the condensing of the text up to
`curPos` ends with the scan position and the buffer `r`.  The block that is spliced out next is
the one whose closing brace `c` (outside strings, character literals and comments) is the
nearest at or below `curPos`; `ss` is the offset of its opening brace, `q` the offset of the
character before the block, `ps` the match of `q` and `k` the offset of the character before
`ps`, white space and comments skipped; the word at `k` stands from `ws` to `we`. -/
inductive specCondenses (stc : cbStyledTextCtrl) (blockStart : Int) :
    Int → Int → wxString → Int × wxString → Prop where
  /-- No block is closed between the body start and `curPos`: nothing is spliced out. -/
  | done (curPos scanPos : Int) (buffer : wxString)
      (hno : ∀ p ∈ specOffsets blockStart (curPos + 1),
        ParseLocalBlock.closesBlock stc p = false) :
      specCondenses stc blockStart curPos scanPos buffer (scanPos, buffer)
  /-- The nearest closed block was opened before the body start: the condensing ends. -/
  | outside (curPos scanPos : Int) (buffer : wxString) (c : Int)
      (hc : c ∈ specOffsets blockStart (curPos + 1))
      (hfirst : ∀ p ∈ specOffsets c (curPos + 1), ParseLocalBlock.closesBlock stc p = false)
      (hclose : ParseLocalBlock.closesBlock stc c = true)
      (hout : stc.BraceMatch c < blockStart) :
      specCondenses stc blockStart curPos scanPos buffer (scanPos, buffer)
  /-- The nearest closed block follows a parenthesised header with the keyword `for`: the text
  from the end of the keyword to the closing brace is replaced by `(;;)` and the opening brace
  (with the line feeds of the replaced text), and the condensing goes on before the keyword. -/
  | headerFor (curPos scanPos : Int) (buffer : wxString) (c ss q ps k ws we : Int)
      (buffer1 : wxString) (r : Int × wxString)
      (hc : c ∈ specOffsets blockStart (curPos + 1))
      (hfirst : ∀ p ∈ specOffsets c (curPos + 1), ParseLocalBlock.closesBlock stc p = false)
      (hclose : ParseLocalBlock.closesBlock stc c = true)
      (hss : ss = stc.BraceMatch c) (hin : blockStart ≤ ss)
      (hq : q = ParseLocalBlock.skipBack stc (ss - 1 - blockStart).toNat (ss - 1))
      (hparen : stc.GetCharAt q = ')') (hps : ps = stc.BraceMatch q) (hpin : blockStart ≤ ps)
      (hk : k = ParseLocalBlock.skipBack stc (ps - 1 - blockStart).toNat (ps - 1))
      (hws : ws = stc.WordStartPosition k) (hwe : we = stc.WordEndPosition k)
      (hword : stc.GetTextRange ws we = ['f', 'o', 'r'])
      (hbuf : buffer1
        = ParseLocalBlock.padLines (stc.LineFromPosition k) (stc.LineFromPosition ss)
            (['(', ';', ';', ')', '\x7b']
              ++ ParseLocalBlock.padLines (stc.LineFromPosition ss) (stc.LineFromPosition c)
                  (stc.GetTextRange c scanPos ++ buffer)))
      (hrest : specCondenses stc blockStart (ws - 1) we buffer1 r) :
      specCondenses stc blockStart curPos scanPos buffer r
  /-- The nearest closed block follows a parenthesised header with the keyword `if`, `while` or
  `catch`: the text from the end of the keyword to the closing brace is replaced by `(0)` and
  the opening brace, and the condensing goes on before the keyword. -/
  | headerIf (curPos scanPos : Int) (buffer : wxString) (c ss q ps k ws we : Int)
      (buffer1 : wxString) (r : Int × wxString)
      (hc : c ∈ specOffsets blockStart (curPos + 1))
      (hfirst : ∀ p ∈ specOffsets c (curPos + 1), ParseLocalBlock.closesBlock stc p = false)
      (hclose : ParseLocalBlock.closesBlock stc c = true)
      (hss : ss = stc.BraceMatch c) (hin : blockStart ≤ ss)
      (hq : q = ParseLocalBlock.skipBack stc (ss - 1 - blockStart).toNat (ss - 1))
      (hparen : stc.GetCharAt q = ')') (hps : ps = stc.BraceMatch q) (hpin : blockStart ≤ ps)
      (hk : k = ParseLocalBlock.skipBack stc (ps - 1 - blockStart).toNat (ps - 1))
      (hws : ws = stc.WordStartPosition k) (hwe : we = stc.WordEndPosition k)
      (hword : stc.GetTextRange ws we = ['i', 'f']
        ∨ stc.GetTextRange ws we = ['w', 'h', 'i', 'l', 'e']
        ∨ stc.GetTextRange ws we = ['c', 'a', 't', 'c', 'h'])
      (hbuf : buffer1
        = ParseLocalBlock.padLines (stc.LineFromPosition k) (stc.LineFromPosition ss)
            (['(', '0', ')', '\x7b']
              ++ ParseLocalBlock.padLines (stc.LineFromPosition ss) (stc.LineFromPosition c)
                  (stc.GetTextRange c scanPos ++ buffer)))
      (hrest : specCondenses stc blockStart (ws - 1) we buffer1 r) :
      specCondenses stc blockStart curPos scanPos buffer r
  /-- The nearest closed block follows no parenthesised header in the body, or one whose word
  is none of the four keywords: the text between its braces is removed, the text up to and
  including the opening brace is left as it is, and the condensing goes on before the opening
  brace. -/
  | plain (curPos scanPos : Int) (buffer : wxString) (c ss q ps k ws we : Int)
      (buffer1 : wxString) (r : Int × wxString)
      (hc : c ∈ specOffsets blockStart (curPos + 1))
      (hfirst : ∀ p ∈ specOffsets c (curPos + 1), ParseLocalBlock.closesBlock stc p = false)
      (hclose : ParseLocalBlock.closesBlock stc c = true)
      (hss : ss = stc.BraceMatch c) (hin : blockStart ≤ ss)
      (hq : q = ParseLocalBlock.skipBack stc (ss - 1 - blockStart).toNat (ss - 1))
      (hps : ps = stc.BraceMatch q)
      (hk : k = ParseLocalBlock.skipBack stc (ps - 1 - blockStart).toNat (ps - 1))
      (hws : ws = stc.WordStartPosition k) (hwe : we = stc.WordEndPosition k)
      (hplain : stc.GetCharAt q ≠ ')' ∨ ps < blockStart
        ∨ ¬ ParseLocalBlock.isHeaderKeyword (stc.GetTextRange ws we))
      (hbuf : buffer1
        = ParseLocalBlock.padLines (stc.LineFromPosition ss) (stc.LineFromPosition c)
            (stc.GetTextRange c scanPos ++ buffer))
      (hrest : specCondenses stc blockStart (ss - 1) (ss + 1) buffer1 r) :
      specCondenses stc blockStart curPos scanPos buffer r

/-! ## Theorems: the parser registry -/

theorem DeleteParser_false (s : NativeParser) (project : ProjectPtr)
    (hfalse : (DeleteParser s project).1 = false) : (DeleteParser s project).2 = s := by
  unfold DeleteParser at hfalse ⊢
  cases hit : DeleteParser.findIt s project with
  | none => simp
  | some i =>
    simp only [hit] at hfalse ⊢
    by_cases hw : s.m_ParserPerWorkspace = true
    · simp only [hw, if_true] at hfalse ⊢
      unfold RemoveProjectFromParser at hfalse ⊢
      by_cases hp : GetParserByProject s project = 0
      · simp only [hp, if_true] at hfalse ⊢
        by_cases he : s.m_ParsedProjects.isEmpty = true
        · simp [he] at hfalse
        · simp [he]
      · simp only [hp, if_false] at hfalse ⊢
        by_cases he : (setErase project s.m_ParsedProjects).isEmpty = true
        · simp [he] at hfalse
        · simp [he] at hfalse
    · simp only [hw] at hfalse ⊢
      by_cases he : s.m_ParsedProjects.isEmpty = true
      · simp [he] at hfalse
      · simp [he]

theorem SetParser_registry (s : NativeParser) (parser : ParserPtr) :
    (SetParser s parser).m_ParserList = s.m_ParserList
    ∧ (SetParser s parser).m_ParsedProjects = s.m_ParsedProjects
    ∧ (SetParser s parser).m_ParserPerWorkspace = s.m_ParserPerWorkspace
    ∧ (SetParser s parser).m_TempParser = s.m_TempParser := by
  unfold SetParser
  by_cases h1 : s.m_Parser = parser
  · rw [if_pos h1]
    exact ⟨rfl, rfl, rfl, rfl⟩
  · rw [if_neg h1]
    by_cases h2 : s.m_Parser ≠ 0
    · simp only [if_pos h2]
      exact ⟨rfl, rfl, rfl, rfl⟩
    · simp only [if_neg h2]
      exact ⟨rfl, rfl, rfl, rfl⟩

theorem GetParserByProject_congr (s t : NativeParser)
    (hl : t.m_ParserList = s.m_ParserList) (hp : t.m_ParsedProjects = s.m_ParsedProjects)
    (hm : t.m_ParserPerWorkspace = s.m_ParserPerWorkspace) (project : ProjectPtr) :
    GetParserByProject t project = GetParserByProject s project := by
  unfold GetParserByProject
  rw [hl, hp, hm]

theorem RemoveObsoleteParsers_below_cap (s : NativeParser) (ide : Ide)
    (hcap : s.m_ParserList.length ≤ ide.maxParsers) : RemoveObsoleteParsers s ide = s := by
  unfold RemoveObsoleteParsers RemoveObsoleteParsers.whileLoop
  have hlen : ¬ (s.m_ParserList.length > ide.maxParsers) := Nat.not_lt.mpr hcap
  simp only [hlen, if_false]

theorem CreateParser_register_fields (s : NativeParser) (project : ProjectPtr)
    (parser : ParserPtr) :
    (CreateParser.register s project parser).m_ParserList = s.m_ParserList ++ [(project, parser)]
    ∧ (CreateParser.register s project parser).m_ParserPerWorkspace = s.m_ParserPerWorkspace
    ∧ (CreateParser.register s project parser).m_ParsedProjects
        = (if s.m_ParserPerWorkspace then setInsert project s.m_ParsedProjects
           else s.m_ParsedProjects)
    ∧ (CreateParser.register s project parser).m_TempParser = s.m_TempParser := by
  have hs2 : ∃ s2, (if s.m_Parser = s.m_TempParser then SetParser s parser else s) = s2
      ∧ s2.m_ParserList = s.m_ParserList ∧ s2.m_ParsedProjects = s.m_ParsedProjects
      ∧ s2.m_ParserPerWorkspace = s.m_ParserPerWorkspace ∧ s2.m_TempParser = s.m_TempParser := by
    by_cases hc : s.m_Parser = s.m_TempParser
    · have hreg := SetParser_registry s parser
      exact ⟨SetParser s parser, if_pos hc, hreg.1, hreg.2.1, hreg.2.2.1, hreg.2.2.2⟩
    · exact ⟨s, if_neg hc, rfl, rfl, rfl, rfl⟩
  obtain ⟨s2, e, h1, h2, h3, h4⟩ := hs2
  unfold CreateParser.register
  dsimp only
  rw [e]
  by_cases hm : s2.m_ParserPerWorkspace = true
  · rw [if_pos hm]
    have hm0 : s.m_ParserPerWorkspace = true := h3 ▸ hm
    rw [if_pos hm0]
    refine ⟨?_, ?_, ?_, ?_⟩
    · show s2.m_ParserList ++ _ = _
      rw [h1]
    · exact h3
    · show setInsert project s2.m_ParsedProjects = _
      rw [h2]
    · exact h4
  · rw [if_neg hm]
    have hm0 : ¬ s.m_ParserPerWorkspace = true := h3 ▸ hm
    rw [if_neg hm0]
    refine ⟨?_, ?_, ?_, ?_⟩
    · show s2.m_ParserList ++ _ = _
      rw [h1]
    · exact h3
    · exact h2
    · exact h4

theorem CreateParser_new (s : NativeParser) (ide : Ide) (project : ProjectPtr)
    (newp : ParserPtr) (newObj : Parser) (hmode : s.m_ParserPerWorkspace = false)
    (hnew : newp ≠ 0) (hget : GetParserByProject s project = 0) :
    CreateParser s ide project newp newObj
      = (newp, RemoveObsoleteParsers
          (CreateParser.register { s with heap := Function.update s.heap newp newObj } project newp)
          ide) := by
  have hd : DoFullParsing project newp = true := by simp [DoFullParsing, hnew]
  unfold CreateParser
  simp only [hget, ne_eq, not_true_eq_false, if_false, hmode, Bool.false_and,
    Bool.false_eq_true, hd, Bool.not_true]

/-- In project mode, below the cap of parsers, `CreateParser` for a project that has no pair yet
registers the new parser: afterwards `GetParserByProject` returns it. -/
theorem CreateParser_registers (s : NativeParser) (ide : Ide) (project : ProjectPtr)
    (newp : ParserPtr) (newObj : Parser) (hmode : s.m_ParserPerWorkspace = false)
    (hnew : newp ≠ 0) (hnone : ∀ it ∈ s.m_ParserList, it.1 ≠ project)
    (hcap : s.m_ParserList.length < ide.maxParsers) :
    (CreateParser s ide project newp newObj).1 = newp
    ∧ GetParserByProject (CreateParser s ide project newp newObj).2 project = newp
    ∧ (CreateParser s ide project newp newObj).2.m_ParserList
        = s.m_ParserList ++ [(project, newp)] := by
  have hfind : s.m_ParserList.find? (fun it => decide (it.1 = project)) = none := by
    rw [List.find?_eq_none]
    intro it hit
    simpa using hnone it hit
  have hget : GetParserByProject s project = 0 := by
    unfold GetParserByProject
    simp [hmode, hfind]
  have hcreate := CreateParser_new s ide project newp newObj hmode hnew hget
  have hf := CreateParser_register_fields
    { s with heap := Function.update s.heap newp newObj } project newp
  have hl4 : (CreateParser.register { s with heap := Function.update s.heap newp newObj }
      project newp).m_ParserList = s.m_ParserList ++ [(project, newp)] := hf.1
  have hm4 : (CreateParser.register { s with heap := Function.update s.heap newp newObj }
      project newp).m_ParserPerWorkspace = false := hf.2.1.trans hmode
  have hevict : RemoveObsoleteParsers
      (CreateParser.register { s with heap := Function.update s.heap newp newObj } project newp)
      ide
      = CreateParser.register { s with heap := Function.update s.heap newp newObj } project
          newp := by
    apply RemoveObsoleteParsers_below_cap
    rw [hl4, List.length_append, List.length_singleton]
    omega
  rw [hcreate, hevict]
  refine ⟨rfl, ?_, hl4⟩
  show GetParserByProject _ project = newp
  unfold GetParserByProject
  simp only [hm4, Bool.false_eq_true, if_false, hl4, List.find?_append, hfind]
  simp

/-- C1, as stated, fails: in workspace mode with project 1 already merged into the shared parser
10, `CreateParser` for project 2 returns the shared parser 10, not null, also when it is called
a second time with no `DeleteParser` in between. -/
theorem CreateParser_twice_returns_shared :
    (CreateParser exShared exIdeWorkspace 2 11 Parser.empty).1 = 10
    ∧ (CreateParser (CreateParser exShared exIdeWorkspace 2 11 Parser.empty).2 exIdeWorkspace 2 12
        Parser.empty).1 = 10 := by
  decide

/-- C1 (amended): when project `P` has a registered parser after a first `CreateParser(P)`
(`GetParserByProject(P)` is not null), a second `CreateParser(P)` returns null and leaves the
registry (association list, merged-project set and everything else) as the first call left it,
in project mode and in workspace mode alike. -/
theorem CreateParser_again_returns_null (s : NativeParser) (ide1 ide2 : Ide)
    (project : ProjectPtr) (newp1 newp2 : ParserPtr) (obj1 obj2 : Parser)
    (hreg : GetParserByProject (CreateParser s ide1 project newp1 obj1).2 project ≠ 0) :
    CreateParser (CreateParser s ide1 project newp1 obj1).2 ide2 project newp2 obj2
      = (0, (CreateParser s ide1 project newp1 obj1).2) := by
  generalize (CreateParser s ide1 project newp1 obj1).2 = s1 at hreg ⊢
  unfold CreateParser
  rw [if_pos hreg]

/-- Witness of `CreateParser_again_returns_null`: project mode, project 1, parsers 10 and 11. -/
theorem CreateParser_again_returns_null_witness :
    GetParserByProject (CreateParser (NativeParser.init 100 false) exIde 1 10 Parser.empty).2 1 ≠ 0
    ∧ CreateParser (CreateParser (NativeParser.init 100 false) exIde 1 10 Parser.empty).2 exIde 1 11
        Parser.empty
      = (0, (CreateParser (NativeParser.init 100 false) exIde 1 10 Parser.empty).2) :=
  ⟨by decide, CreateParser_again_returns_null (NativeParser.init 100 false) exIde exIde 1 10 11
    Parser.empty Parser.empty (by decide)⟩

/-- C2: the code breaks the claim at a reachable state.  In `exStale` (workspace mode, pairs
(1,10), (2,20), (2,21), merged set {2}) with the editor of project 2 focused,
`GetParserInfoByCurrentEditor` reports the parser 10 for project 2; with a cap of two parsers
`RemoveObsoleteParsers` skips the pair (1,10) and calls `DeleteParser(2)` for the pair (2,20),
which destroys and unregisters the parser 10. -/
theorem RemoveObsoleteParsers_deletes_parser_of_editor :
    Reachable exStale
    ∧ exStale.m_ParserList = [(1, 10), (2, 20), (2, 21)]
    ∧ GetParserInfoByCurrentEditor exStale exIdeEditor2 = (2, 10)
    ∧ (RemoveObsoleteParsers exStale exIdeEditor2).m_ParserList = [(2, 20), (2, 21)]
    ∧ (RemoveObsoleteParsers exStale exIdeEditor2).deleted = [10] := by
  refine ⟨?_, by decide, by decide, by decide, by decide⟩
  exact Reachable.createParser _ _ _ _ _
    (Reachable.rereadParserOptions _ _ _ _
      (Reachable.createParser _ _ _ _ _
        (Reachable.createParser _ _ _ _ _ (Reachable.init 100 false (by decide)) (by decide))
        (by decide))
      (by decide))
    (by decide)

/-- C10: the code breaks the claim.  From the initial registry, `CreateParser(1)`, a change of
mode to "one parser per workspace" through `RereadParserOptions` (without reparse) and
`CreateParser(1)` again lead to a state whose association list holds project 1 in two pairs. -/
theorem Reachable_duplicate_project :
    Reachable exDup
    ∧ exDup.m_ParserList = [(1, 10), (1, 11)]
    ∧ ¬ (exDup.m_ParserList.map Prod.fst).Nodup := by
  refine ⟨?_, by decide, by decide⟩
  exact Reachable.createParser _ _ _ _ _
    (Reachable.rereadParserOptions _ _ _ _
      (Reachable.createParser _ _ _ _ _ (Reachable.init 100 false (by decide)) (by decide))
      (by decide))
    (by decide)

/-! ## Theorems: queries at a caret outside the buffer, and on a parser that is not done -/

theorem outOfRange_cond (control : cbStyledTextCtrl) (caretPos : Int)
    (hpos : caretPosition control caretPos < 0
      ∨ caretPosition control caretPos > control.GetLength) :
    ((decide ((if caretPos = -1 then control.GetCurrentPos else caretPos) < 0)
      || decide ((if caretPos = -1 then control.GetCurrentPos else caretPos) > control.GetLength))
      = true) := by
  unfold caretPosition at hpos
  simpa using hpos

theorem FindCurrentFunctionStart_outOfRange (h : Helpers) (s : NativeParser)
    (searchData : ccSearchData) (nameSpace procName : Option wxString)
    (functionIndex : Option Int) (caretPos : Int)
    (hpos : caretPosition searchData.control caretPos < 0
      ∨ caretPosition searchData.control caretPos > searchData.control.GetLength) :
    FindCurrentFunctionStart h s searchData nameSpace procName functionIndex caretPos
      = (-1, nameSpace, procName, functionIndex, s) := by
  have hc := outOfRange_cond searchData.control caretPos hpos
  unfold FindCurrentFunctionStart
  simp only [hc, if_true]

theorem FindCurrentFunctionToken_outOfRange (h : Helpers) (s : NativeParser)
    (searchData : ccSearchData) (result : TokenIdxSet) (caretPos : Int)
    (hpos : caretPosition searchData.control caretPos < 0
      ∨ caretPosition searchData.control caretPos > searchData.control.GetLength) :
    FindCurrentFunctionToken h s searchData result caretPos = (0, result, s) := by
  unfold FindCurrentFunctionToken
  rw [FindCurrentFunctionStart_outOfRange h s searchData _ _ _ caretPos hpos]
  simp

theorem ParseFunctionArguments_outOfRange (h : Helpers) (s : NativeParser)
    (searchData : ccSearchData) (caretPos : Int)
    (hpos : caretPosition searchData.control caretPos < 0
      ∨ caretPosition searchData.control caretPos > searchData.control.GetLength) :
    ParseFunctionArguments h s searchData caretPos = (false, s) := by
  unfold ParseFunctionArguments
  rw [FindCurrentFunctionToken_outOfRange h s searchData _ caretPos hpos]
  simp

theorem ParseLocalBlock_outOfRange (h : Helpers) (s : NativeParser)
    (searchData : ccSearchData) (search_scope : TokenIdxSet) (caretPos : Int)
    (hpos : caretPosition searchData.control caretPos < 0
      ∨ caretPosition searchData.control caretPos > searchData.control.GetLength) :
    ParseLocalBlock h s searchData search_scope caretPos = (false, search_scope, s) := by
  unfold ParseLocalBlock
  rw [FindCurrentFunctionStart_outOfRange h s searchData _ _ _ caretPos hpos]
  simp

theorem ParseUsingNamespace_outOfRange (h : Helpers) (s : NativeParser)
    (searchData : ccSearchData) (search_scope : TokenIdxSet) (caretPos : Int)
    (hpos : caretPosition searchData.control caretPos < 0
      ∨ caretPosition searchData.control caretPos > searchData.control.GetLength) :
    ParseUsingNamespace h s searchData search_scope caretPos = (false, search_scope) := by
  have hc := outOfRange_cond searchData.control caretPos hpos
  unfold ParseUsingNamespace
  simp only [hc, if_true]

theorem AI_outOfRange (h : Helpers) (s : NativeParser) (result : TokenIdxSet)
    (searchData : ccSearchData) (lineText : wxString) ( isPrefix : Bool) (caseSensitive : Bool)
    (search_scope : Option TokenIdxSet) (caretPos : Int)
    (hpos : caretPosition searchData.control caretPos < 0
      ∨ caretPosition searchData.control caretPos > searchData.control.GetLength) :
    AI h s result searchData lineText isPrefix caseSensitive search_scope caretPos
      = (0, result, { s with m_LastAISearchWasGlobal := false, m_LastAIGlobalSearch := [] }) := by
  have hc := outOfRange_cond searchData.control caretPos hpos
  unfold AI
  simp only [hc, if_true]

theorem removeOldTemporaries_parser_eq (s : NativeParser) :
    (MarkItemsByAI.removeOldTemporaries s).parser
      = { s.parser with
          tempTokenTree := ⟨[]⟩
          tokenTree := RemoveLastFunctionChildren s.parser.tokenTree s.m_LastFuncTokenIdx } := by
  simp [MarkItemsByAI.removeOldTemporaries, NativeParser.parser, NativeParser.setParserObj,
    TokenTree.clear]

/-- C3, as stated, fails: with the caret at offset 1000 of a buffer of 31 characters and
`reallyUseAI = false`, `MarkItemsByAI` returns one result, the index 0 of the token of `f`. -/
theorem MarkItemsByAI_outOfRange_all_tokens :
    exSearchF.control.GetLength = 31
    ∧ MarkItemsByAI specHelpers exStateF exSearchF [] false false true 1000
        = (1, [0], MarkItemsByAI.removeOldTemporaries exStateF) := by
  refine ⟨by decide, ?_⟩
  have hpos : caretPosition exSearchF.control 1000 < 0
      ∨ caretPosition exSearchF.control 1000 > exSearchF.control.GetLength := by decide
  have hd : exStateF.parser.done = true := by decide
  have hsz : (MarkItemsByAI.removeOldTemporaries exStateF).parser.tokenTree.size = 1 := by
    rw [removeOldTemporaries_parser_eq]; decide
  simp only [MarkItemsByAI, hd, fun s => ParseFunctionArguments_outOfRange specHelpers s _ _ hpos,
    fun s sc => ParseLocalBlock_outOfRange specHelpers s _ sc _ hpos, hsz]
  rfl

/-- C3 (amended): for every caret position outside [0, bufferLength] (a `caretPos` of -1 stands
for the current position of the control), `AI` returns 0 and leaves the result set and the
parser objects as they are, `FindCurrentFunctionStart` returns -1 and `ParseUsingNamespace`
returns false, both changing nothing; `MarkItemsByAI` on a done parser issues no buffer parse
and changes the trees only by its removal of the old temporaries (the temp tree is cleared, the
temporary children of the last function token are swept from the main tree): its result set is
empty when `reallyUseAI` is true and holds every index below the size of the main tree when
`reallyUseAI` is false. -/
theorem queries_outOfRange (h : Helpers) (s : NativeParser) (searchData : ccSearchData)
    (result search_scope : TokenIdxSet) (scope : Option TokenIdxSet) (lineText : wxString)
    (nameSpace procName : Option wxString) (functionIndex : Option Int)
    ( isPrefix : Bool) (caseSensitive : Bool) (caretPos : Int)
    (hpos : caretPosition searchData.control caretPos < 0
      ∨ caretPosition searchData.control caretPos > searchData.control.GetLength) :
    AI h s result searchData lineText isPrefix caseSensitive scope caretPos
        = (0, result, { s with m_LastAISearchWasGlobal := false, m_LastAIGlobalSearch := [] })
    ∧ FindCurrentFunctionStart h s searchData nameSpace procName functionIndex caretPos
        = (-1, nameSpace, procName, functionIndex, s)
    ∧ ParseUsingNamespace h s searchData search_scope caretPos = (false, search_scope)
    ∧ (s.parser.done = true →
        MarkItemsByAI h s searchData result true isPrefix caseSensitive caretPos
          = (0, [], { MarkItemsByAI.removeOldTemporaries s with
                      m_LastAISearchWasGlobal := false, m_LastAIGlobalSearch := [] })
        ∧ MarkItemsByAI h s searchData result false isPrefix caseSensitive caretPos
          = (s.parser.tokenTree.size,
             List.map Int.ofNat (List.range s.parser.tokenTree.size),
             MarkItemsByAI.removeOldTemporaries s)
        ∧ (MarkItemsByAI.removeOldTemporaries s).parses = s.parses
        ∧ (MarkItemsByAI.removeOldTemporaries s).parser.tempTokenTree = ⟨[]⟩
        ∧ (MarkItemsByAI.removeOldTemporaries s).parser.tokenTree
            = RemoveLastFunctionChildren s.parser.tokenTree s.m_LastFuncTokenIdx) := by
  refine ⟨AI_outOfRange h s result searchData lineText isPrefix caseSensitive scope caretPos hpos,
    FindCurrentFunctionStart_outOfRange h s searchData nameSpace procName functionIndex caretPos hpos,
    ParseUsingNamespace_outOfRange h s searchData search_scope caretPos hpos, ?_⟩
  intro hdone
  have hsize : (MarkItemsByAI.removeOldTemporaries s).parser.tokenTree.size
      = s.parser.tokenTree.size := by
    rw [removeOldTemporaries_parser_eq]
    simp only [TokenTree.size, RemoveLastFunctionChildren]
    split <;> simp
  refine ⟨?_, ?_, ?_, ?_, ?_⟩
  · simp only [MarkItemsByAI, hdone, fun s => ParseFunctionArguments_outOfRange h s _ _ hpos,
      fun s sc => ParseLocalBlock_outOfRange h s _ sc _ hpos,
      fun s r sc => AI_outOfRange h s r _ [] isPrefix caseSensitive sc _ hpos]
    simp
  · simp only [MarkItemsByAI, hdone, fun s => ParseFunctionArguments_outOfRange h s _ _ hpos,
      fun s sc => ParseLocalBlock_outOfRange h s _ sc _ hpos, hsize]
    simp
  · simp [MarkItemsByAI.removeOldTemporaries, NativeParser.setParserObj]
  · rw [removeOldTemporaries_parser_eq]
  · rw [removeOldTemporaries_parser_eq]

/-- Witness of `queries_outOfRange`: the caret at offset 1000 of the buffer of 31 characters. -/
theorem queries_outOfRange_witness :
    (caretPosition exSearchF.control 1000 < 0
      ∨ caretPosition exSearchF.control 1000 > exSearchF.control.GetLength)
    ∧ AI specHelpers exStateF [] exSearchF [] false true none 1000
        = (0, [], { exStateF with m_LastAISearchWasGlobal := false, m_LastAIGlobalSearch := [] }) :=
  ⟨by decide, (queries_outOfRange specHelpers exStateF exSearchF [] [] none [] none none none
    false true 1000 (by decide)).1⟩

/-- C4: when the active parser is not done, `MarkItemsByAI` returns 0 with an empty result set
and leaves the whole state (token trees, temp tree, log of buffer parses) unchanged, for every
caret position and every flag combination. -/
theorem MarkItemsByAI_not_done (h : Helpers) (s : NativeParser) (searchData : ccSearchData)
    (result : TokenIdxSet) (reallyUseAI : Bool) ( isPrefix : Bool) (caseSensitive : Bool)
    (caretPos : Int) (hdone : s.parser.done = false) :
    MarkItemsByAI h s searchData result reallyUseAI isPrefix caseSensitive caretPos = (0, [], s) := by
  unfold MarkItemsByAI
  simp [hdone]

/-- Witness of `MarkItemsByAI_not_done`: the parser of `exStateNotDone` is still parsing. -/
theorem MarkItemsByAI_not_done_witness :
    exStateNotDone.parser.done = false
    ∧ MarkItemsByAI specHelpers exStateNotDone exSearchF [0] true false true 29
        = (0, [], exStateNotDone) :=
  ⟨by decide, MarkItemsByAI_not_done specHelpers exStateNotDone exSearchF [0] true false true 29
    (by decide)⟩

/-! ## Theorems: temporaries, the global-search flag, the local block, the arguments -/

/-- C5: the code breaks the claim.  With two functions `helper` (token 0 of "a.cpp", token 1 of
"b.cpp") whose implementation line ranges both contain the line of the caret, one query
`MarkItemsByAI` issues temporary parses anchored at token 0, at token 1 and again at token 0,
and records token 0 as the last function token; the sweep that starts the next query leaves the
temporary `b` of token 1 in the tree, and after that query the tree holds temporaries of both
functions, `b` twice. -/
theorem MarkItemsByAI_leaks_temporaries :
    exAfterQuery1.parses.map (fun bp => (bp.buffer, bp.isTemp, bp.parentIdx))
      = [("\n  int v;".toList, true, 0), ("char b;".toList, true, 1), ("int a;".toList, true, 0)]
    ∧ exAfterQuery1.m_LastFuncTokenIdx = 0
    ∧ exAfterQuery1.parser.tokenTree.temporaries
      = [("a".toList, 0), ("b".toList, 1), ("v".toList, 0)]
    ∧ (MarkItemsByAI.removeOldTemporaries exAfterQuery1).parser.tokenTree.temporaries
      = [("b".toList, 1)]
    ∧ exAfterQuery2.parser.tokenTree.temporaries
      = [("b".toList, 1), ("a".toList, 0), ("b".toList, 1), ("v".toList, 0)] := by
  refine ⟨by decide, by decide, by decide, by decide, by decide⟩

theorem AI_flag (h : Helpers) (s : NativeParser) (result : TokenIdxSet)
    (searchData : ccSearchData) (lineText : wxString) ( isPrefix : Bool) (caseSensitive : Bool)
    (search_scope : Option TokenIdxSet) (caretPos : Int)
    (hlo : 0 ≤ caretPosition searchData.control caretPos)
    (hhi : caretPosition searchData.control caretPos ≤ searchData.control.GetLength) :
    (AI h s result searchData lineText isPrefix caseSensitive search_scope caretPos).2.2.m_LastAISearchWasGlobal
      = decide ((h.BreakUpComponents (AI.actualSearch searchData lineText
          (caretPosition searchData.control caretPos))).length ≤ 1) := by
  unfold caretPosition at hlo hhi ⊢
  have hc : (decide ((if caretPos = -1 then searchData.control.GetCurrentPos else caretPos) < 0)
      || decide ((if caretPos = -1 then searchData.control.GetCurrentPos else caretPos)
          > searchData.control.GetLength)) = false := by
    simp only [Bool.or_eq_false_iff, decide_eq_false_iff_not, not_lt]
    exact ⟨hlo, hhi⟩
  unfold AI
  simp only [hc]
  simp only [Bool.false_eq_true, if_false]
  split <;> rfl

/-- C6: for every `AI` query with an in-range caret, the last-search-was-global flag after the
call is true when the component chain of the search text has length 1 and false when it has
length greater than 1, whatever the flag was before. -/
theorem AI_sets_LastAISearchWasGlobal (h : Helpers) (s : NativeParser) (result : TokenIdxSet)
    (searchData : ccSearchData) (lineText : wxString) ( isPrefix : Bool) (caseSensitive : Bool)
    (search_scope : Option TokenIdxSet) (caretPos : Int)
    (hlo : 0 ≤ caretPosition searchData.control caretPos)
    (hhi : caretPosition searchData.control caretPos ≤ searchData.control.GetLength) :
    ((h.BreakUpComponents (AI.actualSearch searchData lineText
          (caretPosition searchData.control caretPos))).length = 1 →
      (AI h s result searchData lineText isPrefix caseSensitive search_scope
        caretPos).2.2.m_LastAISearchWasGlobal = true)
    ∧ ((h.BreakUpComponents (AI.actualSearch searchData lineText
          (caretPosition searchData.control caretPos))).length > 1 →
      (AI h s result searchData lineText isPrefix caseSensitive search_scope
        caretPos).2.2.m_LastAISearchWasGlobal = false) := by
  rw [AI_flag h s result searchData lineText isPrefix caseSensitive search_scope caretPos hlo hhi]
  constructor
  · intro h1
    simp [h1]
  · intro h1
    simp only [decide_eq_false_iff_not, not_le]
    exact h1

/-- Witness of `AI_sets_LastAISearchWasGlobal`: the search text `foo` has one component and
gives true, although the flag was false before. -/
theorem AI_sets_LastAISearchWasGlobal_witness :
    (0 ≤ caretPosition exSearchFoo.control (-1)
      ∧ caretPosition exSearchFoo.control (-1) ≤ exSearchFoo.control.GetLength)
    ∧ (specHelpers.BreakUpComponents (AI.actualSearch exSearchFoo []
          (caretPosition exSearchFoo.control (-1)))).length = 1
    ∧ exStateF.m_LastAISearchWasGlobal = false
    ∧ (AI specHelpers exStateF [] exSearchFoo [] false true none (-1)).2.2.m_LastAISearchWasGlobal
        = true :=
  ⟨by decide, by decide, by decide,
    (AI_sets_LastAISearchWasGlobal specHelpers exStateF [] exSearchFoo [] false true none (-1)
      (by decide) (by decide)).1 (by decide)⟩

/-- The second example of C6 evaluated: the search text `objA.m_bbb` has two components and
gives false. -/
theorem AI_member_access_not_global :
    (specHelpers.BreakUpComponents (AI.actualSearch exSearchMember [] 10)).length = 2
    ∧ (AI specHelpers exStateF [] exSearchMember [] false true none 10).2.2.m_LastAISearchWasGlobal
        = false := by
  decide

/-- C7: the code breaks the claim.  In `void f(int x){ { int y = 1; } }` with the caret at offset
29 (before the blank that precedes the last brace) the buffer that `ParseLocalBlock` parses is
` {} }`, without the declaration of `y`; with the caret at offset 30, inside the body and
immediately before its closing brace, the buffer is ` { int y = 1; } }`: it contains the
characters between the braces of the inner block, which was closed at offset 28. -/
theorem ParseLocalBlock_keeps_closed_block :
    (ParseLocalBlock specHelpers exStateF exSearchF [] 29).2.2.parses.map (fun bp => bp.buffer)
      = [" \x7b\x7d \x7d".toList]
    ∧ exSearchF.control.GetCharAt 28 = '\x7d'
    ∧ exSearchF.control.BraceMatch 28 = 15
    ∧ (FindCurrentFunctionStart specHelpers exStateF exSearchF none none none 30).1 = 13
    ∧ (ParseLocalBlock specHelpers exStateF exSearchF [] 30).2.2.parses.map (fun bp => bp.buffer)
      = [" \x7b int y = 1; \x7d \x7d".toList] := by
  refine ⟨by decide, by decide, by decide, by decide, by decide⟩

/-! ## Theorems: the parses of `ParseFunctionArguments` -/

theorem FirstChildElement_update (dirs : List wxString) (children : List TiXmlNode) :
    ∃ attributes, FirstChildElement (SetProjectSearchDirs.update dirs children)
        "code_completion".toList
      = some (TiXmlNode.element "code_completion".toList attributes
          (SetProjectSearchDirs.paths dirs)) := by
  induction children with
  | nil => exact ⟨[], by simp [SetProjectSearchDirs.update, FirstChildElement,
      TiXmlNode.isElementNamed]⟩
  | cons node rest ih =>
    obtain ⟨attrs, hattrs⟩ := ih
    cases node with
    | element value attributes children =>
      by_cases hv : value = "code_completion".toList
      · refine ⟨attributes, ?_⟩
        simp [SetProjectSearchDirs.update, FirstChildElement, TiXmlNode.isElementNamed, hv]
      · refine ⟨attrs, ?_⟩
        unfold FirstChildElement at hattrs ⊢
        unfold SetProjectSearchDirs.update
        rw [if_neg hv, List.find?_cons]
        have hn : TiXmlNode.isElementNamed "code_completion".toList
            (TiXmlNode.element value attributes children) = false := by
          simp only [TiXmlNode.isElementNamed, decide_eq_false_iff_not]
          exact hv
        rw [hn]
        exact hattrs
    | other value =>
      refine ⟨attrs, ?_⟩
      unfold FirstChildElement at hattrs ⊢
      unfold SetProjectSearchDirs.update
      rw [List.find?_cons]
      have hn : TiXmlNode.isElementNamed "code_completion".toList (TiXmlNode.other value)
          = false := rfl
      rw [hn]
      exact hattrs

theorem loop_paths (dirs : List wxString) (pdirs : List wxString) :
    ParseProjectSearchDirs.loop (SetProjectSearchDirs.paths dirs) pdirs
      = pdirs ++ (keepFirst dirs).filter (fun x => x ∉ pdirs) := by
  induction dirs generalizing pdirs with
  | nil => simp [SetProjectSearchDirs.paths, ParseProjectSearchDirs.loop, keepFirst]
  | cons d ds ih =>
    have hstep : ParseProjectSearchDirs.loop (SetProjectSearchDirs.paths (d :: ds)) pdirs
        = if d ∈ pdirs then ParseProjectSearchDirs.loop (SetProjectSearchDirs.paths ds) pdirs
          else ParseProjectSearchDirs.loop (SetProjectSearchDirs.paths ds) (pdirs ++ [d]) := by
      simp [SetProjectSearchDirs.paths, ParseProjectSearchDirs.loop, TiXmlNode.isElementNamed,
        TiXmlNode.Attribute, cbC2U, cbU2C]
    rw [hstep]
    by_cases hd : d ∈ pdirs
    · rw [if_pos hd, ih]
      simp only [keepFirst, List.filter_cons, hd, not_true_eq_false, decide_False,
        Bool.false_eq_true, if_false, List.filter_filter]
      congr 1
      apply List.filter_congr
      intro x _
      by_cases hx : x ∈ pdirs
      · simp [hx]
      · have : x ≠ d := fun hxd => hx (hxd ▸ hd)
        simp [hx, this]
    · rw [if_neg hd, ih]
      simp only [keepFirst, List.filter_cons, hd, not_false_eq_true, decide_True, if_true,
        List.filter_filter, List.append_assoc, List.singleton_append]
      congr 2
      apply List.filter_congr
      intro x _
      by_cases hx : x ∈ pdirs
      · simp [hx]
      · by_cases hxd : x = d
        · simp [hxd]
        · simp [hx, hxd]

theorem keepFirst_subset (dirs : List wxString) (x : wxString) (hx : x ∈ keepFirst dirs) :
    x ∈ dirs := by
  induction dirs with
  | nil => simp [keepFirst] at hx
  | cons d ds ih =>
    simp only [keepFirst, List.mem_cons, List.mem_filter] at hx
    rcases hx with hx | ⟨hx, _⟩
    · exact List.mem_cons.mpr (Or.inl hx)
    · exact List.mem_cons_of_mem _ (ih hx)

theorem keepFirst_of_nodup (dirs : List wxString) (hnd : dirs.Nodup) : keepFirst dirs = dirs := by
  induction dirs with
  | nil => rfl
  | cons d ds ih =>
    have hnd2 := List.nodup_cons.mp hnd
    simp only [keepFirst, ih hnd2.2]
    congr 1
    apply List.filter_eq_self.mpr
    intro x hx
    have : x ≠ d := fun hxd => hnd2.1 (hxd ▸ hx)
    simp [this]

/-- C9, as stated, fails: after `SetProjectSearchDirs` with the list `src`, `src`,
`ParseProjectSearchDirs` returns the one path `src`: the repeated path is dropped. -/
theorem ParseProjectSearchDirs_drops_repeated_path :
    ParseProjectSearchDirs (SetProjectSearchDirs exProject ["src".toList, "src".toList])
      = ["src".toList] := by
  decide

/-- C9 (amended): for every project whose metadata block is an XML element and every list of
paths `dirs`, `ParseProjectSearchDirs` after `SetProjectSearchDirs(dirs)` returns `dirs` without
its repetitions, every path where it occurs first: the paths written, in the order written,
none added; it returns exactly `dirs` when no path occurs twice in `dirs`. -/
theorem ParseProjectSearchDirs_SetProjectSearchDirs (value : CStr)
    (attributes : List (CStr × CStr)) (children : List TiXmlNode) (dirs : List wxString) :
    ParseProjectSearchDirs
        (SetProjectSearchDirs { extensionsNode := some (.element value attributes children) } dirs)
      = keepFirst dirs
    ∧ (dirs.Nodup →
        ParseProjectSearchDirs
          (SetProjectSearchDirs { extensionsNode := some (.element value attributes children) }
            dirs)
        = dirs) := by
  have hmain : ParseProjectSearchDirs
        (SetProjectSearchDirs { extensionsNode := some (.element value attributes children) } dirs)
      = keepFirst dirs := by
    obtain ⟨attrs, hattrs⟩ := FirstChildElement_update dirs children
    simp only [SetProjectSearchDirs, ParseProjectSearchDirs, hattrs, TiXmlNode.children]
    rw [loop_paths]
    simp
  exact ⟨hmain, fun hnd => by rw [hmain, keepFirst_of_nodup dirs hnd]⟩

/-- Witness of `ParseProjectSearchDirs_SetProjectSearchDirs`: the paths `src` and `include`
written to a metadata block that already holds other entries. -/
theorem ParseProjectSearchDirs_SetProjectSearchDirs_witness :
    ["src".toList, "include".toList].Nodup
    ∧ ParseProjectSearchDirs
        (SetProjectSearchDirs
          { extensionsNode := some (.element "Extensions".toList []
              [.other "text".toList,
               .element "code_completion".toList []
                 [.element "search_path".toList [("add".toList, "old".toList)] []]]) }
          ["src".toList, "include".toList])
      = ["src".toList, "include".toList] :=
  ⟨by decide,
    (ParseProjectSearchDirs_SetProjectSearchDirs "Extensions".toList []
      [.other "text".toList,
       .element "code_completion".toList []
         [.element "search_path".toList [("add".toList, "old".toList)] []]]
      ["src".toList, "include".toList]).2 (by decide)⟩

/-! ## Theorems: the invariants of the registry -/

theorem SetParser_active (s : NativeParser) (parser : ParserPtr) :
    (SetParser s parser).m_Parser = parser ∧ (SetParser s parser).deleted = s.deleted := by
  unfold SetParser
  by_cases h1 : s.m_Parser = parser
  · rw [if_pos h1]
    exact ⟨h1, rfl⟩
  · rw [if_neg h1]
    by_cases h2 : s.m_Parser ≠ 0
    · rw [if_pos h2]
      exact ⟨rfl, rfl⟩
    · rw [if_neg h2]
      exact ⟨rfl, rfl⟩

theorem SetParser_view (s : NativeParser) (parser : ParserPtr) :
    registryView (SetParser s parser) = (s.m_ParserList, parser, s.m_TempParser, s.deleted) := by
  unfold registryView
  rw [(SetParser_registry s parser).1, (SetParser_registry s parser).2.2.2,
    (SetParser_active s parser).1, (SetParser_active s parser).2]

theorem findIt_lt (s : NativeParser) (project : ProjectPtr) (i : Nat)
    (hit : DeleteParser.findIt s project = some i) : i < s.m_ParserList.length := by
  unfold DeleteParser.findIt at hit
  by_cases hw : s.m_ParserPerWorkspace = true
  · rw [if_pos hw] at hit
    cases hl : s.m_ParserList with
    | nil => simp [hl] at hit
    | cons a l =>
      simp [hl] at hit
      subst hit
      simp
  · rw [if_neg hw] at hit
    rw [List.findIdx?_eq_some_iff_getElem] at hit
    exact hit.1

theorem RemoveProjectFromParser_view (s : NativeParser) (project : ProjectPtr) :
    registryView (RemoveProjectFromParser s project).2 = registryView s
    ∧ (RemoveProjectFromParser s project).2.m_ParserPerWorkspace = s.m_ParserPerWorkspace := by
  unfold RemoveProjectFromParser
  by_cases hp : GetParserByProject s project = 0
  · rw [if_pos hp]
    exact ⟨rfl, rfl⟩
  · rw [if_neg hp]
    exact ⟨rfl, rfl⟩

/-- What `DeleteParser` does to the registry view: nothing, or it drops one pair of the list. -/
theorem DeleteParser_view (s : NativeParser) (project : ProjectPtr) :
    (registryView (DeleteParser s project).2 = registryView s
      ∨ ∃ i, i < s.m_ParserList.length
          ∧ registryView (DeleteParser s project).2 = dropPair (registryView s) i)
    ∧ (DeleteParser s project).2.m_ParserPerWorkspace = s.m_ParserPerWorkspace := by
  unfold DeleteParser
  cases hit : DeleteParser.findIt s project with
  | none => exact ⟨Or.inl rfl, rfl⟩
  | some i =>
    have hi := findIt_lt s project i hit
    have hs1 : ∃ r : Bool × NativeParser,
        (if s.m_ParserPerWorkspace then RemoveProjectFromParser s project else (false, s)) = r
        ∧ registryView r.2 = registryView s
        ∧ r.2.m_ParserPerWorkspace = s.m_ParserPerWorkspace := by
      by_cases hw : s.m_ParserPerWorkspace = true
      · exact ⟨_, if_pos hw, RemoveProjectFromParser_view s project⟩
      · exact ⟨_, if_neg hw, rfl, rfl⟩
    obtain ⟨r, e, hv, hm⟩ := hs1
    dsimp only
    rw [e]
    have hl : r.2.m_ParserList = s.m_ParserList := congrArg (fun v => v.1) hv
    have ha : r.2.m_Parser = s.m_Parser := congrArg (fun v => v.2.1) hv
    have ht : r.2.m_TempParser = s.m_TempParser := congrArg (fun v => v.2.2.1) hv
    have hd : r.2.deleted = s.deleted := congrArg (fun v => v.2.2.2) hv
    by_cases he : r.2.m_ParsedProjects.isEmpty = true
    · rw [if_pos he]
      refine ⟨Or.inr ⟨i, hi, ?_⟩, ?_⟩
      · by_cases hx : (r.2.m_ParserList.getD i (0, 0)).2 = r.2.m_Parser
        · rw [if_pos hx]
          have hv2 := SetParser_view
            { r.2 with deleted := (r.2.m_ParserList.getD i (0, 0)).2 :: r.2.deleted, m_Parser := 0 }
            r.2.m_TempParser
          have hx2 : (s.m_ParserList.getD i (0, 0)).2 = s.m_Parser := by rw [← hl, ← ha]; exact hx
          generalize SetParser
            { r.2 with deleted := (r.2.m_ParserList.getD i (0, 0)).2 :: r.2.deleted, m_Parser := 0 }
            r.2.m_TempParser = s3 at hv2 ⊢
          have h1 : s3.m_ParserList = r.2.m_ParserList := congrArg (fun v => v.1) hv2
          have h2 : s3.m_Parser = r.2.m_TempParser := congrArg (fun v => v.2.1) hv2
          have h3 : s3.m_TempParser = r.2.m_TempParser := congrArg (fun v => v.2.2.1) hv2
          have h4 : s3.deleted = (r.2.m_ParserList.getD i (0, 0)).2 :: r.2.deleted :=
            congrArg (fun v => v.2.2.2) hv2
          show (s3.m_ParserList.eraseIdx i, s3.m_Parser, s3.m_TempParser, s3.deleted) = _
          rw [h1, h2, h3, h4, hl, ht, hd]
          unfold dropPair registryView
          simp only [hx2, if_true]
        · rw [if_neg hx]
          have hx2 : ¬ (s.m_ParserList.getD i (0, 0)).2 = s.m_Parser := by rw [← hl, ← ha]; exact hx
          show (r.2.m_ParserList.eraseIdx i, r.2.m_Parser, r.2.m_TempParser,
            (r.2.m_ParserList.getD i (0, 0)).2 :: r.2.deleted) = _
          rw [hl, ha, ht, hd]
          unfold dropPair registryView
          simp only [hx2, if_false]
      · by_cases hx : (r.2.m_ParserList.getD i (0, 0)).2 = r.2.m_Parser
        · rw [if_pos hx]
          exact ((SetParser_registry _ _).2.2.1).trans hm
        · rw [if_neg hx]
          exact hm
    · rw [if_neg he]
      by_cases hr : r.1 = true
      · rw [if_pos hr]
        exact ⟨Or.inl hv, hm⟩
      · rw [if_neg hr]
        exact ⟨Or.inl hv, hm⟩

theorem snd_getD_mem (l : List (ProjectPtr × ParserPtr)) (i : Nat) (d : ProjectPtr × ParserPtr)
    (hi : i < l.length) : (l.getD i d).2 ∈ l.map Prod.snd := by
  induction l generalizing i with
  | nil => simp at hi
  | cons a l ih =>
    cases i with
    | zero => simp
    | succ i =>
      simp only [List.getD_cons_succ, List.map_cons, List.mem_cons]
      exact Or.inr (ih i (by simpa using hi))

theorem snd_eraseIdx_sublist (l : List (ProjectPtr × ParserPtr)) (i : Nat) :
    List.Sublist ((l.eraseIdx i).map Prod.snd) (l.map Prod.snd) :=
  (List.eraseIdx_sublist l i).map Prod.snd

theorem snd_mem_eraseIdx (l : List (ProjectPtr × ParserPtr)) (i : Nat)
    (d : ProjectPtr × ParserPtr) (x : ParserPtr) (hx : x ∈ l.map Prod.snd)
    (hne : x ≠ (l.getD i d).2) : x ∈ (l.eraseIdx i).map Prod.snd := by
  induction l generalizing i with
  | nil => simp at hx
  | cons a l ih =>
    cases i with
    | zero =>
      simp only [List.getD_cons_zero] at hne
      simp only [List.map_cons, List.mem_cons] at hx
      simp only [List.eraseIdx_cons_zero]
      rcases hx with hx | hx
      · exact absurd hx hne
      · exact hx
    | succ i =>
      simp only [List.getD_cons_succ] at hne
      simp only [List.map_cons, List.mem_cons] at hx
      simp only [List.eraseIdx_cons_succ, List.map_cons, List.mem_cons]
      rcases hx with hx | hx
      · exact Or.inl hx
      · exact Or.inr (ih i hx hne)

theorem snd_getD_not_mem_eraseIdx (l : List (ProjectPtr × ParserPtr)) (i : Nat)
    (d : ProjectPtr × ParserPtr) (hnd : (l.map Prod.snd).Nodup) (hi : i < l.length) :
    (l.getD i d).2 ∉ (l.eraseIdx i).map Prod.snd := by
  induction l generalizing i with
  | nil => simp at hi
  | cons a l ih =>
    simp only [List.map_cons, List.nodup_cons] at hnd
    cases i with
    | zero =>
      simp only [List.getD_cons_zero, List.eraseIdx_cons_zero]
      exact hnd.1
    | succ i =>
      have hi2 : i < l.length := by simpa using hi
      simp only [List.getD_cons_succ, List.eraseIdx_cons_succ, List.map_cons, List.mem_cons,
        not_or]
      refine ⟨?_, ih i hnd.2 hi2⟩
      intro h
      exact hnd.1 (h ▸ snd_getD_mem l i d hi2)

theorem viewOk_dropPair (strict : Bool) (v : RegistryView) (i : Nat) (hi : i < v.1.length)
    (hv : viewOk strict v) : viewOk strict (dropPair v i) := by
  obtain ⟨hA, hT, hN, hD⟩ := hv
  have hsub := snd_eraseIdx_sublist v.1 i
  have hx := snd_getD_mem v.1 i (0, 0) hi
  refine ⟨?_, ?_, ?_, ?_⟩
  · show (if (v.1.getD i (0, 0)).2 = v.2.1 then v.2.2.1 else v.2.1) = v.2.2.1
      ∨ (if (v.1.getD i (0, 0)).2 = v.2.1 then v.2.2.1 else v.2.1) ∈ (v.1.eraseIdx i).map Prod.snd
    by_cases h : (v.1.getD i (0, 0)).2 = v.2.1
    · rw [if_pos h]
      exact Or.inl rfl
    · rw [if_neg h]
      rcases hA with hA | hA
      · exact Or.inl hA
      · exact Or.inr (snd_mem_eraseIdx v.1 i (0, 0) v.2.1 hA (fun e => h e.symm))
  · exact fun h => hT (hsub.subset h)
  · exact hN.sublist hsub
  · intro hs p hp
    show p ≠ v.2.2.1 ∧ p ∉ (v.1.eraseIdx i).map Prod.snd
    have hp2 : p = (v.1.getD i (0, 0)).2 ∨ p ∈ v.2.2.2 := List.mem_cons.mp hp
    rcases hp2 with hp2 | hp2
    · subst hp2
      exact ⟨fun e => hT (e ▸ hx), snd_getD_not_mem_eraseIdx v.1 i (0, 0) hN hi⟩
    · exact ⟨(hD hs p hp2).1, fun h => (hD hs p hp2).2 (hsub.subset h)⟩

theorem viewFresh_dropPair (strict : Bool) (newp : ParserPtr) (v : RegistryView) (i : Nat)
    (hi : i < v.1.length) (hv : viewFresh strict newp v) : viewFresh strict newp (dropPair v i) := by
  obtain ⟨h1, h2, h3⟩ := hv
  have hsub := snd_eraseIdx_sublist v.1 i
  have hx := snd_getD_mem v.1 i (0, 0) hi
  refine ⟨h1, fun h => h2 (hsub.subset h), ?_⟩
  intro hs h
  have hp2 : newp = (v.1.getD i (0, 0)).2 ∨ newp ∈ v.2.2.2 := List.mem_cons.mp h
  rcases hp2 with hp2 | hp2
  · exact h2 (hp2 ▸ hx)
  · exact h3 hs hp2

theorem viewOk_addPair (strict : Bool) (v : RegistryView) (project : ProjectPtr)
    (newp : ParserPtr) (hv : viewOk strict v) (hf : viewFresh strict newp v) :
    viewOk strict (addPair v project newp) := by
  obtain ⟨hA, hT, hN, hD⟩ := hv
  obtain ⟨h1, h2, h3⟩ := hf
  refine ⟨?_, ?_, ?_, ?_⟩
  · show (if v.2.1 = v.2.2.1 then newp else v.2.1) = v.2.2.1
      ∨ (if v.2.1 = v.2.2.1 then newp else v.2.1) ∈ (v.1 ++ [(project, newp)]).map Prod.snd
    by_cases h : v.2.1 = v.2.2.1
    · rw [if_pos h]
      right
      simp
    · rw [if_neg h]
      rcases hA with hA | hA
      · exact absurd hA h
      · right
        simp only [List.map_append, List.mem_append]
        exact Or.inl hA
  · show v.2.2.1 ∉ (v.1 ++ [(project, newp)]).map Prod.snd
    simp only [List.map_append, List.mem_append, List.map_cons, List.map_nil, List.mem_singleton,
      not_or]
    exact ⟨hT, fun e => h1 e.symm⟩
  · show ((v.1 ++ [(project, newp)]).map Prod.snd).Nodup
    rw [List.map_append, List.nodup_append]
    refine ⟨hN, by simp, ?_⟩
    intro a ha hb
    simp only [List.map_cons, List.map_nil, List.mem_singleton] at hb
    exact h2 (hb ▸ ha)
  · intro hs p hp
    show p ≠ v.2.2.1 ∧ p ∉ (v.1 ++ [(project, newp)]).map Prod.snd
    have hp2 : p ∈ v.2.2.2 := hp
    refine ⟨(hD hs p hp2).1, ?_⟩
    simp only [List.map_append, List.mem_append, List.map_cons, List.map_nil, List.mem_singleton,
      not_or]
    exact ⟨(hD hs p hp2).2, fun e => h3 hs (e ▸ hp2)⟩

theorem DeleteParser_pres (P : RegistryView → Prop)
    (hP : ∀ v i, i < v.1.length → P v → P (dropPair v i)) (s : NativeParser)
    (project : ProjectPtr) (h : P (registryView s)) :
    P (registryView (DeleteParser s project).2) := by
  rcases (DeleteParser_view s project).1 with hv | ⟨i, hi, hv⟩
  · rw [hv]
    exact h
  · rw [hv]
    exact hP _ i hi h

theorem ClearParsers_loop_pres (P : RegistryView → Prop)
    (hP : ∀ v i, i < v.1.length → P v → P (dropPair v i)) (fuel : Nat) (s : NativeParser)
    (h : P (registryView s)) : P (registryView (ClearParsers.loop fuel s)) := by
  induction fuel generalizing s with
  | zero => exact h
  | succ fuel ih =>
    unfold ClearParsers.loop
    by_cases hw : s.m_ParserPerWorkspace = true
    · rw [if_pos hw]
      cases hpp : s.m_ParsedProjects with
      | nil => exact h
      | cons p rest =>
        dsimp only
        by_cases hr : (DeleteParser s p).1 = true
        · rw [if_pos hr]
          exact ih _ (DeleteParser_pres P hP s p h)
        · rw [if_neg hr]
          exact DeleteParser_pres P hP s p h
    · rw [if_neg hw]
      cases hpl : s.m_ParserList with
      | nil => exact h
      | cons it rest =>
        dsimp only
        by_cases hr : (DeleteParser s it.1).1 = true
        · rw [if_pos hr]
          exact ih _ (DeleteParser_pres P hP s it.1 h)
        · rw [if_neg hr]
          exact DeleteParser_pres P hP s it.1 h

theorem ClearParsers_pres (P : RegistryView → Prop)
    (hP : ∀ v i, i < v.1.length → P v → P (dropPair v i)) (s : NativeParser)
    (h : P (registryView s)) : P (registryView (ClearParsers s)) :=
  ClearParsers_loop_pres P hP _ s h

theorem forLoop_pres (P : RegistryView → Prop)
    (hP : ∀ v i, i < v.1.length → P v → P (dropPair v i)) (infoSecond : ParserPtr)
    (l : List (ProjectPtr × ParserPtr)) (s t : NativeParser) (h : P (registryView s))
    (ht : RemoveObsoleteParsers.forLoop infoSecond l s = some t) : P (registryView t) := by
  induction l generalizing s with
  | nil => simp [RemoveObsoleteParsers.forLoop] at ht
  | cons it rest ih =>
    unfold RemoveObsoleteParsers.forLoop at ht
    by_cases hskip : it.2 = infoSecond
    · rw [if_pos hskip] at ht
      exact ih s h ht
    · rw [if_neg hskip] at ht
      dsimp only at ht
      by_cases hr : (DeleteParser s it.1).1 = true
      · rw [if_pos hr] at ht
        injection ht with ht
        rw [← ht]
        exact DeleteParser_pres P hP s it.1 h
      · rw [if_neg hr] at ht
        exact ih _ (DeleteParser_pres P hP s it.1 h) ht

theorem whileLoop_pres (P : RegistryView → Prop)
    (hP : ∀ v i, i < v.1.length → P v → P (dropPair v i)) (infoSecond : ParserPtr)
    (maxParsers fuel : Nat) (s : NativeParser) (h : P (registryView s)) :
    P (registryView (RemoveObsoleteParsers.whileLoop infoSecond maxParsers fuel s)) := by
  induction fuel generalizing s with
  | zero => exact h
  | succ fuel ih =>
    unfold RemoveObsoleteParsers.whileLoop
    by_cases hlen : s.m_ParserList.length > maxParsers
    · rw [if_pos hlen]
      cases hf : RemoveObsoleteParsers.forLoop infoSecond s.m_ParserList s with
      | none => exact h
      | some s1 => exact ih s1 (forLoop_pres P hP infoSecond _ s s1 h hf)
    · rw [if_neg hlen]
      exact h

theorem RemoveObsoleteParsers_pres (P : RegistryView → Prop)
    (hP : ∀ v i, i < v.1.length → P v → P (dropPair v i)) (s : NativeParser) (ide : Ide)
    (h : P (registryView s)) : P (registryView (RemoveObsoleteParsers s ide)) :=
  whileLoop_pres P hP _ _ _ s h

theorem register_view (s : NativeParser) (project : ProjectPtr) (parser : ParserPtr) :
    registryView (CreateParser.register s project parser)
      = addPair (registryView s) project parser := by
  have hs2 : ∃ s2, (if s.m_Parser = s.m_TempParser then SetParser s parser else s) = s2
      ∧ registryView s2
        = (s.m_ParserList, (if s.m_Parser = s.m_TempParser then parser else s.m_Parser),
            s.m_TempParser, s.deleted) := by
    by_cases hc : s.m_Parser = s.m_TempParser
    · refine ⟨SetParser s parser, if_pos hc, ?_⟩
      rw [SetParser_view, if_pos hc]
    · refine ⟨s, if_neg hc, ?_⟩
      rw [if_neg hc]
      rfl
  obtain ⟨s2, e, hv⟩ := hs2
  unfold CreateParser.register
  dsimp only
  rw [e]
  have h1 : s2.m_ParserList = s.m_ParserList := congrArg (fun v => v.1) hv
  have h2 : s2.m_Parser = (if s.m_Parser = s.m_TempParser then parser else s.m_Parser) :=
    congrArg (fun v => v.2.1) hv
  have h3 : s2.m_TempParser = s.m_TempParser := congrArg (fun v => v.2.2.1) hv
  have h4 : s2.deleted = s.deleted := congrArg (fun v => v.2.2.2) hv
  by_cases hm : s2.m_ParserPerWorkspace = true
  · rw [if_pos hm]
    show (s2.m_ParserList ++ [(project, parser)], s2.m_Parser, s2.m_TempParser, s2.deleted) = _
    rw [h1, h2, h3, h4]
    rfl
  · rw [if_neg hm]
    show (s2.m_ParserList ++ [(project, parser)], s2.m_Parser, s2.m_TempParser, s2.deleted) = _
    rw [h1, h2, h3, h4]
    rfl

theorem CreateParser_pres (P : RegistryView → Prop)
    (hP : ∀ v i, i < v.1.length → P v → P (dropPair v i)) (s : NativeParser) (ide : Ide)
    (project : ProjectPtr) (newp : ParserPtr) (newObj : Parser) (hnew : newp ≠ 0)
    (h : P (registryView s)) (hadd : P (addPair (registryView s) project newp)) :
    P (registryView (CreateParser s ide project newp newObj).2) := by
  have hd : DoFullParsing project newp = true := by simp [DoFullParsing, hnew]
  unfold CreateParser
  by_cases h1 : GetParserByProject s project ≠ 0
  · rw [if_pos h1]
    exact h
  · rw [if_neg h1]
    by_cases h2 : (s.m_ParserPerWorkspace && !s.m_ParsedProjects.isEmpty) = true
    · rw [if_pos h2]
      exact h
    · rw [if_neg h2]
      simp only [hd, Bool.not_true, Bool.false_eq_true, if_false]
      apply RemoveObsoleteParsers_pres P hP
      rw [register_view]
      exact hadd

theorem SwitchParser_view (s : NativeParser) (project : ProjectPtr) (parser : ParserPtr) :
    registryView (SwitchParser s project parser).2 = registryView s
    ∨ (parser ∈ s.m_ParserList.map Prod.snd
        ∧ registryView (SwitchParser s project parser).2
            = (s.m_ParserList, parser, s.m_TempParser, s.deleted)) := by
  unfold SwitchParser
  by_cases hc : (parser = 0 || parser = s.m_Parser || GetParserByProject s project ≠ parser) = true
  · rw [if_pos hc]
    exact Or.inl rfl
  · rw [if_neg hc]
    right
    simp only [Bool.or_eq_true, decide_eq_true_eq, not_or, ne_eq, Decidable.not_not] at hc
    obtain ⟨⟨h0, _⟩, hg⟩ := hc
    refine ⟨?_, SetParser_view s parser⟩
    rw [← hg] at h0 ⊢
    unfold GetParserByProject at h0 ⊢
    by_cases hw : s.m_ParserPerWorkspace = true
    · rw [if_pos hw] at h0 ⊢
      by_cases hp : project ∈ s.m_ParsedProjects
      · rw [if_pos hp] at h0 ⊢
        cases hl : s.m_ParserList with
        | nil => simp [hl, beginSecond] at h0
        | cons a l => simp [beginSecond]
      · rw [if_neg hp] at h0
        exact absurd rfl h0
    · rw [if_neg hw] at h0 ⊢
      cases hf : s.m_ParserList.find? (fun it => it.1 = project) with
      | none => simp [hf] at h0
      | some it =>
        simp only []
        exact List.mem_map_of_mem Prod.snd (List.mem_of_find?_eq_some hf)

theorem AddProjectToParser_view (s : NativeParser) (project : ProjectPtr) (updateOk added : Bool) :
    registryView (AddProjectToParser s project updateOk added).2 = registryView s := by
  unfold AddProjectToParser
  dsimp only
  split_ifs <;> rfl

theorem viewOk_init (strict : Bool) (temp : ParserPtr) (perWorkspace : Bool) :
    viewOk strict (registryView (NativeParser.init temp perWorkspace)) := by
  refine ⟨Or.inl rfl, ?_, ?_, ?_⟩
  · simp [registryView, NativeParser.init]
  · simp [registryView, NativeParser.init]
  · intro _ p hp
    simp [registryView, NativeParser.init] at hp

theorem viewOk_SwitchParser (strict : Bool) (s : NativeParser) (project : ProjectPtr)
    (parser : ParserPtr) (h : viewOk strict (registryView s)) :
    viewOk strict (registryView (SwitchParser s project parser).2) := by
  rcases SwitchParser_view s project parser with hv | ⟨hmem, hv⟩
  · rw [hv]
    exact h
  · rw [hv]
    exact ⟨Or.inr hmem, h.2.1, h.2.2.1, h.2.2.2⟩

theorem viewOk_drop_fresh (strict : Bool) (newp : ParserPtr) (v : RegistryView) (i : Nat)
    (hi : i < v.1.length) (h : viewOk strict v ∧ viewFresh strict newp v) :
    viewOk strict (dropPair v i) ∧ viewFresh strict newp (dropPair v i) :=
  ⟨viewOk_dropPair strict v i hi h.1, viewFresh_dropPair strict newp v i hi h.2⟩

theorem viewOk_CreateParser (strict : Bool) (s : NativeParser) (ide : Ide) (project : ProjectPtr)
    (newp : ParserPtr) (newObj : Parser) (hnew : newp ≠ 0) (h : viewOk strict (registryView s))
    (hf : viewFresh strict newp (registryView s)) :
    viewOk strict (registryView (CreateParser s ide project newp newObj).2) :=
  CreateParser_pres (viewOk strict) (viewOk_dropPair strict) s ide project newp newObj hnew h
    (viewOk_addPair strict _ project newp h hf)

theorem viewOk_RereadParserOptions (strict : Bool) (s : NativeParser) (ide : Ide)
    (newp : ParserPtr) (newObj : Parser) (hnew : newp ≠ 0) (h : viewOk strict (registryView s))
    (hf : viewFresh strict newp (registryView s)) :
    viewOk strict (registryView (RereadParserOptions s ide newp newObj)) := by
  have h1 := RemoveObsoleteParsers_pres
    (fun v => viewOk strict v ∧ viewFresh strict newp v) (viewOk_drop_fresh strict newp) s ide
    ⟨h, hf⟩
  unfold RereadParserOptions
  dsimp only
  by_cases hc : s.m_Parser = s.m_TempParser
  · rw [if_pos hc]
    exact h
  · rw [if_neg hc]
    generalize RemoveObsoleteParsers s ide = s1 at h1 ⊢
    generalize ((s1.parser.options.followLocalIncludes
        != (s1.setParserObj { s1.parser with options := ide.parserOptions }).parser.options.followLocalIncludes
      || s1.parser.options.followGlobalIncludes
        != (s1.setParserObj { s1.parser with options := ide.parserOptions }).parser.options.followGlobalIncludes
      || s1.parser.options.wantPreprocessor
        != (s1.setParserObj { s1.parser with options := ide.parserOptions }).parser.options.wantPreprocessor
      || s1.parser.options.parseComplexMacros
        != (s1.setParserObj { s1.parser with options := ide.parserOptions }).parser.options.parseComplexMacros
      || s1.parser.options.platformCheck
        != (s1.setParserObj { s1.parser with options := ide.parserOptions }).parser.options.platformCheck
      || (s1.setParserObj { s1.parser with options := ide.parserOptions }).m_ParserPerWorkspace
        != ide.parserPerWorkspace) && ide.answerYes) = reparse
    have h2 : (fun v => viewOk strict v ∧ viewFresh strict newp v)
        (registryView (s1.setParserObj { s1.parser with options := ide.parserOptions })) := h1
    generalize s1.setParserObj { s1.parser with options := ide.parserOptions } = s2 at h2 ⊢
    cases reparse with
    | false =>
      simp only [Bool.false_eq_true, if_false]
      exact h2.1
    | true =>
      simp only [if_true]
      have h3 := ClearParsers_pres
        (fun v => viewOk strict v ∧ viewFresh strict newp v) (viewOk_drop_fresh strict newp) s2 h2
      exact viewOk_CreateParser strict _ ide _ newp newObj hnew h3.1 h3.2

theorem Reachable_viewOk (s : NativeParser) (hs : Reachable s) :
    viewOk false (registryView s) := by
  induction hs with
  | init temp perWorkspace _ => exact viewOk_init false temp perWorkspace
  | createParser s ide project newp newObj _ hnew ih =>
    exact viewOk_CreateParser false s ide project newp newObj hnew.1 ih
      ⟨hnew.2.1, hnew.2.2, fun h => absurd h (by decide)⟩
  | deleteParser s project _ ih =>
    exact DeleteParser_pres (viewOk false) (viewOk_dropPair false) s project ih
  | switchParser s project parser _ ih => exact viewOk_SwitchParser false s project parser ih
  | addProjectToParser s project updateOk added _ ih =>
    rw [AddProjectToParser_view]
    exact ih
  | clearParsers s _ ih => exact ClearParsers_pres (viewOk false) (viewOk_dropPair false) s ih
  | removeObsoleteParsers s ide _ ih =>
    exact RemoveObsoleteParsers_pres (viewOk false) (viewOk_dropPair false) s ide ih
  | rereadParserOptions s ide newp newObj _ hnew ih =>
    exact viewOk_RereadParserOptions false s ide newp newObj hnew.1 ih
      ⟨hnew.2.1, hnew.2.2, fun h => absurd h (by decide)⟩

theorem ReachableNoReuse_viewOk (s : NativeParser) (hs : ReachableNoReuse s) :
    viewOk true (registryView s) := by
  induction hs with
  | init temp perWorkspace _ => exact viewOk_init true temp perWorkspace
  | createParser s ide project newp newObj _ hnew hnever ih =>
    exact viewOk_CreateParser true s ide project newp newObj hnew.1 ih
      ⟨hnew.2.1, hnew.2.2, fun _ => hnever⟩
  | deleteParser s project _ ih =>
    exact DeleteParser_pres (viewOk true) (viewOk_dropPair true) s project ih
  | switchParser s project parser _ ih => exact viewOk_SwitchParser true s project parser ih
  | addProjectToParser s project updateOk added _ ih =>
    rw [AddProjectToParser_view]
    exact ih
  | clearParsers s _ ih => exact ClearParsers_pres (viewOk true) (viewOk_dropPair true) s ih
  | removeObsoleteParsers s ide _ ih =>
    exact RemoveObsoleteParsers_pres (viewOk true) (viewOk_dropPair true) s ide ih
  | rereadParserOptions s ide newp newObj _ hnew hnever ih =>
    exact viewOk_RereadParserOptions true s ide newp newObj hnew.1 ih
      ⟨hnew.2.1, hnew.2.2, fun _ => hnever⟩

/-- C11: in every state reached from the initial one by the registry operations (`CreateParser`,
`DeleteParser`, `SwitchParser`, `ClearParsers`, `RemoveObsoleteParsers`, and also
`AddProjectToParser` and `RereadParserOptions`), the active parser is the fallback parser or
the parser of a pair of the association list; and when no address of a destroyed parser is
handed out again by `new`, the active parser is none of the destroyed parsers. -/
theorem active_is_fallback_or_registered :
    (∀ s, Reachable s → activeRegistered s)
    ∧ (∀ s, ReachableNoReuse s → activeRegistered s ∧ s.m_Parser ∉ s.deleted) := by
  refine ⟨fun s hs => (Reachable_viewOk s hs).1, fun s hs => ?_⟩
  obtain ⟨hA, hT, _, hD⟩ := ReachableNoReuse_viewOk s hs
  refine ⟨hA, fun hdel => ?_⟩
  have hp := hD rfl s.m_Parser hdel
  rcases hA with hA | hA
  · exact hp.1 hA
  · exact hp.2 hA

/-- Witness of `active_is_fallback_or_registered`: project 1 gets the parser 10, which becomes
active, and is deleted again; the fallback parser 100 is active afterwards and the destroyed
parser 10 is not. -/
theorem active_is_fallback_or_registered_witness :
    activeRegistered exOne
    ∧ (DeleteParser exOne 1).2.deleted = [10]
    ∧ activeRegistered (DeleteParser exOne 1).2
    ∧ (DeleteParser exOne 1).2.m_Parser ∉ (DeleteParser exOne 1).2.deleted :=
  ⟨active_is_fallback_or_registered.1 exOne
      (Reachable.createParser _ _ _ _ _ (Reachable.init 100 false (by decide)) (by decide)),
    by decide,
    active_is_fallback_or_registered.2 (DeleteParser exOne 1).2
      (ReachableNoReuse.deleteParser _ _
        (ReachableNoReuse.createParser _ _ _ _ _ (ReachableNoReuse.init 100 false (by decide))
          (by decide) (by decide)))⟩

/-- C12: `SwitchParser(project, parser)` returns false and leaves the whole state (active
parser, registry, cached last-query variables) unchanged when `parser` is null, is the active
parser, or is not what `GetParserByProject(project)` returns; in every other case it returns
true and `parser` is the active parser afterwards. -/
theorem SwitchParser_result (s : NativeParser) (project : ProjectPtr) (parser : ParserPtr) :
    ((parser = 0 ∨ parser = s.m_Parser ∨ GetParserByProject s project ≠ parser) →
        SwitchParser s project parser = (false, s))
    ∧ (¬ (parser = 0 ∨ parser = s.m_Parser ∨ GetParserByProject s project ≠ parser) →
        (SwitchParser s project parser).1 = true
        ∧ (SwitchParser s project parser).2.m_Parser = parser) := by
  constructor
  · intro h
    unfold SwitchParser
    have hc : (parser = 0 || parser = s.m_Parser || GetParserByProject s project ≠ parser)
        = true := by
      simpa [or_assoc] using h
    rw [if_pos hc]
  · intro h
    unfold SwitchParser
    have hc : ¬ (parser = 0 || parser = s.m_Parser || GetParserByProject s project ≠ parser)
        = true := by
      simpa [or_assoc] using h
    rw [if_neg hc]
    exact ⟨rfl, (SetParser_active s parser).1⟩

/-- Witness of `SwitchParser_result`: in `exTwo` (active parser 10) a switch to the active parser
10 of project 1 is refused, a switch to the parser 20 of project 2 makes 20 active. -/
theorem SwitchParser_result_witness :
    SwitchParser exTwo 1 10 = (false, exTwo)
    ∧ (SwitchParser exTwo 2 20).1 = true
    ∧ (SwitchParser exTwo 2 20).2.m_Parser = 20 :=
  ⟨(SwitchParser_result exTwo 1 10).1 (by decide), (SwitchParser_result exTwo 2 20).2 (by decide)⟩

/-- C15: in workspace mode, when the merged-project set is not empty and `GetParserByProject(P)`
is null, `CreateParser(P)` returns the parser of the first pair of the list and leaves the whole
state unchanged: no parser object is constructed, and the association list, the merged-project
set and the active parser are what they were. -/
theorem CreateParser_returns_shared (s : NativeParser) (ide : Ide) (project : ProjectPtr)
    (newp : ParserPtr) (newObj : Parser) (hmode : s.m_ParserPerWorkspace = true)
    (hmerged : s.m_ParsedProjects ≠ []) (hnone : GetParserByProject s project = 0) :
    CreateParser s ide project newp newObj = (beginSecond s.m_ParserList, s) := by
  unfold CreateParser
  have h1 : ¬ GetParserByProject s project ≠ 0 := fun h => h hnone
  rw [if_neg h1]
  have h2 : (s.m_ParserPerWorkspace && !s.m_ParsedProjects.isEmpty) = true := by
    cases hp : s.m_ParsedProjects with
    | nil => exact absurd hp hmerged
    | cons a l => simp [hmode]
  rw [if_pos h2]

/-- Witness of `CreateParser_returns_shared`: in `exShared` (project 1 merged into the shared
parser 10) `CreateParser` for project 2 returns the parser 10 and changes nothing. -/
theorem CreateParser_returns_shared_witness :
    exShared.m_ParserPerWorkspace = true ∧ exShared.m_ParsedProjects ≠ []
    ∧ GetParserByProject exShared 2 = 0 ∧ beginSecond exShared.m_ParserList = 10
    ∧ CreateParser exShared exIdeWorkspace 2 11 Parser.empty
        = (beginSecond exShared.m_ParserList, exShared) :=
  ⟨by decide, by decide, by decide, by decide,
    CreateParser_returns_shared exShared exIdeWorkspace 2 11 Parser.empty (by decide) (by decide)
      (by decide)⟩

theorem mem_setErase (a q : ProjectPtr) (l : List ProjectPtr) :
    q ∈ setErase a l ↔ q ∈ l ∧ q ≠ a := by
  unfold setErase
  simp

/-- The two outcomes of `DeleteParser(P)` in workspace mode for a merged project `P` when the
first pair holds the (non-null) shared parser. -/
theorem DeleteParser_merged_eq (s : NativeParser) (project : ProjectPtr)
    (it : ProjectPtr × ParserPtr) (rest : List (ProjectPtr × ParserPtr))
    (hmode : s.m_ParserPerWorkspace = true) (hP : project ∈ s.m_ParsedProjects)
    (hlist : s.m_ParserList = it :: rest) (hshared : it.2 ≠ 0) :
    DeleteParser s project
      = (if (setErase project s.m_ParsedProjects).isEmpty then
          (true,
            { (if it.2 = s.m_Parser then
                SetParser { s with m_ParsedProjects := setErase project s.m_ParsedProjects,
                                   deleted := it.2 :: s.deleted, m_Parser := 0 } s.m_TempParser
               else { s with m_ParsedProjects := setErase project s.m_ParsedProjects,
                             deleted := it.2 :: s.deleted }) with m_ParserList := rest })
         else (true, { s with m_ParsedProjects := setErase project s.m_ParsedProjects })) := by
  have hfind : DeleteParser.findIt s project = some 0 := by
    unfold DeleteParser.findIt
    rw [if_pos hmode, hlist]
    rfl
  have hget : GetParserByProject s project = it.2 := by
    unfold GetParserByProject
    rw [if_pos hmode, if_pos hP, hlist]
    rfl
  have hrem : RemoveProjectFromParser s project
      = (true, { s with m_ParsedProjects := setErase project s.m_ParsedProjects }) := by
    unfold RemoveProjectFromParser
    dsimp only
    rw [hget, if_neg hshared]
  unfold DeleteParser
  rw [hfind]
  dsimp only
  rw [if_pos hmode, hrem]
  dsimp only
  by_cases he : (setErase project s.m_ParsedProjects).isEmpty = true
  · rw [if_pos he, if_pos he]
    have hx : (s.m_ParserList.getD 0 (0, 0)).2 = it.2 := by rw [hlist]; rfl
    rw [hx]
    by_cases ha : it.2 = s.m_Parser
    · simp only [if_pos ha]
      rw [(SetParser_registry _ _).1]
      simp only [hlist, List.eraseIdx_cons_zero]
    · simp only [if_neg ha]
      simp only [hlist, List.eraseIdx_cons_zero]
  · rw [if_neg he, if_neg he]
    rfl

/-- C14: in workspace mode, `DeleteParser(P)` for a project `P` of the merged set (the first pair
of the list holding the shared parser) returns true and removes `P`, and nothing else, from the
merged set.  When another project remains merged, the association list, the active parser and
the log of destroyed parsers are unchanged (the shared parser stays registered, and active if it
was).  When `P` was the last merged project, the shared parser is destroyed and its pair erased
from the list, the active parser falling back to the fallback parser if the shared parser was
active. -/
theorem DeleteParser_workspace (s : NativeParser) (project : ProjectPtr)
    (it : ProjectPtr × ParserPtr) (rest : List (ProjectPtr × ParserPtr))
    (hmode : s.m_ParserPerWorkspace = true) (hP : project ∈ s.m_ParsedProjects)
    (hlist : s.m_ParserList = it :: rest) (hshared : it.2 ≠ 0) :
    (DeleteParser s project).1 = true
    ∧ (∀ q, q ∈ (DeleteParser s project).2.m_ParsedProjects
          ↔ q ∈ s.m_ParsedProjects ∧ q ≠ project)
    ∧ ((∃ q ∈ s.m_ParsedProjects, q ≠ project) →
        (DeleteParser s project).2.m_ParserList = s.m_ParserList
        ∧ (DeleteParser s project).2.m_Parser = s.m_Parser
        ∧ (DeleteParser s project).2.deleted = s.deleted)
    ∧ ((∀ q ∈ s.m_ParsedProjects, q = project) →
        (DeleteParser s project).2.m_ParserList = rest
        ∧ (DeleteParser s project).2.deleted = it.2 :: s.deleted
        ∧ (DeleteParser s project).2.m_Parser
            = (if it.2 = s.m_Parser then s.m_TempParser else s.m_Parser)
        ∧ ((s.m_ParserList.map Prod.snd).Nodup →
            it.2 ∉ (DeleteParser s project).2.m_ParserList.map Prod.snd)) := by
  rw [DeleteParser_merged_eq s project it rest hmode hP hlist hshared]
  by_cases he : (setErase project s.m_ParsedProjects).isEmpty = true
  · rw [if_pos he]
    have hnil : setErase project s.m_ParsedProjects = [] := List.isEmpty_iff.mp he
    have hall : ∀ q ∈ s.m_ParsedProjects, q = project := by
      intro q hq
      by_contra hne
      have : q ∈ setErase project s.m_ParsedProjects := (mem_setErase project q _).mpr ⟨hq, hne⟩
      rw [hnil] at this
      simp at this
    have hparsed : ∀ t : NativeParser,
        t.m_ParsedProjects = setErase project s.m_ParsedProjects →
        ∀ q, q ∈ t.m_ParsedProjects ↔ q ∈ s.m_ParsedProjects ∧ q ≠ project := by
      intro t ht q
      rw [ht]
      exact mem_setErase project q _
    by_cases ha : it.2 = s.m_Parser
    · rw [if_pos ha]
      have hv := SetParser_view
        { s with m_ParsedProjects := setErase project s.m_ParsedProjects,
                 deleted := it.2 :: s.deleted, m_Parser := 0 } s.m_TempParser
      have hr := SetParser_registry
        { s with m_ParsedProjects := setErase project s.m_ParsedProjects,
                 deleted := it.2 :: s.deleted, m_Parser := 0 } s.m_TempParser
      generalize SetParser
        { s with m_ParsedProjects := setErase project s.m_ParsedProjects,
                 deleted := it.2 :: s.deleted, m_Parser := 0 } s.m_TempParser = s3 at hv hr ⊢
      have h2 : s3.m_Parser = s.m_TempParser := congrArg (fun v => v.2.1) hv
      have h4 : s3.deleted = it.2 :: s.deleted := congrArg (fun v => v.2.2.2) hv
      refine ⟨rfl, hparsed _ hr.2.1, ?_, ?_⟩
      · rintro ⟨q, hq, hne⟩
        exact absurd (hall q hq) hne
      · intro _
        refine ⟨rfl, h4, h2.trans (if_pos ha).symm, ?_⟩
        intro hnd
        rw [hlist] at hnd
        simp only [List.map_cons, List.nodup_cons] at hnd
        exact hnd.1
    · rw [if_neg ha]
      refine ⟨rfl, hparsed _ rfl, ?_, ?_⟩
      · rintro ⟨q, hq, hne⟩
        exact absurd (hall q hq) hne
      · intro _
        refine ⟨rfl, rfl, (if_neg ha).symm, ?_⟩
        intro hnd
        rw [hlist] at hnd
        simp only [List.map_cons, List.nodup_cons] at hnd
        exact hnd.1
  · rw [if_neg he]
    refine ⟨rfl, fun q => mem_setErase project q _, fun _ => ⟨rfl, rfl, rfl⟩, ?_⟩
    intro hall
    exfalso
    apply he
    rw [List.isEmpty_iff]
    apply List.eq_nil_iff_forall_not_mem.mpr
    intro q hq
    have := (mem_setErase project q _).mp hq
    exact this.2 (hall q this.1)

/-- Witness of `DeleteParser_workspace`: in `exSharedTwo` (projects 1 and 2 merged into the
shared parser 10, which is active) `DeleteParser(1)` returns true, leaves project 2 merged and
the shared parser registered and active; a following `DeleteParser(2)` destroys it. -/
theorem DeleteParser_workspace_witness :
    exSharedTwo.m_ParserPerWorkspace = true ∧ exSharedTwo.m_ParsedProjects = [1, 2]
    ∧ exSharedTwo.m_ParserList = [(1, 10)]
    ∧ (DeleteParser exSharedTwo 1).1 = true
    ∧ ((DeleteParser exSharedTwo 1).2.m_ParserList = exSharedTwo.m_ParserList
      ∧ (DeleteParser exSharedTwo 1).2.m_Parser = exSharedTwo.m_Parser
      ∧ (DeleteParser exSharedTwo 1).2.deleted = exSharedTwo.deleted)
    ∧ (DeleteParser (DeleteParser exSharedTwo 1).2 2).2.m_ParserList = []
    ∧ (DeleteParser (DeleteParser exSharedTwo 1).2 2).2.deleted = [10] :=
  ⟨by decide, by decide, by decide,
    (DeleteParser_workspace exSharedTwo 1 (1, 10) [] (by decide) (by decide) (by decide)
      (by decide)).1,
    (DeleteParser_workspace exSharedTwo 1 (1, 10) [] (by decide) (by decide) (by decide)
      (by decide)).2.2.1 ⟨2, by decide, by decide⟩,
    by decide, by decide⟩

theorem RemoveProjectFromParser_parsed (s : NativeParser) (project : ProjectPtr)
    (hmode : s.m_ParserPerWorkspace = true) :
    (RemoveProjectFromParser s project).2.m_ParsedProjects.length ≤ s.m_ParsedProjects.length
    ∧ ((RemoveProjectFromParser s project).1 = true →
        (RemoveProjectFromParser s project).2.m_ParsedProjects.length
          < s.m_ParsedProjects.length) := by
  unfold RemoveProjectFromParser
  dsimp only
  by_cases hp : GetParserByProject s project = 0
  · rw [if_pos hp]
    exact ⟨le_refl _, fun h => by simp at h⟩
  · rw [if_neg hp]
    have hmem : project ∈ s.m_ParsedProjects := by
      by_contra hn
      apply hp
      unfold GetParserByProject
      rw [if_pos hmode, if_neg hn]
    have hlt : (setErase project s.m_ParsedProjects).length < s.m_ParsedProjects.length := by
      unfold setErase
      rw [List.length_filter_lt_length_iff_exists]
      exact ⟨project, hmem, by simp⟩
    exact ⟨le_of_lt hlt, fun _ => hlt⟩

/-- A successful `DeleteParser` either removes a project from the merged set and leaves the
registry view as it is, or drops the pair its search loop stopped at, the merged set being
empty. -/
theorem DeleteParser_true (s : NativeParser) (project : ProjectPtr)
    (h : (DeleteParser s project).1 = true) :
    (registryView (DeleteParser s project).2 = registryView s
      ∧ (DeleteParser s project).2.m_ParsedProjects.length < s.m_ParsedProjects.length)
    ∨ (∃ i, DeleteParser.findIt s project = some i ∧ i < s.m_ParserList.length
        ∧ registryView (DeleteParser s project).2 = dropPair (registryView s) i
        ∧ (DeleteParser s project).2.m_ParsedProjects = []) := by
  unfold DeleteParser at h ⊢
  cases hit : DeleteParser.findIt s project with
  | none =>
    rw [hit] at h
    simp at h
  | some i =>
    have hi := findIt_lt s project i hit
    rw [hit] at h
    have hs1 : ∃ r : Bool × NativeParser,
        (if s.m_ParserPerWorkspace then RemoveProjectFromParser s project else (false, s)) = r
        ∧ registryView r.2 = registryView s
        ∧ (r.1 = true → r.2.m_ParsedProjects.length < s.m_ParsedProjects.length) := by
      by_cases hw : s.m_ParserPerWorkspace = true
      · exact ⟨_, if_pos hw, (RemoveProjectFromParser_view s project).1,
          (RemoveProjectFromParser_parsed s project hw).2⟩
      · exact ⟨_, if_neg hw, rfl, fun h => by simp at h⟩
    obtain ⟨r, e, hv, hlt⟩ := hs1
    dsimp only at h ⊢
    rw [e] at h ⊢
    have hl : r.2.m_ParserList = s.m_ParserList := congrArg (fun v => v.1) hv
    have ha : r.2.m_Parser = s.m_Parser := congrArg (fun v => v.2.1) hv
    have ht : r.2.m_TempParser = s.m_TempParser := congrArg (fun v => v.2.2.1) hv
    have hd : r.2.deleted = s.deleted := congrArg (fun v => v.2.2.2) hv
    by_cases he : r.2.m_ParsedProjects.isEmpty = true
    · rw [if_pos he]
      have hnil : r.2.m_ParsedProjects = [] := List.isEmpty_iff.mp he
      refine Or.inr ⟨i, rfl, hi, ?_, ?_⟩
      · by_cases hx : (r.2.m_ParserList.getD i (0, 0)).2 = r.2.m_Parser
        · rw [if_pos hx]
          have hv2 := SetParser_view
            { r.2 with deleted := (r.2.m_ParserList.getD i (0, 0)).2 :: r.2.deleted, m_Parser := 0 }
            r.2.m_TempParser
          have hx2 : (s.m_ParserList.getD i (0, 0)).2 = s.m_Parser := by rw [← hl, ← ha]; exact hx
          generalize SetParser
            { r.2 with deleted := (r.2.m_ParserList.getD i (0, 0)).2 :: r.2.deleted, m_Parser := 0 }
            r.2.m_TempParser = s3 at hv2 ⊢
          have h1 : s3.m_ParserList = r.2.m_ParserList := congrArg (fun v => v.1) hv2
          have h2 : s3.m_Parser = r.2.m_TempParser := congrArg (fun v => v.2.1) hv2
          have h3 : s3.m_TempParser = r.2.m_TempParser := congrArg (fun v => v.2.2.1) hv2
          have h4 : s3.deleted = (r.2.m_ParserList.getD i (0, 0)).2 :: r.2.deleted :=
            congrArg (fun v => v.2.2.2) hv2
          show (s3.m_ParserList.eraseIdx i, s3.m_Parser, s3.m_TempParser, s3.deleted) = _
          rw [h1, h2, h3, h4, hl, ht, hd]
          unfold dropPair registryView
          simp only [hx2, if_true]
        · rw [if_neg hx]
          have hx2 : ¬ (s.m_ParserList.getD i (0, 0)).2 = s.m_Parser := by rw [← hl, ← ha]; exact hx
          show (r.2.m_ParserList.eraseIdx i, r.2.m_Parser, r.2.m_TempParser,
            (r.2.m_ParserList.getD i (0, 0)).2 :: r.2.deleted) = _
          rw [hl, ha, ht, hd]
          unfold dropPair registryView
          simp only [hx2, if_false]
      · by_cases hx : (r.2.m_ParserList.getD i (0, 0)).2 = r.2.m_Parser
        · rw [if_pos hx]
          exact ((SetParser_registry _ _).2.1).trans hnil
        · rw [if_neg hx]
          exact hnil
    · rw [if_neg he] at h ⊢
      by_cases hr : r.1 = true
      · rw [if_pos hr]
        exact Or.inl ⟨hv, hlt hr⟩
      · rw [if_neg hr] at h
        simp at h

theorem DeleteParser_measure (s : NativeParser) (project : ProjectPtr)
    (h : (DeleteParser s project).1 = true) :
    registryMeasure (DeleteParser s project).2 < registryMeasure s := by
  unfold registryMeasure
  rcases DeleteParser_true s project h with ⟨hv, hlt⟩ | ⟨i, _, hi, hv, hnil⟩
  · have hl : (DeleteParser s project).2.m_ParserList = s.m_ParserList :=
      congrArg (fun v => v.1) hv
    rw [hl]
    omega
  · have hl : (DeleteParser s project).2.m_ParserList = s.m_ParserList.eraseIdx i :=
      congrArg (fun v => v.1) hv
    rw [hl, hnil, List.length_eraseIdx_of_lt hi]
    simp only [List.length_nil]
    omega

/-- When the `for` loop of `RemoveObsoleteParsers` deletes, it is by a successful
`DeleteParser(it->first)` for a pair whose parser is not the parser of the current editor. -/
theorem forLoop_some (infoSecond : ParserPtr) (l : List (ProjectPtr × ParserPtr))
    (s t : NativeParser) (ht : RemoveObsoleteParsers.forLoop infoSecond l s = some t) :
    ∃ it ∈ l, it.2 ≠ infoSecond ∧ (DeleteParser s it.1).1 = true
      ∧ t = (DeleteParser s it.1).2 := by
  induction l with
  | nil => simp [RemoveObsoleteParsers.forLoop] at ht
  | cons it rest ih =>
    unfold RemoveObsoleteParsers.forLoop at ht
    by_cases hskip : it.2 = infoSecond
    · rw [if_pos hskip] at ht
      obtain ⟨it2, hmem, h⟩ := ih ht
      exact ⟨it2, List.mem_cons_of_mem _ hmem, h⟩
    · rw [if_neg hskip] at ht
      dsimp only at ht
      by_cases hr : (DeleteParser s it.1).1 = true
      · rw [if_pos hr] at ht
        injection ht with ht
        exact ⟨it, List.mem_cons_self _ _, hskip, hr, ht.symm⟩
      · rw [if_neg hr] at ht
        have hfalse : (DeleteParser s it.1).1 = false := by simpa using hr
        rw [DeleteParser_false s it.1 hfalse] at ht
        obtain ⟨it2, hmem, h⟩ := ih ht
        exact ⟨it2, List.mem_cons_of_mem _ hmem, h⟩

/-- When the `for` loop of `RemoveObsoleteParsers` deletes nothing, every pair it ran over holds
the parser of the current editor or is one for which `DeleteParser(it->first)` fails. -/
theorem forLoop_none (infoSecond : ParserPtr) (l : List (ProjectPtr × ParserPtr))
    (s : NativeParser) (hn : RemoveObsoleteParsers.forLoop infoSecond l s = none) :
    ∀ it ∈ l, it.2 = infoSecond ∨ (DeleteParser s it.1).1 = false := by
  induction l with
  | nil => simp
  | cons it rest ih =>
    unfold RemoveObsoleteParsers.forLoop at hn
    by_cases hskip : it.2 = infoSecond
    · rw [if_pos hskip] at hn
      intro it2 hmem
      rcases List.mem_cons.mp hmem with e | hmem
      · exact Or.inl (e ▸ hskip)
      · exact ih hn it2 hmem
    · rw [if_neg hskip] at hn
      dsimp only at hn
      by_cases hr : (DeleteParser s it.1).1 = true
      · rw [if_pos hr] at hn
        simp at hn
      · rw [if_neg hr] at hn
        have hfalse : (DeleteParser s it.1).1 = false := by simpa using hr
        rw [DeleteParser_false s it.1 hfalse] at hn
        intro it2 hmem
        rcases List.mem_cons.mp hmem with e | hmem
        · exact Or.inr (e ▸ hfalse)
        · exact ih hn it2 hmem

/-- With enough fuel the `while` loop of `RemoveObsoleteParsers` stops because its own condition
fails or because the `for` loop deleted nothing, not because the fuel is used up. -/
theorem whileLoop_exit (infoSecond : ParserPtr) (maxParsers fuel : Nat) (s : NativeParser)
    (hfuel : registryMeasure s < fuel) :
    (RemoveObsoleteParsers.whileLoop infoSecond maxParsers fuel s).m_ParserList.length ≤ maxParsers
    ∨ RemoveObsoleteParsers.forLoop infoSecond
        (RemoveObsoleteParsers.whileLoop infoSecond maxParsers fuel s).m_ParserList
        (RemoveObsoleteParsers.whileLoop infoSecond maxParsers fuel s) = none := by
  induction fuel generalizing s with
  | zero => exact absurd hfuel (Nat.not_lt_zero _)
  | succ fuel ih =>
    unfold RemoveObsoleteParsers.whileLoop
    by_cases hlen : s.m_ParserList.length > maxParsers
    · rw [if_pos hlen]
      cases hf : RemoveObsoleteParsers.forLoop infoSecond s.m_ParserList s with
      | none => exact Or.inr hf
      | some s1 =>
        obtain ⟨it, _, _, hr, e⟩ := forLoop_some infoSecond _ s s1 hf
        have hm := DeleteParser_measure s it.1 hr
        rw [← e] at hm
        exact ih s1 (by omega)
    · rw [if_neg hlen]
      exact Or.inl (Nat.not_lt.mp hlen)

/-- More fuel than the measure of the state never changes the result of the `while` loop. -/
theorem whileLoop_fuel (infoSecond : ParserPtr) (maxParsers fuel1 fuel2 : Nat) (s : NativeParser)
    (h1 : registryMeasure s < fuel1) (h2 : registryMeasure s < fuel2) :
    RemoveObsoleteParsers.whileLoop infoSecond maxParsers fuel1 s
      = RemoveObsoleteParsers.whileLoop infoSecond maxParsers fuel2 s := by
  induction fuel1 generalizing s fuel2 with
  | zero => exact absurd h1 (Nat.not_lt_zero _)
  | succ fuel1 ih =>
    cases fuel2 with
    | zero => exact absurd h2 (Nat.not_lt_zero _)
    | succ fuel2 =>
      unfold RemoveObsoleteParsers.whileLoop
      by_cases hlen : s.m_ParserList.length > maxParsers
      · rw [if_pos hlen, if_pos hlen]
        cases hf : RemoveObsoleteParsers.forLoop infoSecond s.m_ParserList s with
        | none => rfl
        | some s1 =>
          obtain ⟨it, _, _, hr, e⟩ := forLoop_some infoSecond _ s s1 hf
          have hm := DeleteParser_measure s it.1 hr
          rw [← e] at hm
          exact ih fuel2 s1 (by omega) (by omega)
      · rw [if_neg hlen, if_neg hlen]

/-- Termination of `RemoveObsoleteParsers`: the loop of the model stops by its own exit
conditions (the list is within the cap, or a pass of the `for` loop deleted nothing), and any
larger amount of fuel gives the same state. -/
theorem RemoveObsoleteParsers_terminates (s : NativeParser) (ide : Ide) :
    ((RemoveObsoleteParsers s ide).m_ParserList.length ≤ ide.maxParsers
      ∨ RemoveObsoleteParsers.forLoop (GetParserInfoByCurrentEditor s ide).2
          (RemoveObsoleteParsers s ide).m_ParserList (RemoveObsoleteParsers s ide) = none)
    ∧ (∀ fuel, registryMeasure s < fuel →
        RemoveObsoleteParsers.whileLoop (GetParserInfoByCurrentEditor s ide).2 ide.maxParsers fuel s
          = RemoveObsoleteParsers s ide) := by
  constructor
  · exact whileLoop_exit _ _ _ s (by unfold registryMeasure; omega)
  · intro fuel hfuel
    exact whileLoop_fuel _ _ _ _ s hfuel (by unfold registryMeasure; omega)

/-- In project mode with an empty merged set, `DeleteParser(P)` for a project that has a pair
succeeds and drops the first pair of `P`. -/
theorem DeleteParser_project_mode (s : NativeParser) (project : ProjectPtr)
    (hmode : s.m_ParserPerWorkspace = false) (hparsed : s.m_ParsedProjects = [])
    (hmem : ∃ it ∈ s.m_ParserList, it.1 = project) :
    (DeleteParser s project).1 = true
    ∧ (∃ i, s.m_ParserList.findIdx? (fun it => it.1 = project) = some i
        ∧ i < s.m_ParserList.length
        ∧ registryView (DeleteParser s project).2 = dropPair (registryView s) i)
    ∧ (DeleteParser s project).2.m_ParsedProjects = []
    ∧ (DeleteParser s project).2.m_ParserPerWorkspace = false := by
  have hfi : DeleteParser.findIt s project
      = s.m_ParserList.findIdx? (fun it => it.1 = project) := by
    unfold DeleteParser.findIt
    rw [hmode]
    rfl
  have htrue : (DeleteParser s project).1 = true := by
    unfold DeleteParser
    rw [hfi]
    cases hfind : s.m_ParserList.findIdx? (fun it => decide (it.1 = project)) with
    | none =>
      rw [List.findIdx?_eq_none_iff] at hfind
      obtain ⟨it, hit, hk⟩ := hmem
      have := hfind it hit
      simp [hk] at this
    | some i =>
      dsimp only
      rw [hmode]
      simp only [Bool.false_eq_true, if_false, hparsed, List.isEmpty_nil, if_true]
  refine ⟨htrue, ?_, ?_, (DeleteParser_view s project).2.trans hmode⟩
  · rcases DeleteParser_true s project htrue with ⟨_, hlt⟩ | ⟨i, hi1, hi2, hv, _⟩
    · rw [hparsed] at hlt
      simp at hlt
    · exact ⟨i, hfi ▸ hi1, hi2, hv⟩
  · rcases DeleteParser_true s project htrue with ⟨_, hlt⟩ | ⟨i, _, _, _, hnil⟩
    · rw [hparsed] at hlt
      simp at hlt
    · exact hnil

/-- In project mode, `DeleteParser(P)` for a project without a pair returns false and changes
nothing. -/
theorem DeleteParser_project_mode_none (s : NativeParser) (project : ProjectPtr)
    (hmode : s.m_ParserPerWorkspace = false) (hnone : ∀ it ∈ s.m_ParserList, it.1 ≠ project) :
    DeleteParser s project = (false, s) := by
  have hfi : DeleteParser.findIt s project = none := by
    unfold DeleteParser.findIt
    rw [hmode]
    simp only [Bool.false_eq_true, if_false]
    rw [List.findIdx?_eq_none_iff]
    intro it hit
    simpa using hnone it hit
  unfold DeleteParser
  rw [hfi]

/-- The `while` loop of `RemoveObsoleteParsers` in project mode with an empty merged set: on
return the list is within the cap or every pair left holds the parser of the current editor. -/
theorem whileLoop_project_mode (infoSecond : ParserPtr) (maxParsers fuel : Nat)
    (s : NativeParser) (hmode : s.m_ParserPerWorkspace = false) (hparsed : s.m_ParsedProjects = [])
    (hfuel : registryMeasure s < fuel) :
    (RemoveObsoleteParsers.whileLoop infoSecond maxParsers fuel s).m_ParserList.length ≤ maxParsers
    ∨ ∀ it ∈ (RemoveObsoleteParsers.whileLoop infoSecond maxParsers fuel s).m_ParserList,
        it.2 = infoSecond := by
  induction fuel generalizing s with
  | zero => exact absurd hfuel (Nat.not_lt_zero _)
  | succ fuel ih =>
    unfold RemoveObsoleteParsers.whileLoop
    by_cases hlen : s.m_ParserList.length > maxParsers
    · rw [if_pos hlen]
      cases hf : RemoveObsoleteParsers.forLoop infoSecond s.m_ParserList s with
      | none =>
        right
        intro it hit
        rcases forLoop_none infoSecond _ s hf it hit with h | h
        · exact h
        · have := (DeleteParser_project_mode s it.1 hmode hparsed ⟨it, hit, rfl⟩).1
          rw [h] at this
          simp at this
      | some s1 =>
        obtain ⟨it, hit, _, hr, e⟩ := forLoop_some infoSecond _ s s1 hf
        have hm := DeleteParser_measure s it.1 hr
        have hp := DeleteParser_project_mode s it.1 hmode hparsed ⟨it, hit, rfl⟩
        rw [← e] at hm hp
        exact ih s1 hp.2.2.2 hp.2.2.1 (by omega)
    · rw [if_neg hlen]
      exact Or.inl (Nat.not_lt.mp hlen)

/-- In project mode with an empty merged set, `RemoveObsoleteParsers` returns with the list
within the cap or with every pair left holding the parser of the current editor. -/
theorem RemoveObsoleteParsers_project_mode (s : NativeParser) (ide : Ide)
    (hmode : s.m_ParserPerWorkspace = false) (hparsed : s.m_ParsedProjects = []) :
    (RemoveObsoleteParsers s ide).m_ParserList.length ≤ ide.maxParsers
    ∨ ∀ it ∈ (RemoveObsoleteParsers s ide).m_ParserList,
        it.2 = (GetParserInfoByCurrentEditor s ide).2 :=
  whileLoop_project_mode _ _ _ s hmode hparsed (by unfold registryMeasure; omega)

/-- C13: the code breaks the claim at a reachable state.  In `exSharedSwitched` (project 1 was
merged into the shared parser 10 in workspace mode, then the mode was changed to project mode
without a reparse) project 1 has the registered parser 10, and `DeleteParser(1)` returns false
and removes nothing, because the merged-project set is not empty. -/
theorem DeleteParser_refuses_registered_project :
    Reachable exSharedSwitched
    ∧ exSharedSwitched.m_ParserPerWorkspace = false
    ∧ exSharedSwitched.m_ParserList = [(1, 10)]
    ∧ exSharedSwitched.m_ParsedProjects = [1]
    ∧ GetParserByProject exSharedSwitched 1 = 10
    ∧ (DeleteParser exSharedSwitched 1).1 = false
    ∧ (DeleteParser exSharedSwitched 1).2.m_ParserList = [(1, 10)]
    ∧ (DeleteParser exSharedSwitched 1).2.deleted = [] := by
  refine ⟨?_, by decide, by decide, by decide, by decide, by decide, by decide, by decide⟩
  exact Reachable.rereadParserOptions _ _ _ _
    (Reachable.createParser _ _ _ _ _ (Reachable.init 100 true (by decide)) (by decide))
    (by decide)

/-- C17: the code breaks the claim at a reachable state.  In `exSharedSwitchedTwo` (project
mode, the pairs (1,10) and (2,20), project 1 left in the merged set by the change of mode) with
a cap of one parser and no editor open, `RemoveObsoleteParsers` deletes nothing: on return the
list holds two parsers, more than the cap, and none of them is the parser of the current
editor. -/
theorem RemoveObsoleteParsers_leaves_list_above_cap :
    Reachable exSharedSwitchedTwo
    ∧ exSharedSwitchedTwo.m_ParserPerWorkspace = false
    ∧ exSharedSwitchedTwo.m_ParserList = [(1, 10), (2, 20)]
    ∧ exIdeCap1.maxParsers = 1
    ∧ (GetParserInfoByCurrentEditor exSharedSwitchedTwo exIdeCap1).2 = 0
    ∧ (RemoveObsoleteParsers exSharedSwitchedTwo exIdeCap1).m_ParserList = [(1, 10), (2, 20)]
    ∧ (RemoveObsoleteParsers exSharedSwitchedTwo exIdeCap1).deleted = [] := by
  refine ⟨?_, by decide, by decide, by decide, by decide, by decide, by decide⟩
  exact Reachable.createParser _ _ _ _ _
    (Reachable.rereadParserOptions _ _ _ _
      (Reachable.createParser _ _ _ _ _ (Reachable.init 100 true (by decide)) (by decide))
      (by decide))
    (by decide)

theorem fst_getD_eq (l : List (ProjectPtr × ParserPtr)) (i : Nat) (it : ProjectPtr × ParserPtr)
    (hnd : (l.map Prod.fst).Nodup) (hit : it ∈ l)
    (hfind : l.findIdx? (fun x => x.1 = it.1) = some i) : l.getD i (0, 0) = it := by
  rw [List.findIdx?_eq_some_iff_getElem] at hfind
  obtain ⟨hi, hk, _⟩ := hfind
  rw [List.getD_eq_getElem l (0, 0) hi]
  have hk2 : (l[i]).1 = it.1 := by simpa using hk
  exact List.inj_on_of_nodup_map hnd (List.getElem_mem hi) hit hk2

/-- The `while` loop in project mode with an empty merged set and no project in two pairs never
deletes a pair whose parser is the parser of the current editor: such a parser stays active and
registered. -/
theorem whileLoop_keeps_editor (infoSecond : ParserPtr) (maxParsers fuel : Nat)
    (s : NativeParser) (hmode : s.m_ParserPerWorkspace = false) (hparsed : s.m_ParsedProjects = [])
    (hnd : (s.m_ParserList.map Prod.fst).Nodup) (hact : s.m_Parser = infoSecond)
    (hreg : infoSecond ∈ s.m_ParserList.map Prod.snd) :
    (RemoveObsoleteParsers.whileLoop infoSecond maxParsers fuel s).m_Parser = infoSecond
    ∧ infoSecond
        ∈ (RemoveObsoleteParsers.whileLoop infoSecond maxParsers fuel s).m_ParserList.map
            Prod.snd := by
  induction fuel generalizing s with
  | zero => exact ⟨hact, hreg⟩
  | succ fuel ih =>
    unfold RemoveObsoleteParsers.whileLoop
    by_cases hlen : s.m_ParserList.length > maxParsers
    · rw [if_pos hlen]
      cases hf : RemoveObsoleteParsers.forLoop infoSecond s.m_ParserList s with
      | none => exact ⟨hact, hreg⟩
      | some s1 =>
        obtain ⟨it, hit, hne, _, e⟩ := forLoop_some infoSecond _ s s1 hf
        obtain ⟨_, ⟨i, hfind, hi, hv⟩, hp1, hm1⟩ :=
          DeleteParser_project_mode s it.1 hmode hparsed ⟨it, hit, rfl⟩
        rw [← e] at hv hp1 hm1
        have hget := fst_getD_eq s.m_ParserList i it hnd hit hfind
        have hl : s1.m_ParserList = s.m_ParserList.eraseIdx i := congrArg (fun v => v.1) hv
        have ha : s1.m_Parser
            = (if (s.m_ParserList.getD i (0, 0)).2 = s.m_Parser then s.m_TempParser
               else s.m_Parser) := congrArg (fun v => v.2.1) hv
        rw [hget, hact, if_neg hne] at ha
        apply ih s1 hm1 hp1
        · rw [hl]
          exact hnd.sublist ((List.eraseIdx_sublist _ _).map Prod.fst)
        · exact ha
        · rw [hl]
          apply snd_mem_eraseIdx _ _ (0, 0) _ hreg
          rw [hget]
          exact fun h => hne h.symm
    · rw [if_neg hlen]
      exact ⟨hact, hreg⟩

/-- What eviction can do to a parser `a` that is active and registered: a drop of a pair keeps
it active and registered, or destroys it and makes the fallback parser active. -/
theorem active_dropPair (a temp : ParserPtr) (d0 : List ParserPtr) (v : RegistryView) (i : Nat)
    (_hi : i < v.1.length)
    (h : v.2.2.1 = temp ∧ ∃ pre, v.2.2.2 = pre ++ d0
      ∧ ((v.2.1 = a ∧ a ∈ v.1.map Prod.snd) ∨ (v.2.1 = temp ∧ a ∈ pre))) :
    (dropPair v i).2.2.1 = temp ∧ ∃ pre, (dropPair v i).2.2.2 = pre ++ d0
      ∧ (((dropPair v i).2.1 = a ∧ a ∈ (dropPair v i).1.map Prod.snd)
          ∨ ((dropPair v i).2.1 = temp ∧ a ∈ pre)) := by
  obtain ⟨ht, pre, hd, hcase⟩ := h
  refine ⟨ht, (v.1.getD i (0, 0)).2 :: pre, ?_, ?_⟩
  · show (v.1.getD i (0, 0)).2 :: v.2.2.2 = _
    rw [hd]
    rfl
  · show ((if (v.1.getD i (0, 0)).2 = v.2.1 then v.2.2.1 else v.2.1) = a
        ∧ a ∈ (v.1.eraseIdx i).map Prod.snd)
      ∨ ((if (v.1.getD i (0, 0)).2 = v.2.1 then v.2.2.1 else v.2.1) = temp
        ∧ a ∈ (v.1.getD i (0, 0)).2 :: pre)
    rcases hcase with ⟨h1, h2⟩ | ⟨h1, h2⟩
    · by_cases hx : (v.1.getD i (0, 0)).2 = v.2.1
      · rw [if_pos hx]
        right
        exact ⟨ht, by rw [hx, h1]; exact List.mem_cons_self _ _⟩
      · rw [if_neg hx]
        left
        refine ⟨h1, snd_mem_eraseIdx _ _ (0, 0) _ h2 ?_⟩
        rw [← h1]
        exact fun e => hx e.symm
    · right
      refine ⟨?_, List.mem_cons_of_mem _ h2⟩
      by_cases hx : (v.1.getD i (0, 0)).2 = v.2.1
      · rw [if_pos hx]
        exact ht
      · rw [if_neg hx]
        exact h1

/-- C16, as stated, fails: in `exTwo` (project mode, pairs (1,10) and (2,20), the parser 10
active and registered) with the editor of project 2 focused and a cap of one parser,
`RemoveObsoleteParsers` destroys the active parser 10 and makes the fallback parser 100
active. -/
theorem RemoveObsoleteParsers_deletes_active :
    exTwo.m_Parser = 10 ∧ exTwo.m_ParserList = [(1, 10), (2, 20)]
    ∧ GetParserInfoByCurrentEditor exTwo exIdeEditor2Cap1 = (2, 20)
    ∧ (RemoveObsoleteParsers exTwo exIdeEditor2Cap1).m_ParserList = [(2, 20)]
    ∧ (RemoveObsoleteParsers exTwo exIdeEditor2Cap1).m_Parser = 100
    ∧ (RemoveObsoleteParsers exTwo exIdeEditor2Cap1).deleted = [10] := by
  decide

/-- C16 (amended): when the active parser is registered before `RemoveObsoleteParsers`, then
afterwards either it is still active and registered, or the eviction has destroyed it and the
fallback parser is active.  Only the parser of the current editor is protected: in project mode
with an empty merged-project set and no project in two pairs, an active parser that is the
parser of the current editor is still active and registered afterwards. -/
theorem RemoveObsoleteParsers_active (s : NativeParser) (ide : Ide)
    (hreg : s.m_Parser ∈ s.m_ParserList.map Prod.snd) :
    (((RemoveObsoleteParsers s ide).m_Parser = s.m_Parser
        ∧ s.m_Parser ∈ (RemoveObsoleteParsers s ide).m_ParserList.map Prod.snd)
      ∨ ((RemoveObsoleteParsers s ide).m_Parser = s.m_TempParser
        ∧ ∃ pre, (RemoveObsoleteParsers s ide).deleted = pre ++ s.deleted ∧ s.m_Parser ∈ pre))
    ∧ (s.m_ParserPerWorkspace = false → s.m_ParsedProjects = [] →
        (s.m_ParserList.map Prod.fst).Nodup →
        s.m_Parser = (GetParserInfoByCurrentEditor s ide).2 →
        (RemoveObsoleteParsers s ide).m_Parser = s.m_Parser
        ∧ s.m_Parser ∈ (RemoveObsoleteParsers s ide).m_ParserList.map Prod.snd) := by
  constructor
  · have h := RemoveObsoleteParsers_pres
      (fun v => v.2.2.1 = s.m_TempParser ∧ ∃ pre, v.2.2.2 = pre ++ s.deleted
        ∧ ((v.2.1 = s.m_Parser ∧ s.m_Parser ∈ v.1.map Prod.snd)
            ∨ (v.2.1 = s.m_TempParser ∧ s.m_Parser ∈ pre)))
      (active_dropPair s.m_Parser s.m_TempParser s.deleted) s ide
      ⟨rfl, [], rfl, Or.inl ⟨rfl, hreg⟩⟩
    obtain ⟨_, pre, hd, hcase⟩ := h
    rcases hcase with hc | ⟨h1, h2⟩
    · exact Or.inl hc
    · exact Or.inr ⟨h1, pre, hd, h2⟩
  · intro hmode hparsed hnd hinfo
    have h := whileLoop_keeps_editor (GetParserInfoByCurrentEditor s ide).2 ide.maxParsers
      (s.m_ParserList.length + s.m_ParsedProjects.length + 1) s hmode hparsed hnd hinfo
      (hinfo ▸ hreg)
    refine ⟨h.1.trans hinfo.symm, ?_⟩
    have h2 := h.2
    show s.m_Parser ∈ (RemoveObsoleteParsers.whileLoop (GetParserInfoByCurrentEditor s ide).2
      ide.maxParsers (s.m_ParserList.length + s.m_ParsedProjects.length + 1) s).m_ParserList.map
        Prod.snd
    rw [hinfo]
    exact h2

/-- Witness of `RemoveObsoleteParsers_active`: in `exTwo` after a switch to the parser 20 of
project 2, with the editor of project 2 focused and a cap of one parser, the eviction removes the
pair (1,10) and the active parser 20 stays active and registered. -/
theorem RemoveObsoleteParsers_active_witness :
    (SwitchParser exTwo 2 20).2.m_Parser ∈ (SwitchParser exTwo 2 20).2.m_ParserList.map Prod.snd
    ∧ (RemoveObsoleteParsers (SwitchParser exTwo 2 20).2 exIdeEditor2Cap1).m_ParserList = [(2, 20)]
    ∧ (RemoveObsoleteParsers (SwitchParser exTwo 2 20).2 exIdeEditor2Cap1).m_Parser
        = (SwitchParser exTwo 2 20).2.m_Parser
    ∧ (SwitchParser exTwo 2 20).2.m_Parser
        ∈ (RemoveObsoleteParsers (SwitchParser exTwo 2 20).2 exIdeEditor2Cap1).m_ParserList.map
            Prod.snd :=
  ⟨by decide, by decide,
    (RemoveObsoleteParsers_active (SwitchParser exTwo 2 20).2 exIdeEditor2Cap1 (by decide)).2
      (by decide) (by decide) (by decide) (by decide)⟩

/-! ## Theorems: the start of the current function -/

/-- The search for the opening brace over a text that holds neither an opening brace nor a NUL
character from `r` on ends at the length of the text, without reporting a failure. -/
theorem braceLoop_no_brace (c : cbStyledTextCtrl) (fuel : Nat) (r : Int)
    (hfuel : (c.GetLength - r).toNat < fuel)
    (hle : r ≤ c.GetLength)
    (hno : ∀ p : Int, r ≤ p → p < c.GetLength →
      c.GetCharAt p ≠ '\x7b' ∧ c.GetCharAt p ≠ Char.ofNat 0) :
    FindCurrentFunctionStart.braceLoop c fuel r = (c.GetLength, false) := by
  induction fuel generalizing r with
  | zero => exact absurd hfuel (Nat.not_lt_zero _)
  | succ fuel ih =>
    unfold FindCurrentFunctionStart.braceLoop
    by_cases hlt : r < c.GetLength
    · rw [if_pos hlt]
      dsimp only
      rw [if_neg (hno r (le_refl _) hlt).1, if_neg (hno r (le_refl _) hlt).2]
      apply ih (r + 1)
      · omega
      · omega
      · intro p hp1 hp2
        exact hno p (by omega) hp2
    · rw [if_neg hlt]
      have : r = c.GetLength := by omega
      rw [this]

/-- The search for the opening brace stops at the first opening brace at or after `r` when no
NUL character stands before it. -/
theorem braceLoop_first_brace (c : cbStyledTextCtrl) (fuel : Nat) (r b : Int)
    (hfuel : (b - r).toNat < fuel) (hrb : r ≤ b) (hb : b < c.GetLength)
    (hbrace : c.GetCharAt b = '\x7b')
    (hno : ∀ p : Int, r ≤ p → p < b → c.GetCharAt p ≠ '\x7b' ∧ c.GetCharAt p ≠ Char.ofNat 0) :
    FindCurrentFunctionStart.braceLoop c fuel r = (b, false) := by
  induction fuel generalizing r with
  | zero => exact absurd hfuel (Nat.not_lt_zero _)
  | succ fuel ih =>
    unfold FindCurrentFunctionStart.braceLoop
    have hlt : r < c.GetLength := by omega
    rw [if_pos hlt]
    dsimp only
    by_cases hr : r = b
    · rw [hr, if_pos hbrace]
    · have hrb2 : r < b := by omega
      rw [if_neg (hno r (le_refl _) hrb2).1, if_neg (hno r (le_refl _) hrb2).2]
      apply ih (r + 1)
      · omega
      · omega
      · intro p hp1 hp2
        exact hno p (by omega) hp2

/-- What `FindCurrentFunctionStart` returns when it is no cache hit and finds a function token
for the caret line whose implementation line starts inside the text: the offset of the first
opening brace at or after the start of that line when no NUL character stands before it, and the
length of the text (not -1) when the text holds neither an opening brace nor a NUL character
from there on. -/
theorem FindCurrentFunctionStart_found (h : Helpers) (s : NativeParser)
    (searchData : ccSearchData) (nameSpace procName : Option wxString)
    (functionIndex : Option Int) (caretPos : Int) (token : Token)
    (hpos : ¬ (caretPosition searchData.control caretPos < 0
      ∨ caretPosition searchData.control caretPos > searchData.control.GetLength))
    (hmiss : (decide (searchData.control.LineFromPosition
          (caretPosition searchData.control caretPos) + 1 = s.m_LastLine)
        && (decide (searchData.control.id = s.m_LastControl) && !searchData.control.GetModify)
        && decide (searchData.file = s.m_LastFile)) = false)
    (htoken : s.parser.tokenTree.at
        (h.GetTokenFromCurrentLine s.parser.tokenTree (h.FindTokensInFile s.parser searchData.file)
          (searchData.control.LineFromPosition (caretPosition searchData.control caretPos) + 1)
          searchData.file) = some token)
    (hfun : token.m_TokenKind.isAnyFunction = true)
    (hstart : searchData.control.PositionFromLine ((token.m_ImplLine : Int) - 1)
      ≤ searchData.control.GetLength) :
    (∀ b : Int, searchData.control.PositionFromLine ((token.m_ImplLine : Int) - 1) ≤ b →
      b < searchData.control.GetLength → searchData.control.GetCharAt b = '\x7b' →
      (∀ p : Int, searchData.control.PositionFromLine ((token.m_ImplLine : Int) - 1) ≤ p → p < b →
        searchData.control.GetCharAt p ≠ '\x7b' ∧ searchData.control.GetCharAt p ≠ Char.ofNat 0) →
      (FindCurrentFunctionStart h s searchData nameSpace procName functionIndex caretPos).1 = b)
    ∧ ((∀ p : Int, searchData.control.PositionFromLine ((token.m_ImplLine : Int) - 1) ≤ p →
        p < searchData.control.GetLength →
        searchData.control.GetCharAt p ≠ '\x7b' ∧ searchData.control.GetCharAt p ≠ Char.ofNat 0) →
      (FindCurrentFunctionStart h s searchData nameSpace procName functionIndex caretPos).1
        = searchData.control.GetLength) := by
  have hrange : ((decide ((if caretPos = -1 then searchData.control.GetCurrentPos else caretPos) < 0)
      || decide ((if caretPos = -1 then searchData.control.GetCurrentPos else caretPos)
          > searchData.control.GetLength)) = true) ↔ False := by
    unfold caretPosition at hpos
    simpa using hpos
  unfold caretPosition at hmiss htoken
  have hparser : ∀ (a : wxString) (b : Nat) (c : Int),
      NativeParser.parser { s with m_LastFile := a, m_LastControl := b, m_LastLine := c }
        = s.parser := fun _ _ _ => rfl
  constructor
  · intro b hb1 hb2 hb3 hb4
    have hloop := braceLoop_first_brace searchData.control
      ((searchData.control.GetLength
        - searchData.control.PositionFromLine ((token.m_ImplLine : Int) - 1)).toNat + 1)
      (searchData.control.PositionFromLine ((token.m_ImplLine : Int) - 1)) b (by omega) hb1 hb2
      hb3 hb4
    unfold FindCurrentFunctionStart
    simp only [hrange, if_false, hmiss, Bool.false_eq_true, hparser, htoken, hfun, if_true, hloop]
  · intro hno
    have hloop := braceLoop_no_brace searchData.control
      ((searchData.control.GetLength
        - searchData.control.PositionFromLine ((token.m_ImplLine : Int) - 1)).toNat + 1)
      (searchData.control.PositionFromLine ((token.m_ImplLine : Int) - 1)) (by omega) hstart hno
    unfold FindCurrentFunctionStart
    simp only [hrange, if_false, hmiss, Bool.false_eq_true, hparser, htoken, hfun, if_true, hloop]

/-- Witness of `FindCurrentFunctionStart_found`: in `exSearchNoBrace` the token `f` is found and
the text holds no opening brace; the result is the length of the text. -/
theorem FindCurrentFunctionStart_found_witness :
    (FindCurrentFunctionStart specHelpers exStateF exSearchNoBrace (some []) (some []) (some (-1))
      (-1)).1 = exSearchNoBrace.control.GetLength :=
  (FindCurrentFunctionStart_found specHelpers exStateF exSearchNoBrace (some []) (some [])
    (some (-1)) (-1) exTokenF (by decide) (by decide) (by decide) (by decide) (by decide)).2
    (by
      intro p h1 h2
      have h3 : (0 : Int) ≤ p := h1
      have h4 : p < 13 := h2
      interval_cases p <;> decide)

/-- C18: the code breaks the claim.  In `exSearchNoBrace` the function token `f` is found for the
caret line and the text holds no opening brace from the start of its implementation line (offset
0) to the end; `FindCurrentFunctionStart` returns 13, the length of the text, not -1, and writes
the function name and index to its outputs. -/
theorem FindCurrentFunctionStart_no_brace_returns_length :
    '\x7b' ∉ exSearchNoBrace.control.text
    ∧ exSearchNoBrace.control.GetLength = 13
    ∧ (FindCurrentFunctionStart specHelpers exStateF exSearchNoBrace (some []) (some [])
        (some (-1)) (-1)).1 = 13
    ∧ (FindCurrentFunctionStart specHelpers exStateF exSearchNoBrace (some []) (some [])
        (some (-1)) (-1)).2.2.1 = some "f".toList
    ∧ (FindCurrentFunctionStart specHelpers exStateF exSearchNoBrace (some []) (some [])
        (some (-1)) (-1)).2.2.2.1 = some 0 := by
  refine ⟨by decide, by decide, by decide, by decide, by decide⟩

/-- C19: the code breaks the claim.  In `exSearchTwoLines`, after a call inside `f`, the call
with the caret on line 2 is not a cache hit, finds no enclosing function, returns -1 and leaves
its outputs as they were passed (empty name, index -1); the same call repeated hits the cache,
returns -1 and writes the name `f` and the index 0 of the call before.  In `exSearchNul`, where
a NUL character stops the search for the brace, the first call returns -1 and leaves its outputs
as passed, the repeated call hits the cache, returns 13 and writes `f` and 0. -/
theorem FindCurrentFunctionStart_cache_hit_differs :
    ((FindCurrentFunctionStart specHelpers exAfterStartInF exSearchTwoLines (some []) (some [])
        (some (-1)) (-1)).1 = -1
      ∧ (FindCurrentFunctionStart specHelpers exAfterStartInF exSearchTwoLines (some []) (some [])
          (some (-1)) (-1)).2.2.1 = some []
      ∧ (FindCurrentFunctionStart specHelpers exAfterStartInF exSearchTwoLines (some []) (some [])
          (some (-1)) (-1)).2.2.2.1 = some (-1))
    ∧ ((FindCurrentFunctionStart specHelpers exAfterStartOutside exSearchTwoLines (some [])
          (some []) (some (-1)) (-1)).1 = -1
      ∧ (FindCurrentFunctionStart specHelpers exAfterStartOutside exSearchTwoLines (some [])
          (some []) (some (-1)) (-1)).2.2.1 = some "f".toList
      ∧ (FindCurrentFunctionStart specHelpers exAfterStartOutside exSearchTwoLines (some [])
          (some []) (some (-1)) (-1)).2.2.2.1 = some 0)
    ∧ ((FindCurrentFunctionStart specHelpers exStateF exSearchNul (some []) (some [])
          (some (-1)) (-1)).1 = -1
      ∧ (FindCurrentFunctionStart specHelpers exStateF exSearchNul (some []) (some [])
          (some (-1)) (-1)).2.2.1 = some []
      ∧ (FindCurrentFunctionStart specHelpers exAfterStartNul exSearchNul (some []) (some [])
          (some (-1)) (-1)).1 = 13
      ∧ (FindCurrentFunctionStart specHelpers exAfterStartNul exSearchNul (some []) (some [])
          (some (-1)) (-1)).2.2.1 = some "f".toList) := by
  refine ⟨⟨by decide, by decide, by decide⟩, ⟨by decide, by decide, by decide⟩,
    ⟨by decide, by decide, by decide, by decide⟩⟩

/-- What a cache hit of `FindCurrentFunctionStart` returns after a call that was no cache hit
and found no token for the caret line, for any helper functions: the first call returns -1 and
leaves the outputs as they were passed; the repeated call returns -1 and writes to the outputs
the namespace, name and index that were cached before the first call. -/
theorem FindCurrentFunctionStart_hit_after_no_token (h : Helpers) (s : NativeParser)
    (searchData : ccSearchData) (nameSpace procName : Option wxString)
    (functionIndex : Option Int) (caretPos : Int)
    (hpos : ¬ (caretPosition searchData.control caretPos < 0
      ∨ caretPosition searchData.control caretPos > searchData.control.GetLength))
    (hmiss : (decide (searchData.control.LineFromPosition
          (caretPosition searchData.control caretPos) + 1 = s.m_LastLine)
        && (decide (searchData.control.id = s.m_LastControl) && !searchData.control.GetModify)
        && decide (searchData.file = s.m_LastFile)) = false)
    (hnone : s.parser.tokenTree.at
        (h.GetTokenFromCurrentLine s.parser.tokenTree (h.FindTokensInFile s.parser searchData.file)
          (searchData.control.LineFromPosition (caretPosition searchData.control caretPos) + 1)
          searchData.file) = none)
    (hmod : searchData.control.GetModify = false) :
    (FindCurrentFunctionStart h s searchData nameSpace procName functionIndex caretPos).1 = -1
    ∧ (FindCurrentFunctionStart h s searchData nameSpace procName functionIndex caretPos).2.1
        = nameSpace
    ∧ (FindCurrentFunctionStart h s searchData nameSpace procName functionIndex caretPos).2.2.1
        = procName
    ∧ (FindCurrentFunctionStart h s searchData nameSpace procName functionIndex caretPos).2.2.2.1
        = functionIndex
    ∧ FindCurrentFunctionStart h
        (FindCurrentFunctionStart h s searchData nameSpace procName functionIndex caretPos).2.2.2.2
        searchData nameSpace procName functionIndex caretPos
      = (-1, nameSpace.map (fun _ => s.m_LastNamespace), procName.map (fun _ => s.m_LastPROC),
          functionIndex.map (fun _ => s.m_LastFunctionIndex),
          (FindCurrentFunctionStart h s searchData nameSpace procName functionIndex
            caretPos).2.2.2.2) := by
  have hrange : ((decide ((if caretPos = -1 then searchData.control.GetCurrentPos else caretPos) < 0)
      || decide ((if caretPos = -1 then searchData.control.GetCurrentPos else caretPos)
          > searchData.control.GetLength)) = true) ↔ False := by
    unfold caretPosition at hpos
    simpa using hpos
  unfold caretPosition at hmiss hnone
  have hparser : ∀ (a : wxString) (b : Nat) (c : Int),
      NativeParser.parser { s with m_LastFile := a, m_LastControl := b, m_LastLine := c }
        = s.parser := fun _ _ _ => rfl
  have hfirst : FindCurrentFunctionStart h s searchData nameSpace procName functionIndex caretPos
      = (-1, nameSpace, procName, functionIndex,
          { s with m_LastFile := searchData.file, m_LastControl := searchData.control.id,
                   m_LastLine := searchData.control.LineFromPosition
                     (if caretPos = -1 then searchData.control.GetCurrentPos else caretPos) + 1,
                   m_LastResult := -1 }) := by
    unfold FindCurrentFunctionStart
    simp only [hrange, if_false, hmiss, Bool.false_eq_true, hparser, hnone]
  rw [hfirst]
  refine ⟨rfl, rfl, rfl, rfl, ?_⟩
  unfold FindCurrentFunctionStart
  simp only [hrange, if_false, hmod, decide_True, Bool.not_false, Bool.and_self, if_true]

/-- Witness of `FindCurrentFunctionStart_hit_after_no_token`: the two calls on line 2 of
`exSearchTwoLines` after a call inside `f`. -/
theorem FindCurrentFunctionStart_hit_after_no_token_witness :
    (FindCurrentFunctionStart specHelpers exAfterStartInF exSearchTwoLines (some []) (some [])
      (some (-1)) (-1)).2.2.1 = some []
    ∧ exAfterStartInF.m_LastPROC = "f".toList
    ∧ (FindCurrentFunctionStart specHelpers
        (FindCurrentFunctionStart specHelpers exAfterStartInF exSearchTwoLines (some []) (some [])
          (some (-1)) (-1)).2.2.2.2
        exSearchTwoLines (some []) (some []) (some (-1)) (-1)).2.2.1
      = some exAfterStartInF.m_LastPROC :=
  ⟨(FindCurrentFunctionStart_hit_after_no_token specHelpers exAfterStartInF exSearchTwoLines
      (some []) (some []) (some (-1)) (-1) (by decide) (by decide) (by decide) (by decide)).2.2.1,
    by decide,
    congrArg (fun r => r.2.2.1)
      (FindCurrentFunctionStart_hit_after_no_token specHelpers exAfterStartInF exSearchTwoLines
        (some []) (some []) (some (-1)) (-1) (by decide) (by decide) (by decide)
        (by decide)).2.2.2.2⟩

/-! ## Theorems: the predefined macros of the compiler -/

/-- Every call of `AddCompilerPredefinedMacrosVC` that returns true hands out the text of the
static `vcDefs`, and no call changes that text. -/
theorem AddCompilerPredefinedMacrosVC_defs (getCompiler : wxString → Option Compiler)
    (shuttingDown : Bool) (st : VCStatics) (w : ExecWorld) (compilerId defs : wxString)
    (parser : Parser) :
    ((AddCompilerPredefinedMacrosVC getCompiler shuttingDown st w compilerId defs parser).1 = true →
      (AddCompilerPredefinedMacrosVC getCompiler shuttingDown st w compilerId defs parser).2.1
        = st.vcDefs)
    ∧ (AddCompilerPredefinedMacrosVC getCompiler shuttingDown st w compilerId defs
        parser).2.2.1.vcDefs = st.vcDefs := by
  unfold AddCompilerPredefinedMacrosVC
  dsimp only
  split_ifs <;> (try split) <;> (try split_ifs) <;> simp

/-- C20: the code breaks the claim.  The compiler prints the banner `exBannerVC`, which contains
"Microsoft (R) 32" and "Compiler Version 12.0"; the text the function builds for it is
`#define _WIN32`, a line feed and `#define _MSC_VER 1200`, but the first call of
`AddCompilerPredefinedMacrosVC`, which returns true, hands out the empty text, and so does the
call after it. -/
theorem AddCompilerPredefinedMacrosVC_outputs_nothing :
    wxContains exBannerVC "Microsoft (R) 32".toList = true
    ∧ wxContains exBannerVC "Compiler Version 12.0".toList = true
    ∧ AddCompilerPredefinedMacrosVC.bits exBannerVC ++ AddCompilerPredefinedMacrosVC.version exBannerVC
        = "#define _WIN32\n#define _MSC_VER 1200".toList
    ∧ (AddCompilerPredefinedMacrosVC exGetCompiler false VCStatics.init exWorldVC "msvc8".toList []
        Parser.empty).1 = true
    ∧ (AddCompilerPredefinedMacrosVC exGetCompiler false VCStatics.init exWorldVC "msvc8".toList []
        Parser.empty).2.1 = []
    ∧ (AddCompilerPredefinedMacrosVC exGetCompiler false
        (AddCompilerPredefinedMacrosVC exGetCompiler false VCStatics.init exWorldVC "msvc8".toList
          [] Parser.empty).2.2.1
        exWorldVC "msvc8".toList [] Parser.empty).2.1 = [] := by
  refine ⟨by decide, by decide, by decide, by decide, by decide, by decide⟩

/-! ## Theorems: the process launch, the using namespaces and the created parser -/

/-- When `SafeExecute` returns before the process is launched (missing executable, re-entry), the
world, and with it PATH, is what it was. -/
theorem SafeExecute_rejected (w : ExecWorld) (app_path app args : wxString)
    (h : w.fileExists (w.replaceMacros (w.replaceMacros
          (if app_path.isEmpty then []
           else app_path ++ (if w.windows then "\\".toList else "/".toList) ++ "bin".toList
             ++ (if w.windows then "\\".toList else "/".toList)) ++ app)) = false
      ∨ w.reentry = true) :
    SafeExecute w app_path app args = (false, [], [], w) := by
  unfold SafeExecute
  dsimp only
  rcases h with h | h
  · simp only [h, Bool.not_false, if_true]
  · split_ifs <;> rfl

/-- After a successful `SafeExecute` in a world where PATH is set and `wxSetEnv` succeeds, PATH
has the value it had before. -/
theorem SafeExecute_success_restores (w : ExecWorld) (app_path app args : wxString)
    (v : wxString) (hpath : w.pathEnv = some v) (hset : ∀ x, w.setEnvOk x = true)
    (hok : (SafeExecute w app_path app args).1 = true) :
    (SafeExecute w app_path app args).2.2.2.pathEnv = some v := by
  unfold SafeExecute at hok ⊢
  dsimp only at hok ⊢
  split_ifs at hok ⊢ <;> simp_all [wxSetEnvPath] <;> (split at hok <;> simp_all [wxSetEnvPath])

/-- C21: the code breaks the claim.  In `exWorldFails` the compiler `C:\VC\bin\cl.exe` exists but
its launch fails: `SafeExecute` returns false and leaves PATH at `C:\VC\bin\;C:\Windows`, the
value it set for the call, where it was `C:\Windows` before.  In `exWorldNoPath`, where PATH is
not set before the call, a successful `SafeExecute` leaves PATH set to the empty string. -/
theorem SafeExecute_leaves_PATH_changed :
    exWorldFails.pathEnv = some "C:\\Windows".toList
    ∧ (SafeExecute exWorldFails "C:\\VC".toList "cl.exe".toList []).1 = false
    ∧ (SafeExecute exWorldFails "C:\\VC".toList "cl.exe".toList []).2.2.2.pathEnv
        = some "C:\\VC\\bin\\;C:\\Windows".toList
    ∧ exWorldNoPath.pathEnv = none
    ∧ (SafeExecute exWorldNoPath "C:\\VC".toList "cl.exe".toList []).1 = true
    ∧ (SafeExecute exWorldNoPath "C:\\VC".toList "cl.exe".toList []).2.2.2.pathEnv = some [] := by
  refine ⟨by decide, by decide, by decide, by decide, by decide, by decide⟩

/-- Witness of `SafeExecute_success_restores` and `SafeExecute_rejected`: the successful run of
the compiler in `exWorldVC`, and a call during another call. -/
theorem SafeExecute_success_restores_witness :
    (SafeExecute exWorldVC "C:\\VC".toList "cl.exe".toList []).2.2.2.pathEnv
        = some "C:\\Windows".toList
    ∧ SafeExecute { exWorldVC with reentry := true } "C:\\VC".toList "cl.exe".toList []
        = (false, [], [], { exWorldVC with reentry := true }) :=
  ⟨SafeExecute_success_restores exWorldVC "C:\\VC".toList "cl.exe".toList []
      "C:\\Windows".toList (by decide) (fun _ => rfl) (by decide),
    SafeExecute_rejected { exWorldVC with reentry := true } "C:\\VC".toList "cl.exe".toList []
      (Or.inr rfl)⟩

theorem TokenIdxSet_mem_insert (a x : Int) (l : TokenIdxSet) :
    x ∈ TokenIdxSet.insert a l ↔ x = a ∨ x ∈ l := by
  unfold TokenIdxSet.insert
  by_cases h : a ∈ l
  · rw [if_pos h]
    constructor
    · exact Or.inr
    · rintro (e | e)
      · exact e ▸ h
      · exact e
  · rw [if_neg h, List.mem_orderedInsert]

/-- The loop of `ParseBufferForUsingNamespace` over the components of a path computes the index
the specification describes. -/
theorem resolve_eq_specNamespaceChain (tree : TokenTree) (components : List ParserComponent)
    (idx : Int) :
    ParseBufferForUsingNamespace.resolve tree components idx
      = (match specNamespaceChain tree components idx with
         | some i => i
         | none => -1) := by
  induction components generalizing idx with
  | nil => rfl
  | cons pc rest ih =>
    unfold ParseBufferForUsingNamespace.resolve specNamespaceChain
    dsimp only
    by_cases h : tree.TokenExists pc.component idx TokenKind.tkNamespace = -1
    · rw [if_pos h, if_pos h]
    · rw [if_neg h, if_neg h]
      exact ih _

theorem resolve_eq_specNamespaceIndex (tree : TokenTree) (components : List ParserComponent) :
    ParseBufferForUsingNamespace.resolve tree components (-1)
      = specNamespaceIndex tree components := by
  rw [resolve_eq_specNamespaceChain]
  unfold specNamespaceIndex
  cases specNamespaceChain tree components (-1) <;> rfl

theorem mem_foldl_insert (f : wxString → Int) (ns : List wxString) (scope : TokenIdxSet)
    (x : Int) :
    x ∈ ns.foldl (fun sc n => TokenIdxSet.insert (f n) sc) scope
      ↔ x ∈ scope ∨ ∃ n ∈ ns, x = f n := by
  induction ns generalizing scope with
  | nil => simp
  | cons n rest ih =>
    rw [List.foldl_cons, ih, TokenIdxSet_mem_insert]
    constructor
    · rintro ((e | e) | ⟨m, hm, e⟩)
      · exact Or.inr ⟨n, List.mem_cons_self _ _, e⟩
      · exact Or.inl e
      · exact Or.inr ⟨m, List.mem_cons_of_mem _ hm, e⟩
    · rintro (e | ⟨m, hm, e⟩)
      · exact Or.inl (Or.inr e)
      · rcases List.mem_cons.mp hm with rfl | hm
        · exact Or.inl (Or.inl e)
        · exact Or.inr ⟨m, hm, e⟩

/-- C27: for every buffer, `ParseBufferForUsingNamespace` returns true, and an index is in the
search-scope set afterwards exactly when it was in the set before or is, for one of the
namespace paths found in the buffer, the index the specification gives for the components of the
path (the end of the chain of `TokenExists` from the global scope when every component resolves,
-1 otherwise); so no element is removed. -/
theorem ParseBufferForUsingNamespace_union (h : Helpers) (s : NativeParser) (buffer : wxString)
    (search_scope : TokenIdxSet) (bufferSkipBlocks : Bool) :
    (ParseBufferForUsingNamespace h s buffer search_scope bufferSkipBlocks).1 = true
    ∧ ∀ x : Int,
        x ∈ (ParseBufferForUsingNamespace h s buffer search_scope bufferSkipBlocks).2
          ↔ x ∈ search_scope
            ∨ ∃ n ∈ h.UsingNamespaces buffer bufferSkipBlocks,
                x = specNamespaceIndex s.parser.tokenTree (h.BreakUpComponents n) := by
  refine ⟨rfl, fun x => ?_⟩
  unfold ParseBufferForUsingNamespace
  dsimp only
  rw [mem_foldl_insert
    (fun n => ParseBufferForUsingNamespace.resolve s.parser.tokenTree (h.BreakUpComponents n) (-1))]
  simp only [resolve_eq_specNamespaceIndex]

/-- C28: the code breaks the claim.  In `exOne` (project mode, project 1 has the parser 10) with
the editor of project 1 focused and a cap of one parser, `CreateParser` for project 2 returns the
new parser 20, which the eviction at its end has destroyed: 20 is in no pair of the list and
`GetParserByProject(2)` is null. -/
theorem CreateParser_returns_destroyed :
    Reachable exOne
    ∧ GetParserInfoByCurrentEditor exOne exIdeEditor1Cap1 = (1, 10)
    ∧ (CreateParser exOne exIdeEditor1Cap1 2 20 Parser.empty).1 = 20
    ∧ (CreateParser exOne exIdeEditor1Cap1 2 20 Parser.empty).2.m_ParserList = [(1, 10)]
    ∧ (CreateParser exOne exIdeEditor1Cap1 2 20 Parser.empty).2.deleted = [20]
    ∧ GetParserByProject (CreateParser exOne exIdeEditor1Cap1 2 20 Parser.empty).2 2 = 0 := by
  refine ⟨?_, by decide, by decide, by decide, by decide, by decide⟩
  exact Reachable.createParser _ _ _ _ _ (Reachable.init 100 false (by decide)) (by decide)

/-! ## Theorems: the condensed buffer of the local block -/

theorem GetTextRangeTagged_erase (c : cbStyledTextCtrl) (a b : Int) :
    (c.GetTextRangeTagged a b).map Prod.fst = c.GetTextRange a b := by
  unfold cbStyledTextCtrl.GetTextRangeTagged cbStyledTextCtrl.GetTextRange
  simp only [List.map_map]
  have : (Prod.fst ∘ fun (p : Nat × Char) => ((p.2, some (p.1 : Int)) : TaggedChar))
      = Prod.snd := rfl
  rw [this, List.enumFrom_map_snd]

theorem padLinesTagged_erase (a b : Int) (tb : List TaggedChar) :
    (ParseLocalBlock.padLinesTagged a b tb).map Prod.fst
      = ParseLocalBlock.padLines a b (tb.map Prod.fst) := by
  unfold ParseLocalBlock.padLinesTagged ParseLocalBlock.padLines
  split_ifs
  · simp
  · rfl

theorem condenseTagged_erase (stc : cbStyledTextCtrl) (blockStart : Int) (fuel : Nat)
    (curPos scanPos : Int) (tb : List TaggedChar) :
    ((ParseLocalBlock.condenseTagged stc blockStart fuel curPos scanPos tb).1,
      (ParseLocalBlock.condenseTagged stc blockStart fuel curPos scanPos tb).2.map Prod.fst)
      = ParseLocalBlock.condense stc blockStart fuel curPos scanPos (tb.map Prod.fst) := by
  induction fuel generalizing curPos scanPos tb with
  | zero => rfl
  | succ fuel ih =>
    rw [ParseLocalBlock.condenseTagged, ParseLocalBlock.condense]
    by_cases h1 : curPos > blockStart
    · rw [if_pos h1, if_pos h1]
      by_cases h2 : stc.GetCharAt curPos ≠ '\x7d'
      · rw [if_pos h2, if_pos h2]
        exact ih _ _ _
      · rw [if_neg h2, if_neg h2]
        dsimp only
        by_cases h3 : (stc.IsString (stc.GetStyleAt curPos)
            || stc.IsCharacter (stc.GetStyleAt curPos)
            || stc.IsComment (stc.GetStyleAt curPos)) = true
        · rw [if_pos h3, if_pos h3]
          exact ih _ _ _
        · rw [if_neg h3, if_neg h3]
          by_cases h4 : stc.BraceMatch curPos < blockStart
          · rw [if_pos h4, if_pos h4]
          · rw [if_neg h4, if_neg h4]
            have hb2 : (ParseLocalBlock.padLinesTagged (stc.LineFromPosition (stc.BraceMatch curPos))
                (stc.LineFromPosition curPos)
                (stc.GetTextRangeTagged curPos scanPos ++ tb)).map Prod.fst
              = ParseLocalBlock.padLines (stc.LineFromPosition (stc.BraceMatch curPos))
                (stc.LineFromPosition curPos) (stc.GetTextRange curPos scanPos ++ tb.map Prod.fst) := by
              rw [padLinesTagged_erase, List.map_append, GetTextRangeTagged_erase]
            by_cases h5 : stc.GetCharAt (ParseLocalBlock.skipBack stc
                (stc.BraceMatch curPos - 1 - blockStart).toNat (stc.BraceMatch curPos - 1)) ≠ ')'
            · rw [if_pos h5, if_pos h5, ← hb2]
              exact ih _ _ _
            · rw [if_neg h5, if_neg h5]
              by_cases h6 : stc.BraceMatch (ParseLocalBlock.skipBack stc
                  (stc.BraceMatch curPos - 1 - blockStart).toNat (stc.BraceMatch curPos - 1))
                  < blockStart
              · rw [if_pos h6, if_pos h6, ← hb2]
                exact ih _ _ _
              · rw [if_neg h6, if_neg h6]
                split_ifs with h7 h8
                · rw [ih]
                  simp only [padLinesTagged_erase, List.map_append, List.map_map,
                    GetTextRangeTagged_erase, List.map_cons, List.map_nil, Function.comp]
                · rw [ih]
                  simp only [padLinesTagged_erase, List.map_append, List.map_map,
                    GetTextRangeTagged_erase, List.map_cons, List.map_nil, Function.comp]
                · rw [← hb2]
                  exact ih _ _ _
    · rw [if_neg h1, if_neg h1]

/-- The tagged buffer without its tags is the condensed buffer of `ParseLocalBlock`. -/
theorem bufferTagged_erase (stc : cbStyledTextCtrl) (blockStart pos blockEnd : Int) :
    (ParseLocalBlock.bufferTagged stc blockStart pos blockEnd).map Prod.fst
      = ParseLocalBlock.buffer stc blockStart pos blockEnd := by
  unfold ParseLocalBlock.bufferTagged ParseLocalBlock.buffer
  dsimp only
  have h := condenseTagged_erase stc blockStart ((pos - blockStart).toNat + 1) pos blockEnd []
  simp only [List.map_nil] at h
  rw [List.map_append, GetTextRangeTagged_erase, ← h]

/-- The proof rule of the loop of `ParseLocalBlock`: a property `P` of `curPos`, `scanPos` and
the buffer that holds at the start, is kept by a pass that skips a character, by the splice of a
block and by the rewrite of a header, holds for the result of the loop. -/
theorem condenseTagged_rule (stc : cbStyledTextCtrl) (blockStart : Int)
    (P : Int → Int → List TaggedChar → Prop)
    (hskip : ∀ curPos scanPos tb, P curPos scanPos tb → curPos > blockStart →
      P (curPos - 1) scanPos tb)
    (hbrace : ∀ curPos scanPos tb scopeStart, P curPos scanPos tb → curPos > blockStart →
      stc.GetCharAt curPos = '\x7d' → scopeStart = stc.BraceMatch curPos →
      blockStart ≤ scopeStart →
      P (scopeStart - 1) (scopeStart + 1)
        (ParseLocalBlock.padLinesTagged (stc.LineFromPosition scopeStart)
          (stc.LineFromPosition curPos) (stc.GetTextRangeTagged curPos scanPos ++ tb)))
    (hheader : ∀ curPos scanPos tb scopeStart q paramStart k, P curPos scanPos tb →
      curPos > blockStart → stc.GetCharAt curPos = '\x7d' → scopeStart = stc.BraceMatch curPos →
      blockStart ≤ scopeStart →
      q = ParseLocalBlock.skipBack stc (scopeStart - 1 - blockStart).toNat (scopeStart - 1) →
      stc.GetCharAt q = ')' → paramStart = stc.BraceMatch q → blockStart ≤ paramStart →
      k = ParseLocalBlock.skipBack stc (paramStart - 1 - blockStart).toNat (paramStart - 1) →
      ParseLocalBlock.isHeaderKeyword
        (stc.GetTextRange (stc.WordStartPosition k) (stc.WordEndPosition k)) →
      P (stc.WordStartPosition k - 1) (stc.WordEndPosition k)
        (ParseLocalBlock.padLinesTagged (stc.LineFromPosition k) (stc.LineFromPosition scopeStart)
          (((if stc.GetTextRange (stc.WordStartPosition k) (stc.WordEndPosition k)
                = ['f', 'o', 'r'] then ['(', ';', ';', ')', '\x7b']
             else ['(', '0', ')', '\x7b']).map (fun ch => ((ch, none) : TaggedChar)))
            ++ ParseLocalBlock.padLinesTagged (stc.LineFromPosition scopeStart)
                (stc.LineFromPosition curPos) (stc.GetTextRangeTagged curPos scanPos ++ tb))))
    (fuel : Nat) (curPos scanPos : Int) (tb : List TaggedChar) (h : P curPos scanPos tb) :
    ∃ curPos1, P curPos1 (ParseLocalBlock.condenseTagged stc blockStart fuel curPos scanPos tb).1
      (ParseLocalBlock.condenseTagged stc blockStart fuel curPos scanPos tb).2 := by
  induction fuel generalizing curPos scanPos tb with
  | zero => exact ⟨curPos, h⟩
  | succ fuel ih =>
    rw [ParseLocalBlock.condenseTagged]
    by_cases h1 : curPos > blockStart
    · rw [if_pos h1]
      by_cases h2 : stc.GetCharAt curPos ≠ '\x7d'
      · rw [if_pos h2]
        exact ih _ _ _ (hskip _ _ _ h h1)
      · rw [if_neg h2]
        have h2' : stc.GetCharAt curPos = '\x7d' := not_not.mp h2
        dsimp only
        by_cases h3 : (stc.IsString (stc.GetStyleAt curPos)
            || stc.IsCharacter (stc.GetStyleAt curPos)
            || stc.IsComment (stc.GetStyleAt curPos)) = true
        · rw [if_pos h3]
          exact ih _ _ _ (hskip _ _ _ h h1)
        · rw [if_neg h3]
          have hb := fun scopeStart => hbrace curPos scanPos tb scopeStart h h1 h2'
          have hh := fun scopeStart => hheader curPos scanPos tb scopeStart
          generalize stc.BraceMatch curPos = scopeStart at hb hh ⊢
          by_cases h4 : scopeStart < blockStart
          · rw [if_pos h4]
            exact ⟨curPos, h⟩
          · rw [if_neg h4]
            have hb1 := hb scopeStart rfl (not_lt.mp h4)
            have hh1 := fun q paramStart k =>
              hh scopeStart q paramStart k h h1 h2' rfl (not_lt.mp h4)
            clear hb hh
            generalize ParseLocalBlock.padLinesTagged (stc.LineFromPosition scopeStart)
              (stc.LineFromPosition curPos) (stc.GetTextRangeTagged curPos scanPos ++ tb)
              = tb2 at hb1 hh1 ⊢
            have hh2 := fun paramStart k => hh1 _ paramStart k rfl
            clear hh1
            generalize ParseLocalBlock.skipBack stc (scopeStart - 1 - blockStart).toNat
              (scopeStart - 1) = q at hh2 ⊢
            by_cases h5 : stc.GetCharAt q ≠ ')'
            · rw [if_pos h5]
              exact ih _ _ _ hb1
            · rw [if_neg h5]
              have hh3 := fun k => hh2 _ k (not_not.mp h5) rfl
              clear hh2
              generalize stc.BraceMatch q = paramStart at hh3 ⊢
              by_cases h6 : paramStart < blockStart
              · rw [if_pos h6]
                exact ih _ _ _ hb1
              · rw [if_neg h6]
                have hh4 := hh3 _ (not_lt.mp h6) rfl
                clear hh3
                generalize ParseLocalBlock.skipBack stc (paramStart - 1 - blockStart).toNat
                  (paramStart - 1) = k at hh4 ⊢
                generalize stc.GetTextRange (stc.WordStartPosition k) (stc.WordEndPosition k)
                  = text at hh4 ⊢
                by_cases h7 : text = ['f', 'o', 'r'] ∨ text = ['i', 'f']
                    ∨ text = ['w', 'h', 'i', 'l', 'e'] ∨ text = ['c', 'a', 't', 'c', 'h']
                · rw [if_pos h7]
                  exact ih _ _ _ (hh4 h7)
                · rw [if_neg h7]
                  exact ih _ _ _ hb1
    · rw [if_neg h1]
      exact ⟨curPos, h⟩

theorem LineFromPosition_eq (c : cbStyledTextCtrl) (p : Int) :
    c.LineFromPosition p = (countLines (c.text.take p.toNat) : Int) := rfl

theorem countLines_append (s t : wxString) : countLines (s ++ t) = countLines s + countLines t := by
  unfold countLines
  exact List.count_append _ _ _

theorem LineFromPosition_add (c : cbStyledTextCtrl) (a n : Nat) :
    c.LineFromPosition ((a + n : Nat) : Int)
      = c.LineFromPosition (a : Int) + (countLines ((c.text.drop a).take n) : Int) := by
  rw [LineFromPosition_eq, LineFromPosition_eq]
  simp only [Int.toNat_ofNat]
  rw [List.take_add, countLines_append]
  push_cast
  rfl

theorem countLines_GetTextRange (c : cbStyledTextCtrl) (a b : Int) (ha : 0 ≤ a) (hab : a ≤ b) :
    (countLines (c.GetTextRange a b) : Int) = c.LineFromPosition b - c.LineFromPosition a := by
  obtain ⟨a', rfl⟩ := Int.eq_ofNat_of_zero_le ha
  obtain ⟨b', rfl⟩ := Int.eq_ofNat_of_zero_le (le_trans ha hab)
  have hab' : a' ≤ b' := by exact_mod_cast hab
  unfold cbStyledTextCtrl.GetTextRange
  simp only [min_eq_left hab, max_eq_right hab, Int.toNat_ofNat]
  have := LineFromPosition_add c a' (b' - a')
  rw [Nat.add_sub_cancel' hab'] at this
  rw [this]
  ring

theorem LineFromPosition_mono (c : cbStyledTextCtrl) (a b : Int) (hab : a ≤ b) :
    c.LineFromPosition a ≤ c.LineFromPosition b := by
  rw [LineFromPosition_eq, LineFromPosition_eq]
  have hs : List.Sublist (c.text.take a.toNat) (c.text.take b.toNat) :=
    List.take_sublist_take_left c.text (Int.toNat_le_toNat hab)
  have := hs.count_le '\n'
  unfold countLines
  exact_mod_cast this

theorem GetCharAt_ofNat (c : cbStyledTextCtrl) (n : Nat) :
    c.GetCharAt (n : Int) = c.text.getD n (Char.ofNat 0) := by
  unfold cbStyledTextCtrl.GetCharAt
  simp

/-- A position whose character is no line feed is on the same line as the position after it. -/
theorem LineFromPosition_succ (c : cbStyledTextCtrl) (p : Int) (hp : 0 ≤ p)
    (hch : c.GetCharAt p ≠ '\n') : c.LineFromPosition (p + 1) = c.LineFromPosition p := by
  obtain ⟨n, rfl⟩ := Int.eq_ofNat_of_zero_le hp
  have h := LineFromPosition_add c n 1
  rw [GetCharAt_ofNat] at hch
  have hz : countLines ((c.text.drop n).take 1) = 0 := by
    unfold countLines
    cases hd : c.text.drop n with
    | nil => simp
    | cons x xs =>
      have hx : c.text.getD n (Char.ofNat 0) = x := by
        have : (c.text.drop n).getD 0 (Char.ofNat 0) = x := by rw [hd]; rfl
        rw [← this]
        simp [List.getD_eq_getElem?_getD, List.getElem?_drop]
      rw [hx] at hch
      simp [List.take, List.count_cons, hch]
  rw [hz] at h
  simpa using h

/-- Positions between which no line feed stands are on the same line. -/
theorem LineFromPosition_const (c : cbStyledTextCtrl) (n : Nat) (a : Int) (ha : 0 ≤ a)
    (hno : ∀ i : Int, a ≤ i → i < a + n → c.GetCharAt i ≠ '\n') :
    c.LineFromPosition (a + n) = c.LineFromPosition a := by
  induction n with
  | zero => simp
  | succ n ih =>
    have h1 := ih (fun i h1 h2 => hno i h1 (by push_cast; omega))
    have h2 := LineFromPosition_succ c (a + n) (by omega) (hno _ (by omega) (by push_cast; omega))
    rw [← h1, ← h2]
    push_cast
    ring_nf

theorem braceMatchBack_spec (c : cbStyledTextCtrl) (chBrace chSeek : Char) (sty : Style)
    (n depth : Nat) :
    c.braceMatchBack chBrace chSeek sty n depth = -1
    ∨ (0 ≤ c.braceMatchBack chBrace chSeek sty n depth
        ∧ c.braceMatchBack chBrace chSeek sty n depth < n
        ∧ c.GetCharAt (c.braceMatchBack chBrace chSeek sty n depth) = chSeek) := by
  induction n generalizing depth with
  | zero => left; rfl
  | succ p ih =>
    have hstep : ∀ d, c.braceMatchBack chBrace chSeek sty p d = -1
        ∨ (0 ≤ c.braceMatchBack chBrace chSeek sty p d
          ∧ c.braceMatchBack chBrace chSeek sty p d < ((p + 1 : Nat) : Int)
          ∧ c.GetCharAt (c.braceMatchBack chBrace chSeek sty p d) = chSeek) := by
      intro d
      rcases ih d with h | ⟨h1, h2, h3⟩
      · exact Or.inl h
      · exact Or.inr ⟨h1, by push_cast; omega, h3⟩
    rw [cbStyledTextCtrl.braceMatchBack]
    split_ifs with h1 h2 h3 h4
    · exact hstep _
    · right
      exact ⟨by omega, by push_cast; omega, h3⟩
    · exact hstep _
    · exact hstep _
    · exact hstep _

/-- The brace that `BraceMatch` finds for a closing brace or parenthesis stands before it and is
the opening one. -/
theorem BraceMatch_closing (c : cbStyledTextCtrl) (p : Int) (chBrace chSeek : Char)
    (hch : c.GetCharAt p = chBrace) (hopp : cbStyledTextCtrl.braceOpposite chBrace = chSeek)
    (hclose : ¬ (chBrace = '(' ∨ chBrace = '[' ∨ chBrace = '\x7b' ∨ chBrace = '<'))
    (hfound : 0 ≤ c.BraceMatch p) :
    c.BraceMatch p < p ∧ c.GetCharAt (c.BraceMatch p) = chSeek := by
  unfold cbStyledTextCtrl.BraceMatch at hfound ⊢
  dsimp only at hfound ⊢
  rw [hch, hopp] at hfound ⊢
  by_cases h1 : chSeek = Char.ofNat 0 ∨ p < 0
  · rw [if_pos h1] at hfound
    omega
  · rw [if_neg h1] at hfound ⊢
    rw [if_neg hclose] at hfound ⊢
    have hp : 0 ≤ p := by
      by_contra hn
      exact h1 (Or.inr (by omega))
    rcases braceMatchBack_spec c chBrace chSeek (c.GetStyleAt p) p.toNat 1 with h | ⟨_, h2, h3⟩
    · rw [h] at hfound
      omega
    · refine ⟨?_, h3⟩
      have : ((p.toNat : Nat) : Int) = p := Int.toNat_of_nonneg hp
      omega

theorem skipBack_le (stc : cbStyledTextCtrl) (n : Nat) (p : Int) :
    ParseLocalBlock.skipBack stc n p ≤ p ∧ p - n ≤ ParseLocalBlock.skipBack stc n p := by
  induction n generalizing p with
  | zero => simp [ParseLocalBlock.skipBack]
  | succ n ih =>
    rw [ParseLocalBlock.skipBack]
    have := ih (p - 1)
    split_ifs
    · constructor <;> (push_cast; omega)
    · constructor <;> (push_cast; omega)
    · constructor <;> (push_cast; omega)

theorem wordStartFrom_le (c : cbStyledTextCtrl) (p : Nat) :
    cbStyledTextCtrl.wordStartFrom c p ≤ p := by
  induction p with
  | zero => simp [cbStyledTextCtrl.wordStartFrom]
  | succ p ih =>
    rw [cbStyledTextCtrl.wordStartFrom]
    split_ifs
    · omega
    · omega

theorem wordEndFrom_spec (c : cbStyledTextCtrl) (fuel p : Nat) :
    p ≤ cbStyledTextCtrl.wordEndFrom c fuel p
    ∧ cbStyledTextCtrl.wordEndFrom c fuel p ≤ p + fuel
    ∧ ∀ i : Nat, p ≤ i → i < cbStyledTextCtrl.wordEndFrom c fuel p →
        cbStyledTextCtrl.isWordChar (c.GetCharAt (i : Int)) = true := by
  induction fuel generalizing p with
  | zero =>
    simp only [cbStyledTextCtrl.wordEndFrom]
    exact ⟨le_refl _, le_refl _, fun i h1 h2 => by omega⟩
  | succ fuel ih =>
    rw [cbStyledTextCtrl.wordEndFrom]
    by_cases h : cbStyledTextCtrl.isWordChar (c.GetCharAt (p : Int)) = true
    · rw [if_pos h]
      obtain ⟨h1, h2, h3⟩ := ih (p + 1)
      refine ⟨by omega, by omega, ?_⟩
      intro i hi1 hi2
      by_cases hip : i = p
      · rw [hip]; exact h
      · exact h3 i (by omega) hi2
    · rw [if_neg h]
      exact ⟨le_refl _, by omega, fun i h1 h2 => by omega⟩

/-- The word end found from a position stops at the latest at a character that is no word
character. -/
theorem wordEndFrom_stop (c : cbStyledTextCtrl) (fuel p m : Nat) (hpm : p ≤ m)
    (hm : cbStyledTextCtrl.isWordChar (c.GetCharAt (m : Int)) = false) :
    cbStyledTextCtrl.wordEndFrom c fuel p ≤ m := by
  induction fuel generalizing p with
  | zero => simpa [cbStyledTextCtrl.wordEndFrom] using hpm
  | succ fuel ih =>
    rw [cbStyledTextCtrl.wordEndFrom]
    by_cases h : cbStyledTextCtrl.isWordChar (c.GetCharAt (p : Int)) = true
    · rw [if_pos h]
      apply ih
      by_contra hn
      have : p = m := by omega
      rw [this, hm] at h
      exact absurd h (by decide)
    · rw [if_neg h]
      exact hpm

theorem isWordChar_newline : cbStyledTextCtrl.isWordChar '\n' = false := by decide

theorem GetTextRangeTagged_nil (c : cbStyledTextCtrl) (a b : Int) (ha : 0 ≤ a) (hab : a ≤ b)
    (h : b ≤ a ∨ c.GetLength ≤ a) : c.GetTextRangeTagged a b = [] := by
  obtain ⟨a', rfl⟩ := Int.eq_ofNat_of_zero_le ha
  obtain ⟨b', rfl⟩ := Int.eq_ofNat_of_zero_le (le_trans ha hab)
  unfold cbStyledTextCtrl.GetTextRangeTagged
  simp only [min_eq_left hab, max_eq_right hab, Int.toNat_ofNat]
  rcases h with h | h
  · have : b' - a' = 0 := by omega
    rw [this]
    simp
  · unfold cbStyledTextCtrl.GetLength at h
    have : c.text.length ≤ a' := by exact_mod_cast h
    rw [List.drop_of_length_le this]
    simp

theorem GetTextRangeTagged_cons (c : cbStyledTextCtrl) (a b : Int) (ha : 0 ≤ a) (hab : a < b)
    (hlen : a < c.GetLength) :
    c.GetTextRangeTagged a b = (c.GetCharAt a, some a) :: c.GetTextRangeTagged (a + 1) b := by
  obtain ⟨a', rfl⟩ := Int.eq_ofNat_of_zero_le ha
  obtain ⟨b', rfl⟩ := Int.eq_ofNat_of_zero_le (le_trans ha (le_of_lt hab))
  have hab' : a' < b' := by exact_mod_cast hab
  unfold cbStyledTextCtrl.GetLength at hlen
  have hlen' : a' < c.text.length := by exact_mod_cast hlen
  rw [GetCharAt_ofNat]
  unfold cbStyledTextCtrl.GetTextRangeTagged
  have h1 : min (a' : Int) b' = a' := min_eq_left (le_of_lt hab)
  have h2 : max (a' : Int) b' = b' := max_eq_right (le_of_lt hab)
  have h3 : min ((a' : Int) + 1) b' = ((a' + 1 : Nat) : Int) := by
    push_cast
    exact min_eq_left (by omega)
  have h4 : max ((a' : Int) + 1) b' = b' := max_eq_right (by omega)
  simp only [h1, h2, h3, h4, Int.toNat_ofNat]
  have hd : c.text.drop a' = c.text.getD a' (Char.ofNat 0) :: c.text.drop (a' + 1) := by
    rw [List.getD_eq_getElem _ _ hlen']
    exact List.drop_eq_getElem_cons hlen'
  have hn : b' - a' = (b' - (a' + 1)) + 1 := by omega
  rw [hd, hn, List.take_succ_cons, List.enumFrom_cons, List.map_cons]

theorem alignedToEnd_synth (stc : cbStyledTextCtrl) (blockStart blockEnd : Int)
    (x : List Char) (tb : List TaggedChar) (h : alignedToEnd stc blockStart blockEnd tb) :
    alignedToEnd stc blockStart blockEnd (x.map (fun ch => ((ch, none) : TaggedChar)) ++ tb) := by
  induction x with
  | nil => exact h
  | cons ch rest ih => exact ⟨trivial, ih⟩

theorem alignedToEnd_pad (stc : cbStyledTextCtrl) (blockStart blockEnd : Int) (a b : Int)
    (tb : List TaggedChar) (h : alignedToEnd stc blockStart blockEnd tb) :
    alignedToEnd stc blockStart blockEnd (ParseLocalBlock.padLinesTagged a b tb) := by
  unfold ParseLocalBlock.padLinesTagged
  split_ifs
  · have := alignedToEnd_synth stc blockStart blockEnd
      (List.replicate (b - a).toNat '\n') tb h
    rw [List.map_replicate] at this
    exact this
  · exact h

theorem countLines_pad (a b : Int) (hab : a ≤ b) (tb : List TaggedChar) :
    (countLines ((ParseLocalBlock.padLinesTagged a b tb).map Prod.fst) : Int)
      = (b - a) + countLines (tb.map Prod.fst) := by
  unfold ParseLocalBlock.padLinesTagged
  split_ifs with h
  · rw [List.map_append, countLines_append, List.map_replicate]
    unfold countLines
    rw [List.count_replicate_self]
    push_cast
    rw [Int.toNat_of_nonneg (by omega)]
  · have : b - a = 0 := by omega
    rw [this]
    simp

theorem countLines_synth (x : List Char) (hx : '\n' ∉ x) (tb : List TaggedChar) :
    countLines ((x.map (fun ch => ((ch, none) : TaggedChar)) ++ tb).map Prod.fst)
      = countLines (tb.map Prod.fst) := by
  rw [List.map_append, countLines_append, List.map_map]
  have : (Prod.fst ∘ fun ch => ((ch, none) : TaggedChar)) = id := rfl
  rw [this, List.map_id]
  unfold countLines
  rw [List.count_eq_zero_of_not_mem hx]
  simp

theorem countLines_tagged (c : cbStyledTextCtrl) (a b : Int) (ha : 0 ≤ a) (hab : a ≤ b)
    (tb : List TaggedChar) :
    (countLines ((c.GetTextRangeTagged a b ++ tb).map Prod.fst) : Int)
      = c.LineFromPosition b - c.LineFromPosition a + countLines (tb.map Prod.fst) := by
  rw [List.map_append, countLines_append, GetTextRangeTagged_erase]
  push_cast
  rw [countLines_GetTextRange c a b ha hab]

/-- A piece of the text put in front of a buffer that is aligned and holds the line feeds of the
text from the end of the piece on gives an aligned buffer. -/
theorem alignedToEnd_range (stc : cbStyledTextCtrl) (blockStart blockEnd : Int) (n : Nat)
    (a b : Int) (hn : b - a = n) (h0 : 0 ≤ a) (hlo : blockStart ≤ a) (hhi : b ≤ blockEnd)
    (tb : List TaggedChar)
    (hcount : (countLines (tb.map Prod.fst) : Int)
      = stc.LineFromPosition blockEnd - stc.LineFromPosition b)
    (h : alignedToEnd stc blockStart blockEnd tb) :
    alignedToEnd stc blockStart blockEnd (stc.GetTextRangeTagged a b ++ tb) := by
  induction n generalizing a with
  | zero =>
    rw [GetTextRangeTagged_nil stc a b h0 (by omega) (Or.inl (by omega))]
    exact h
  | succ n ih =>
    by_cases hlen : a < stc.GetLength
    · rw [GetTextRangeTagged_cons stc a b h0 (by push_cast at hn; omega) hlen]
      refine ⟨⟨hlo, by push_cast at hn; omega, rfl, ?_⟩, ?_⟩
      · show (countLines ((stc.GetTextRangeTagged (a + 1) b ++ tb).map Prod.fst) : Int) = _
        rw [countLines_tagged stc (a + 1) b (by omega) (by push_cast at hn; omega), hcount]
        ring
      · exact ih (a + 1) (by push_cast at hn; omega) (by omega) (by omega)
    · rw [GetTextRangeTagged_nil stc a b h0 (by push_cast at hn; omega) (Or.inr (by omega))]
      exact h

theorem WordPosition_spec (c : cbStyledTextCtrl) (k : Int) (hk0 : 0 ≤ k) (hk : k ≤ c.GetLength) :
    c.WordStartPosition k ≤ k ∧ k ≤ c.WordEndPosition k
    ∧ (∀ i : Int, k ≤ i → i < c.WordEndPosition k →
        cbStyledTextCtrl.isWordChar (c.GetCharAt i) = true)
    ∧ (∀ m : Int, k ≤ m → cbStyledTextCtrl.isWordChar (c.GetCharAt m) = false →
        c.WordEndPosition k ≤ m) := by
  obtain ⟨k', rfl⟩ := Int.eq_ofNat_of_zero_le hk0
  unfold cbStyledTextCtrl.GetLength at hk
  have hk' : k' ≤ c.text.length := by exact_mod_cast hk
  unfold cbStyledTextCtrl.WordStartPosition cbStyledTextCtrl.WordEndPosition
  simp only [Int.toNat_ofNat, min_eq_left hk']
  obtain ⟨h1, _, h3⟩ := wordEndFrom_spec c (c.text.length - k') k'
  refine ⟨by exact_mod_cast wordStartFrom_le c k', by exact_mod_cast h1, ?_, ?_⟩
  · intro i hi1 hi2
    obtain ⟨i', rfl⟩ := Int.eq_ofNat_of_zero_le (le_trans hk0 hi1)
    exact h3 i' (by exact_mod_cast hi1) (by exact_mod_cast hi2)
  · intro m hm1 hm2
    obtain ⟨m', rfl⟩ := Int.eq_ofNat_of_zero_le (le_trans hk0 hm1)
    exact_mod_cast wordEndFrom_stop c (c.text.length - k') k' m' (by exact_mod_cast hm1) hm2

theorem isWordChar_ne_newline (ch : Char) (h : cbStyledTextCtrl.isWordChar ch = true) :
    ch ≠ '\n' := by
  intro e
  rw [e] at h
  exact absurd h (by decide)

/-- The buffer after the splice of the block that is closed at `curPos` and opened at
`scopeStart`: it is aligned and holds the line feeds of the text from `scopeStart` on. -/
theorem splice_aligned (stc : cbStyledTextCtrl) (blockStart blockEnd curPos scanPos : Int)
    (tb : List TaggedChar) (h0 : 0 ≤ blockStart) (hcur : curPos > blockStart)
    (hcs : curPos ≤ scanPos) (hse : scanPos ≤ blockEnd)
    (hcount : (countLines (tb.map Prod.fst) : Int)
      = stc.LineFromPosition blockEnd - stc.LineFromPosition scanPos)
    (hal : alignedToEnd stc blockStart blockEnd tb)
    (hch : stc.GetCharAt curPos = '\x7d') (hss : blockStart ≤ stc.BraceMatch curPos) :
    stc.BraceMatch curPos < curPos
    ∧ stc.GetCharAt (stc.BraceMatch curPos) = '\x7b'
    ∧ (countLines ((ParseLocalBlock.padLinesTagged (stc.LineFromPosition (stc.BraceMatch curPos))
          (stc.LineFromPosition curPos) (stc.GetTextRangeTagged curPos scanPos ++ tb)).map
            Prod.fst) : Int)
        = stc.LineFromPosition blockEnd - stc.LineFromPosition (stc.BraceMatch curPos)
    ∧ alignedToEnd stc blockStart blockEnd
        (ParseLocalBlock.padLinesTagged (stc.LineFromPosition (stc.BraceMatch curPos))
          (stc.LineFromPosition curPos) (stc.GetTextRangeTagged curPos scanPos ++ tb)) := by
  obtain ⟨hlt, hopen⟩ := BraceMatch_closing stc curPos '\x7d' '\x7b' hch (by decide) (by decide)
    (by omega)
  refine ⟨hlt, hopen, ?_, ?_⟩
  · rw [countLines_pad _ _ (LineFromPosition_mono stc _ _ (le_of_lt hlt)),
      countLines_tagged stc curPos scanPos (by omega) hcs, hcount]
    ring
  · apply alignedToEnd_pad
    exact alignedToEnd_range stc blockStart blockEnd (scanPos - curPos).toNat curPos scanPos
      (by rw [Int.toNat_of_nonneg (by omega)]) (by omega) (by omega) hse tb hcount hal

/-- The tagged buffer of `ParseLocalBlock` holds the line feeds of the text from `blockStart` to
`blockEnd` and is aligned with the text, when the body starts inside the text, the caret is not
behind `blockEnd`, and the word at the character before the body is none of the header
keywords. -/
theorem bufferTagged_aligned (stc : cbStyledTextCtrl) (blockStart pos blockEnd : Int)
    (h0 : 0 ≤ blockStart) (h1 : blockStart ≤ blockEnd) (h2 : blockEnd ≤ stc.GetLength)
    (h3 : pos ≤ blockEnd)
    (hkw : ¬ ParseLocalBlock.isHeaderKeyword
      (stc.GetTextRange (stc.WordStartPosition (blockStart - 1))
        (stc.WordEndPosition (blockStart - 1)))) :
    (countLines ((ParseLocalBlock.bufferTagged stc blockStart pos blockEnd).map Prod.fst) : Int)
      = stc.LineFromPosition blockEnd - stc.LineFromPosition blockStart
    ∧ alignedToEnd stc blockStart blockEnd
        (ParseLocalBlock.bufferTagged stc blockStart pos blockEnd) := by
  have hloop := condenseTagged_rule stc blockStart
    (fun curPos scanPos tb => curPos ≤ scanPos ∧ blockStart ≤ scanPos ∧ scanPos ≤ blockEnd
      ∧ (countLines (tb.map Prod.fst) : Int)
          = stc.LineFromPosition blockEnd - stc.LineFromPosition scanPos
      ∧ alignedToEnd stc blockStart blockEnd tb)
    (by
      rintro curPos scanPos tb ⟨p1, p2, p3, p4, p5⟩ _
      exact ⟨by omega, p2, p3, p4, p5⟩)
    (by
      rintro curPos scanPos tb scopeStart ⟨p1, p2, p3, p4, p5⟩ hcur hch hss hge
      subst hss
      obtain ⟨hlt, hopen, hc, ha⟩ := splice_aligned stc blockStart blockEnd curPos scanPos tb h0
        hcur p1 p3 p4 p5 hch hge
      refine ⟨by omega, by omega, by omega, ?_, ha⟩
      rw [hc, LineFromPosition_succ stc _ (by omega) (by rw [hopen]; decide)])
    (by
      rintro curPos scanPos tb scopeStart q paramStart k ⟨p1, p2, p3, p4, p5⟩ hcur hch hss hge
        hq hqch hps hpge hk htext
      subst hss
      obtain ⟨hlt, hopen, hc, ha⟩ := splice_aligned stc blockStart blockEnd curPos scanPos tb h0
        hcur p1 p3 p4 p5 hch hge
      have hq1 := (skipBack_le stc (stc.BraceMatch curPos - 1 - blockStart).toNat
        (stc.BraceMatch curPos - 1)).1
      rw [← hq] at hq1
      obtain ⟨hplt, hpopen⟩ := BraceMatch_closing stc q ')' '(' hqch (by decide) (by decide)
        (by rw [← hps]; omega)
      rw [← hps] at hplt hpopen
      have hk1 := skipBack_le stc (paramStart - 1 - blockStart).toNat (paramStart - 1)
      rw [← hk] at hk1
      have hkge : blockStart ≤ k := by
        by_contra hn
        have hpe : paramStart = blockStart := by
          have := hk1.2
          by_contra hne
          have hn2 : ((paramStart - 1 - blockStart).toNat : Int) = paramStart - 1 - blockStart :=
            Int.toNat_of_nonneg (by omega)
          omega
        have hke : k = blockStart - 1 := by
          have := hk1.1
          omega
        rw [hke] at htext
        exact hkw htext
      obtain ⟨w1, w2, w3, w4⟩ := WordPosition_spec stc k (by omega) (by omega)
      have hwe : stc.WordEndPosition k ≤ paramStart :=
        w4 paramStart (by omega) (by rw [hpopen]; decide)
      have hline : stc.LineFromPosition (stc.WordEndPosition k) = stc.LineFromPosition k := by
        have := LineFromPosition_const stc (stc.WordEndPosition k - k).toNat k (by omega)
          (by
            intro i hi1 hi2
            rw [Int.toNat_of_nonneg (by omega)] at hi2
            exact isWordChar_ne_newline _ (w3 i hi1 (by omega)))
        rw [Int.toNat_of_nonneg (by omega)] at this
        rw [← this]
        congr 1
        ring
      refine ⟨by omega, by omega, by omega, ?_, ?_⟩
      · rw [countLines_pad _ _ (LineFromPosition_mono stc _ _ (by omega)), countLines_synth, hc,
          hline]
        · ring
        · split_ifs <;> decide
      · apply alignedToEnd_pad
        apply alignedToEnd_synth
        exact ha)
    ((pos - blockStart).toNat + 1) pos blockEnd []
    ⟨h3, h1, le_refl _, by simp [countLines], trivial⟩
  obtain ⟨_, p1, p2, p3, p4, p5⟩ := hloop
  unfold ParseLocalBlock.bufferTagged
  dsimp only
  generalize ParseLocalBlock.condenseTagged stc blockStart ((pos - blockStart).toNat + 1) pos
    blockEnd [] = r at p2 p3 p4 p5 ⊢
  constructor
  · rw [countLines_tagged stc blockStart r.1 h0 p2, p4]
    ring
  · exact alignedToEnd_range stc blockStart blockEnd (r.1 - blockStart).toNat blockStart r.1
      (by rw [Int.toNat_of_nonneg (by omega)]) h0 (le_refl _) p3 r.2 p4 p5

theorem alignedToEnd_split (stc : cbStyledTextCtrl) (blockStart blockEnd : Int)
    (pre : List TaggedChar) (ch : Char) (o : Int) (post : List TaggedChar)
    (h : alignedToEnd stc blockStart blockEnd (pre ++ (ch, some o) :: post)) :
    blockStart ≤ o ∧ o < blockEnd ∧ ch = stc.GetCharAt o
    ∧ (countLines (post.map Prod.fst) : Int)
        = stc.LineFromPosition blockEnd - stc.LineFromPosition (o + 1) := by
  induction pre with
  | nil => exact h.1
  | cons x pre ih => exact ih h.2

theorem GetTextRange_single (c : cbStyledTextCtrl) (o : Int) (h0 : 0 ≤ o) (hlen : o < c.GetLength) :
    c.GetTextRange o (o + 1) = [c.GetCharAt o] := by
  rw [← GetTextRangeTagged_erase, GetTextRangeTagged_cons c o (o + 1) h0 (by omega) hlen,
    GetTextRangeTagged_nil c (o + 1) (o + 1) (by omega) (le_refl _) (Or.inl (le_refl _))]
  rfl

theorem GetTextRange_append (c : cbStyledTextCtrl) (a b d : Int) (h0 : 0 ≤ a) (hab : a ≤ b)
    (hbd : b ≤ d) : c.GetTextRange a b ++ c.GetTextRange b d = c.GetTextRange a d := by
  obtain ⟨a', rfl⟩ := Int.eq_ofNat_of_zero_le h0
  obtain ⟨b', rfl⟩ := Int.eq_ofNat_of_zero_le (le_trans h0 hab)
  obtain ⟨d', rfl⟩ := Int.eq_ofNat_of_zero_le (le_trans (le_trans h0 hab) hbd)
  have hab' : a' ≤ b' := by exact_mod_cast hab
  have hbd' : b' ≤ d' := by exact_mod_cast hbd
  unfold cbStyledTextCtrl.GetTextRange
  simp only [min_eq_left hab, max_eq_right hab, min_eq_left hbd, max_eq_right hbd,
    min_eq_left (le_trans hab hbd), max_eq_right (le_trans hab hbd), Int.toNat_ofNat]
  have e1 : d' - a' = (b' - a') + (d' - b') := by omega
  have e2 : c.text.drop b' = (c.text.drop a').drop (b' - a') := by
    rw [List.drop_drop]
    congr 1
    omega
  rw [e1, List.take_add, e2]

/-- C29: the condensed buffer of `ParseLocalBlock` (before the final `Trim()`) keeps the line
numbers.  For a body that starts inside the text at `blockStart`, with `blockEnd` the end of the
line of the caret (not before the caret), and the word at the character before the body none of
`for`, `if`, `while`, `catch`: the buffer holds as many line feeds as the text from `blockStart`
to `blockEnd`, and every character that was copied from an offset `o` of the text is the
character of the text at `o` and is preceded by as many line feeds in the buffer as stand in the
text between `blockStart` and `o`.  The tagged buffer is the buffer with the offsets kept. -/
theorem ParseLocalBlock_buffer_keeps_lines (stc : cbStyledTextCtrl) (blockStart pos blockEnd : Int)
    (h0 : 0 ≤ blockStart) (h1 : blockStart ≤ blockEnd) (h2 : blockEnd ≤ stc.GetLength)
    (h3 : pos ≤ blockEnd)
    (hkw : ¬ ParseLocalBlock.isHeaderKeyword
      (stc.GetTextRange (stc.WordStartPosition (blockStart - 1))
        (stc.WordEndPosition (blockStart - 1)))) :
    (ParseLocalBlock.bufferTagged stc blockStart pos blockEnd).map Prod.fst
      = ParseLocalBlock.buffer stc blockStart pos blockEnd
    ∧ countLines (ParseLocalBlock.buffer stc blockStart pos blockEnd)
        = countLines (stc.GetTextRange blockStart blockEnd)
    ∧ ∀ (pre : List TaggedChar) (ch : Char) (o : Int) (post : List TaggedChar),
        ParseLocalBlock.bufferTagged stc blockStart pos blockEnd = pre ++ (ch, some o) :: post →
        ch = stc.GetCharAt o
        ∧ countLines (pre.map Prod.fst) = countLines (stc.GetTextRange blockStart o) := by
  obtain ⟨hc, ha⟩ := bufferTagged_aligned stc blockStart pos blockEnd h0 h1 h2 h3 hkw
  refine ⟨bufferTagged_erase stc blockStart pos blockEnd, ?_, ?_⟩
  · rw [← bufferTagged_erase]
    have := countLines_GetTextRange stc blockStart blockEnd h0 h1
    rw [← hc] at this
    exact_mod_cast this.symm
  · intro pre ch o post hsplit
    rw [hsplit] at hc ha
    obtain ⟨s1, s2, s3, s4⟩ := alignedToEnd_split stc blockStart blockEnd pre ch o post ha
    refine ⟨s3, ?_⟩
    have hsingle := GetTextRange_single stc o (by omega) (by omega)
    have hl1 := countLines_GetTextRange stc o (o + 1) (by omega) (by omega)
    rw [hsingle, ← s3] at hl1
    have hl2 := countLines_GetTextRange stc blockStart o h0 s1
    rw [List.map_append, List.map_cons, countLines_append] at hc
    have hcons : countLines (ch :: post.map Prod.fst)
        = countLines [ch] + countLines (post.map Prod.fst) := countLines_append [ch] _
    rw [hcons] at hc
    push_cast at hc
    have : (countLines (pre.map Prod.fst) : Int) = countLines (stc.GetTextRange blockStart o) := by
      rw [hl2]
      omega
    exact_mod_cast this

theorem padLinesTagged_suffix (a b : Int) (t : wxString) (tb : List TaggedChar)
    (h : t <:+ tb.map Prod.fst) : t <:+ (ParseLocalBlock.padLinesTagged a b tb).map Prod.fst := by
  unfold ParseLocalBlock.padLinesTagged
  split_ifs
  · rw [List.map_append]
    exact List.IsSuffix.trans h (List.suffix_append _ _)
  · exact h

/-- The text from the caret to `blockEnd` is the end of the buffer after the splice of a block
that is closed at or before the caret. -/
theorem splice_suffix (stc : cbStyledTextCtrl) (pos blockEnd curPos scanPos a b : Int)
    (tb : List TaggedChar) (hcur : 0 ≤ curPos) (hpe : pos ≤ blockEnd)
    (h : (tb = [] ∧ scanPos = blockEnd ∧ curPos ≤ pos)
      ∨ stc.GetTextRange pos blockEnd <:+ tb.map Prod.fst) :
    stc.GetTextRange pos blockEnd
      <:+ (ParseLocalBlock.padLinesTagged a b (stc.GetTextRangeTagged curPos scanPos ++ tb)).map
            Prod.fst := by
  apply padLinesTagged_suffix
  rw [List.map_append, GetTextRangeTagged_erase]
  rcases h with ⟨e1, e2, e3⟩ | h
  · rw [e1, e2, List.map_nil, List.append_nil, ← GetTextRange_append stc curPos pos blockEnd hcur e3 hpe]
    exact List.suffix_append _ _
  · exact List.IsSuffix.trans h (List.suffix_append _ _)

/-- The text from the caret to the end of its line is the end of the condensed buffer. -/
theorem buffer_suffix (stc : cbStyledTextCtrl) (blockStart pos blockEnd : Int)
    (h0 : 0 ≤ blockStart) (hpos : blockStart ≤ pos) (h3 : pos ≤ blockEnd) :
    stc.GetTextRange pos blockEnd <:+ ParseLocalBlock.buffer stc blockStart pos blockEnd := by
  have hloop := condenseTagged_rule stc blockStart
    (fun curPos scanPos tb => (tb = [] ∧ scanPos = blockEnd ∧ curPos ≤ pos)
      ∨ stc.GetTextRange pos blockEnd <:+ tb.map Prod.fst)
    (by
      rintro curPos scanPos tb (⟨e1, e2, e3⟩ | h) _
      · exact Or.inl ⟨e1, e2, by omega⟩
      · exact Or.inr h)
    (by
      rintro curPos scanPos tb scopeStart h hcur _ _ _
      exact Or.inr (splice_suffix stc pos blockEnd curPos scanPos _ _ tb (by omega) h3 h))
    (by
      rintro curPos scanPos tb scopeStart q paramStart k h hcur _ _ _ _ _ _ _ _ _
      right
      apply padLinesTagged_suffix
      rw [List.map_append]
      exact List.IsSuffix.trans
        (splice_suffix stc pos blockEnd curPos scanPos _ _ tb (by omega) h3 h)
        (List.suffix_append _ _))
    ((pos - blockStart).toNat + 1) pos blockEnd [] (Or.inl ⟨rfl, rfl, le_refl _⟩)
  obtain ⟨_, h⟩ := hloop
  rw [← bufferTagged_erase]
  unfold ParseLocalBlock.bufferTagged
  dsimp only
  rw [List.map_append, GetTextRangeTagged_erase]
  rcases h with ⟨e1, e2, _⟩ | h
  · rw [e1, e2, List.map_nil, List.append_nil,
      ← GetTextRange_append stc blockStart pos blockEnd h0 hpos h3]
    exact List.suffix_append _ _
  · exact List.IsSuffix.trans h (List.suffix_append _ _)

/-- C24 (amended): the condensed buffer of `ParseLocalBlock` (before the final `Trim()`) covers
the text from the body start to the end of the line of the caret, not to the caret.  For a caret
in the body (`blockStart ≤ pos`), with `blockEnd` the end of the line of the caret: every
character of the buffer that was copied from the text comes from an offset from `blockStart` up
to, not including, `blockEnd`, and the buffer ends with the text from the caret to `blockEnd`. -/
theorem ParseLocalBlock_buffer_covers_line (stc : cbStyledTextCtrl)
    (blockStart pos blockEnd : Int) (h0 : 0 ≤ blockStart) (hpos : blockStart ≤ pos)
    (h2 : blockEnd ≤ stc.GetLength) (h3 : pos ≤ blockEnd)
    (hkw : ¬ ParseLocalBlock.isHeaderKeyword
      (stc.GetTextRange (stc.WordStartPosition (blockStart - 1))
        (stc.WordEndPosition (blockStart - 1)))) :
    (∀ (pre : List TaggedChar) (ch : Char) (o : Int) (post : List TaggedChar),
        ParseLocalBlock.bufferTagged stc blockStart pos blockEnd = pre ++ (ch, some o) :: post →
        blockStart ≤ o ∧ o < blockEnd ∧ ch = stc.GetCharAt o)
    ∧ (ParseLocalBlock.bufferTagged stc blockStart pos blockEnd).map Prod.fst
        = ParseLocalBlock.buffer stc blockStart pos blockEnd
    ∧ stc.GetTextRange pos blockEnd <:+ ParseLocalBlock.buffer stc blockStart pos blockEnd := by
  refine ⟨?_, bufferTagged_erase stc blockStart pos blockEnd,
    buffer_suffix stc blockStart pos blockEnd h0 hpos h3⟩
  intro pre ch o post hsplit
  have ha := (bufferTagged_aligned stc blockStart pos blockEnd h0 (by omega) h2 h3 hkw).2
  rw [hsplit] at ha
  obtain ⟨s1, s2, s3, _⟩ := alignedToEnd_split stc blockStart blockEnd pre ch o post ha
  exact ⟨s1, s2, s3⟩

theorem condense_skip_one (stc : cbStyledTextCtrl) (blockStart : Int) (fuel : Nat)
    (curPos scanPos : Int) (buffer : wxString) (hcur : curPos > blockStart)
    (hno : ParseLocalBlock.closesBlock stc curPos = false) :
    ParseLocalBlock.condense stc blockStart (fuel + 1) curPos scanPos buffer
      = ParseLocalBlock.condense stc blockStart fuel (curPos - 1) scanPos buffer := by
  rw [ParseLocalBlock.condense, if_pos hcur]
  by_cases h2 : stc.GetCharAt curPos ≠ '\x7d'
  · rw [if_pos h2]
  · rw [if_neg h2]
    have h2' : stc.GetCharAt curPos = '\x7d' := not_not.mp h2
    unfold ParseLocalBlock.closesBlock at hno
    simp only [h2', decide_True, Bool.true_and, Bool.not_eq_false'] at hno
    dsimp only
    rw [if_pos hno]

/-- The loop of `ParseLocalBlock` changes nothing when no block is closed between `blockStart`
and `curPos`. -/
theorem condense_none (stc : cbStyledTextCtrl) (blockStart : Int) (fuel : Nat)
    (curPos scanPos : Int) (buffer : wxString)
    (hno : ∀ p : Int, blockStart < p → p ≤ curPos → ParseLocalBlock.closesBlock stc p = false) :
    ParseLocalBlock.condense stc blockStart fuel curPos scanPos buffer = (scanPos, buffer) := by
  induction fuel generalizing curPos with
  | zero => rfl
  | succ fuel ih =>
    by_cases hcur : curPos > blockStart
    · rw [condense_skip_one stc blockStart fuel curPos scanPos buffer hcur
        (hno curPos hcur (le_refl _))]
      exact ih (curPos - 1) (fun p h1 h2 => hno p h1 (by omega))
    · rw [ParseLocalBlock.condense, if_neg hcur]

theorem condense_skip (stc : cbStyledTextCtrl) (blockStart : Int) (n fuel : Nat)
    (curPos scanPos : Int) (buffer : wxString) (hbs : blockStart ≤ curPos - n)
    (hno : ∀ p : Int, curPos - n < p → p ≤ curPos → ParseLocalBlock.closesBlock stc p = false) :
    ParseLocalBlock.condense stc blockStart (fuel + n) curPos scanPos buffer
      = ParseLocalBlock.condense stc blockStart fuel (curPos - n) scanPos buffer := by
  induction n generalizing curPos with
  | zero => simp
  | succ n ih =>
    have hcur : curPos > blockStart := by push_cast at hbs; omega
    rw [← Nat.add_assoc, condense_skip_one stc blockStart (fuel + n) curPos scanPos buffer hcur
      (hno curPos (by push_cast; omega) (le_refl _))]
    rw [ih (curPos - 1) (by push_cast at hbs ⊢; omega)
      (fun p h1 h2 => hno p (by push_cast at h1 ⊢; omega) (by omega))]
    congr 1
    push_cast
    ring

/-- One pass of the loop of `ParseLocalBlock` at a closing brace whose block starts in the body:
the block is spliced out, and the header before it is rewritten when its word is a header
keyword. -/
theorem condense_splice (stc : cbStyledTextCtrl) (blockStart : Int) (fuel : Nat)
    (c scanPos : Int) (buffer : wxString) (ss q ps k : Int) (hcur : c > blockStart)
    (hc : ParseLocalBlock.closesBlock stc c = true) (hss : ss = stc.BraceMatch c)
    (hge : blockStart ≤ ss)
    (hq : q = ParseLocalBlock.skipBack stc (ss - 1 - blockStart).toNat (ss - 1))
    (hps : ps = stc.BraceMatch q)
    (hk : k = ParseLocalBlock.skipBack stc (ps - 1 - blockStart).toNat (ps - 1)) :
    ParseLocalBlock.condense stc blockStart (fuel + 1) c scanPos buffer
      = (if stc.GetCharAt q = ')' ∧ blockStart ≤ ps
            ∧ ParseLocalBlock.isHeaderKeyword
                (stc.GetTextRange (stc.WordStartPosition k) (stc.WordEndPosition k)) then
          ParseLocalBlock.condense stc blockStart fuel (stc.WordStartPosition k - 1)
            (stc.WordEndPosition k)
            (ParseLocalBlock.padLines (stc.LineFromPosition k) (stc.LineFromPosition ss)
              ((if stc.GetTextRange (stc.WordStartPosition k) (stc.WordEndPosition k)
                    = ['f', 'o', 'r'] then ['(', ';', ';', ')', '\x7b']
                else ['(', '0', ')', '\x7b'])
                ++ ParseLocalBlock.padLines (stc.LineFromPosition ss) (stc.LineFromPosition c)
                    (stc.GetTextRange c scanPos ++ buffer)))
         else
          ParseLocalBlock.condense stc blockStart fuel (ss - 1) (ss + 1)
            (ParseLocalBlock.padLines (stc.LineFromPosition ss) (stc.LineFromPosition c)
              (stc.GetTextRange c scanPos ++ buffer))) := by
  unfold ParseLocalBlock.closesBlock at hc
  simp only [Bool.and_eq_true, decide_eq_true_eq, Bool.not_eq_true'] at hc
  obtain ⟨hch, hsty⟩ := hc
  rw [ParseLocalBlock.condense, if_pos hcur, if_neg (not_not.mpr hch)]
  dsimp only
  rw [hsty]
  simp only [Bool.false_eq_true, if_false]
  rw [← hss, if_neg (not_lt.mpr hge), ← hq]
  by_cases h5 : stc.GetCharAt q = ')'
  · rw [if_neg (not_not.mpr h5), ← hps]
    by_cases h6 : blockStart ≤ ps
    · rw [if_neg (not_lt.mpr h6), ← hk]
      unfold ParseLocalBlock.isHeaderKeyword
      by_cases h7 : stc.GetTextRange (stc.WordStartPosition k) (stc.WordEndPosition k)
            = ['f', 'o', 'r']
          ∨ stc.GetTextRange (stc.WordStartPosition k) (stc.WordEndPosition k) = ['i', 'f']
          ∨ stc.GetTextRange (stc.WordStartPosition k) (stc.WordEndPosition k)
              = ['w', 'h', 'i', 'l', 'e']
          ∨ stc.GetTextRange (stc.WordStartPosition k) (stc.WordEndPosition k)
              = ['c', 'a', 't', 'c', 'h']
      · rw [if_pos h7, if_pos (And.intro h5 (And.intro h6 h7))]
      · rw [if_neg h7, if_neg (fun h : _ ∧ _ ∧ _ => h7 h.2.2)]
    · rw [if_pos (not_le.mp h6), if_neg (fun h : _ ∧ _ ∧ _ => h6 h.2.1)]
  · rw [if_pos h5, if_neg (fun h : _ ∧ _ => h5 h.1)]

/-- C23: the code breaks the claim.  In `void f(int x){ { int y = 1; } }` with the caret at offset
28, inside the inner block and immediately before its closing brace (the character at offset 28,
whose opening brace is at offset 15), `ParseLocalBlock` splices the inner block out: the text
between its braces is ` int y = 1; `, and the buffer that is parsed is ` {} }`. -/
theorem ParseLocalBlock_splices_enclosing_block :
    exSearchF.control.GetCharAt 28 = '\x7d'
    ∧ exSearchF.control.BraceMatch 28 = 15
    ∧ exSearchF.control.GetTextRange 16 28 = " int y = 1; ".toList
    ∧ (FindCurrentFunctionStart specHelpers exStateF exSearchF none none none 28).1 = 13
    ∧ ParseLocalBlock.buffer exSearchF.control 14 28 31 = " \x7b\x7d \x7d".toList
    ∧ (ParseLocalBlock specHelpers exStateF exSearchF [] 28).2.2.parses.map (fun bp => bp.buffer)
        = [" \x7b\x7d \x7d".toList] := by
  refine ⟨by decide, by decide, by decide, by decide, by decide, by decide⟩

/-- C24: the claim as written is false.  In `void f(int x){ int y; int z; }` with the caret at
offset 21, after `int y;`, the buffer that `ParseLocalBlock` parses is ` int y; int z; }` (the
trimmed text from the body start to the end of the line): it holds the `z` of offset 26, a
character of the text after the caret. -/
theorem ParseLocalBlock_buffer_passes_caret :
    exSearchDecls.control.GetLineEndPosition (exSearchDecls.control.LineFromPosition 21) = 30
    ∧ exSearchDecls.control.GetTextRange 21 30 = " int z; \x7d".toList
    ∧ ParseLocalBlock.buffer exSearchDecls.control 14 21 30 = " int y; int z; \x7d".toList
    ∧ ('z', some (26 : Int)) ∈ ParseLocalBlock.bufferTagged exSearchDecls.control 14 21 30
    ∧ (ParseLocalBlock specHelpers exStateF exSearchDecls [] 21).2.2.parses.map
        (fun bp => bp.buffer) = [" int y; int z; \x7d".toList] := by
  refine ⟨by decide, by decide, by decide, by decide, by decide⟩

/-- Witness of `ParseLocalBlock_buffer_covers_line`: in `exSearchDecls` with the caret at offset
21 the buffer ends with the text ` int z; }` from the caret to the end of the line. -/
theorem ParseLocalBlock_buffer_covers_line_witness :
    exSearchDecls.control.GetTextRange 21 30
      <:+ ParseLocalBlock.buffer exSearchDecls.control 14 21 30 :=
  (ParseLocalBlock_buffer_covers_line exSearchDecls.control 14 21 30 (by decide) (by decide)
    (by decide) (by decide) (by decide)).2.2

set_option maxRecDepth 100000 in
/-- Witness of `ParseLocalBlock_buffer_keeps_lines`: in `exSearchLoops` with the caret at the end
of the line of `int z;` the blocks of the `for`, the `while` and the `switch` are spliced out,
and the buffer has the nine line feeds of the text from the body start to the end of that
line. -/
theorem ParseLocalBlock_buffer_keeps_lines_witness :
    countLines (ParseLocalBlock.buffer exSearchLoops.control 15 121 121)
      = countLines (exSearchLoops.control.GetTextRange 15 121)
    ∧ ParseLocalBlock.buffer exSearchLoops.control 15 121 121
      = ("\n  for\n(;;)\x7b\n\n\x7d\n  while\n(0)\x7b\n\x7d\n  switch (x) \x7b\x7d\n  int z;").toList
    ∧ countLines (exSearchLoops.control.GetTextRange 15 121) = 9 :=
  ⟨(ParseLocalBlock_buffer_keeps_lines exSearchLoops.control 15 121 121 (by decide) (by decide)
      (by decide) (by decide) (by decide)).2.1, by decide, by decide⟩

/-- The condensed buffer when exactly one block is closed between the body start and the caret:
`c` is the offset of its closing brace, `ss` of its opening brace, `q` the character before the
block, `ps` the match of `q` and `k` the character before `ps` (white space and comments
skipped). -/
theorem buffer_one_block (stc : cbStyledTextCtrl) (blockStart pos blockEnd c ss q ps k : Int)
    (hbs : blockStart < c) (hcp : c ≤ pos)
    (hfirst : ∀ p : Int, c < p → p ≤ pos → ParseLocalBlock.closesBlock stc p = false)
    (hc : ParseLocalBlock.closesBlock stc c = true) (hss : ss = stc.BraceMatch c)
    (hge : blockStart ≤ ss)
    (hq : q = ParseLocalBlock.skipBack stc (ss - 1 - blockStart).toNat (ss - 1))
    (hps : ps = stc.BraceMatch q)
    (hk : k = ParseLocalBlock.skipBack stc (ps - 1 - blockStart).toNat (ps - 1)) :
    ParseLocalBlock.buffer stc blockStart pos blockEnd
      = (let r :=
          (if stc.GetCharAt q = ')' ∧ blockStart ≤ ps
              ∧ ParseLocalBlock.isHeaderKeyword
                  (stc.GetTextRange (stc.WordStartPosition k) (stc.WordEndPosition k)) then
            ParseLocalBlock.condense stc blockStart (c - blockStart).toNat
              (stc.WordStartPosition k - 1) (stc.WordEndPosition k)
              (ParseLocalBlock.padLines (stc.LineFromPosition k) (stc.LineFromPosition ss)
                ((if stc.GetTextRange (stc.WordStartPosition k) (stc.WordEndPosition k)
                      = ['f', 'o', 'r'] then ['(', ';', ';', ')', '\x7b']
                  else ['(', '0', ')', '\x7b'])
                  ++ ParseLocalBlock.padLines (stc.LineFromPosition ss) (stc.LineFromPosition c)
                      (stc.GetTextRange c blockEnd)))
           else
            ParseLocalBlock.condense stc blockStart (c - blockStart).toNat (ss - 1) (ss + 1)
              (ParseLocalBlock.padLines (stc.LineFromPosition ss) (stc.LineFromPosition c)
                (stc.GetTextRange c blockEnd)))
         stc.GetTextRange blockStart r.1 ++ r.2) := by
  unfold ParseLocalBlock.buffer
  have hfuel : (pos - blockStart).toNat + 1 = ((c - blockStart).toNat + 1) + (pos - c).toNat := by
    omega
  have hpc : pos - ((pos - c).toNat : Int) = c := by
    rw [Int.toNat_of_nonneg (by omega)]
    ring
  rw [hfuel, condense_skip stc blockStart (pos - c).toNat ((c - blockStart).toNat + 1) pos
    blockEnd [] (by rw [hpc]; omega) (fun p h1 h2 => hfirst p (by rw [hpc] at h1; exact h1) h2),
    hpc, condense_splice stc blockStart (c - blockStart).toNat c blockEnd [] ss q ps k hbs hc hss
      hge hq hps hk, List.append_nil]

/-- The header rewrite of `ParseLocalBlock` for a caret at `pos` with exactly one closed block
before it.  With `c` the offset of the closing brace of that block, `ss` of its opening brace,
`q` the character before the block and `k` the character before the match `ps` of `q` (white
space and comments skipped), and the word at `k` the text from `ws` to `we`: when `q` is a
closing parenthesis whose match is in the body and the word is `for`, the buffer is the text up
to the end of the word, then `(;;)` and the opening brace, then the text from the closing brace
on (padded with line feeds); when the word is `if`, `while` or `catch`, the same with `(0)`; in
every other case the buffer is the text up to and including the opening brace, then the text
from the closing brace on. -/
theorem ParseLocalBlock_buffer_header (stc : cbStyledTextCtrl)
    (blockStart pos blockEnd c ss q ps k ws we : Int)
    (hbs : blockStart < c) (hcp : c ≤ pos)
    (hfirst : ∀ p : Int, c < p → p ≤ pos → ParseLocalBlock.closesBlock stc p = false)
    (hc : ParseLocalBlock.closesBlock stc c = true) (hss : ss = stc.BraceMatch c)
    (hge : blockStart ≤ ss)
    (hq : q = ParseLocalBlock.skipBack stc (ss - 1 - blockStart).toNat (ss - 1))
    (hps : ps = stc.BraceMatch q)
    (hk : k = ParseLocalBlock.skipBack stc (ps - 1 - blockStart).toNat (ps - 1))
    (hws : ws = stc.WordStartPosition k) (hwe : we = stc.WordEndPosition k) :
    (stc.GetCharAt q = ')' → blockStart ≤ ps →
      (∀ p : Int, blockStart < p → p < ws → ParseLocalBlock.closesBlock stc p = false) →
      stc.GetTextRange ws we = ['f', 'o', 'r'] →
      ParseLocalBlock.buffer stc blockStart pos blockEnd
        = stc.GetTextRange blockStart we
          ++ ParseLocalBlock.padLines (stc.LineFromPosition k) (stc.LineFromPosition ss)
              (['(', ';', ';', ')', '\x7b']
                ++ ParseLocalBlock.padLines (stc.LineFromPosition ss) (stc.LineFromPosition c)
                    (stc.GetTextRange c blockEnd)))
    ∧ (stc.GetCharAt q = ')' → blockStart ≤ ps →
      (∀ p : Int, blockStart < p → p < ws → ParseLocalBlock.closesBlock stc p = false) →
      (stc.GetTextRange ws we = ['i', 'f'] ∨ stc.GetTextRange ws we = ['w', 'h', 'i', 'l', 'e']
        ∨ stc.GetTextRange ws we = ['c', 'a', 't', 'c', 'h']) →
      ParseLocalBlock.buffer stc blockStart pos blockEnd
        = stc.GetTextRange blockStart we
          ++ ParseLocalBlock.padLines (stc.LineFromPosition k) (stc.LineFromPosition ss)
              (['(', '0', ')', '\x7b']
                ++ ParseLocalBlock.padLines (stc.LineFromPosition ss) (stc.LineFromPosition c)
                    (stc.GetTextRange c blockEnd)))
    ∧ ((stc.GetCharAt q ≠ ')' ∨ ps < blockStart
          ∨ ¬ ParseLocalBlock.isHeaderKeyword (stc.GetTextRange ws we)) →
      (∀ p : Int, blockStart < p → p < ss → ParseLocalBlock.closesBlock stc p = false) →
      ParseLocalBlock.buffer stc blockStart pos blockEnd
        = stc.GetTextRange blockStart (ss + 1)
          ++ ParseLocalBlock.padLines (stc.LineFromPosition ss) (stc.LineFromPosition c)
              (stc.GetTextRange c blockEnd)) := by
  have hb := buffer_one_block stc blockStart pos blockEnd c ss q ps k hbs hcp hfirst hc hss hge
    hq hps hk
  rw [← hws, ← hwe] at hb
  refine ⟨?_, ?_, ?_⟩
  · intro h1 h2 h3 h4
    rw [hb, if_pos ⟨h1, h2, Or.inl h4⟩, if_pos h4,
      condense_none stc blockStart _ (ws - 1) we _ (fun p a b => h3 p a (by omega))]
  · intro h1 h2 h3 h4
    have hnf : stc.GetTextRange ws we ≠ ['f', 'o', 'r'] := by
      rcases h4 with h | h | h <;> rw [h] <;> decide
    rw [hb, if_pos ⟨h1, h2, Or.inr h4⟩, if_neg hnf,
      condense_none stc blockStart _ (ws - 1) we _ (fun p a b => h3 p a (by omega))]
  · intro h1 h3
    have hn : ¬ (stc.GetCharAt q = ')' ∧ blockStart ≤ ps
        ∧ ParseLocalBlock.isHeaderKeyword (stc.GetTextRange ws we)) := by
      rintro ⟨a, b, d⟩
      rcases h1 with h | h | h
      · exact h a
      · omega
      · exact h d
    rw [hb, if_neg hn,
      condense_none stc blockStart _ (ss - 1) (ss + 1) _ (fun p a b => h3 p a (by omega))]

/-- C25: the claim as written is false.  In `void f(int x){ if (x) { int y; } }` with the caret
at offset 32, after the closing brace of the block of the `if`, the buffer that `ParseLocalBlock`
parses is ` if(0){} }`: the condition `(x)` of the `if` is replaced by `(0)`, which is never
true. -/
theorem ParseLocalBlock_header_never_true :
    (FindCurrentFunctionStart specHelpers exStateF exSearchIf none none none 32).1 = 13
    ∧ exSearchIf.control.GetTextRange 15 21 = "if (x)".toList
    ∧ ParseLocalBlock.buffer exSearchIf.control 14 32 34 = " if(0)\x7b\x7d \x7d".toList
    ∧ (ParseLocalBlock specHelpers exStateF exSearchIf [] 32).2.2.parses.map (fun bp => bp.buffer)
        = [" if(0)\x7b\x7d \x7d".toList] := by
  refine ⟨by decide, by decide, by decide, by decide⟩

/-- Witness of `ParseLocalBlock_buffer_header`: in `exSearchIf` with the caret at offset 32 the
block closed at offset 31 was opened at offset 22 after the header `if (x)`, whose parentheses
stand at the offsets 18 and 20 and whose word stands at the offsets 15 to 17. -/
theorem ParseLocalBlock_buffer_header_witness :
    ParseLocalBlock.buffer exSearchIf.control 14 32 34
      = exSearchIf.control.GetTextRange 14 17
        ++ ParseLocalBlock.padLines (exSearchIf.control.LineFromPosition 16)
            (exSearchIf.control.LineFromPosition 22)
            (['(', '0', ')', '\x7b']
              ++ ParseLocalBlock.padLines (exSearchIf.control.LineFromPosition 22)
                  (exSearchIf.control.LineFromPosition 31)
                  (exSearchIf.control.GetTextRange 31 34)) :=
  (ParseLocalBlock_buffer_header exSearchIf.control 14 32 34 31 22 20 18 16 15 17 (by decide)
    (by decide)
    (fun p h1 h2 => by
      have hp : p = 32 := by omega
      subst hp
      decide)
    (by decide) (by decide) (by decide) (by decide) (by decide) (by decide) (by decide)
    (by decide)).2.1 (by decide) (by decide) (fun p h1 h2 => by omega) (Or.inl (by decide))

/-! ## Theorems: the lock of the token tree -/

theorem runLocks_append (a b : List LockEvent) (depth : Nat) :
    runLocks (a ++ b) depth = (runLocks a depth).bind (runLocks b) := by
  induction a generalizing depth with
  | nil => rfl
  | cons e rest ih =>
    cases e
    · simp only [List.cons_append, runLocks]
      split_ifs
      · exact ih 1
      · rfl
    · simp only [List.cons_append, runLocks]
      split_ifs
      · exact ih 0
      · rfl

/-- Two sequences of events that each start and end with the lock free do so in a row. -/
theorem runLocks_append_free (a b : List LockEvent) (ha : runLocks a 0 = some 0)
    (hb : runLocks b 0 = some 0) : runLocks (a ++ b) 0 = some 0 := by
  rw [runLocks_append, ha]
  exact hb

theorem FindCurrentFunctionStart_locks_free (h : Helpers) (s : NativeParser)
    (searchData : ccSearchData) (caretPos : Int) :
    runLocks (FindCurrentFunctionStart.locks h s searchData caretPos) 0 = some 0 := by
  unfold FindCurrentFunctionStart.locks
  dsimp only
  split_ifs <;> first
    | rfl
    | (split
       · split_ifs <;> rfl
       · rfl)

theorem FindCurrentFunctionToken_locks_free (h : Helpers) (s : NativeParser)
    (searchData : ccSearchData) (caretPos : Int) :
    runLocks (FindCurrentFunctionToken.locks h s searchData caretPos) 0 = some 0 := by
  unfold FindCurrentFunctionToken.locks
  dsimp only
  apply runLocks_append_free _ _ (FindCurrentFunctionStart_locks_free h s searchData caretPos)
  split_ifs <;> rfl

theorem ParseUsingNamespace_locks_free (searchData : ccSearchData) (caretPos : Int) :
    runLocks (ParseUsingNamespace.locks searchData caretPos) 0 = some 0 := by
  unfold ParseUsingNamespace.locks
  dsimp only
  split_ifs <;> rfl

/-- The loop of `ParseFunctionArguments` entered with the lock held exactly when `locked` is set
never takes the lock while it is held and leaves it free. -/
theorem loopLocks_free (h : Helpers) (searchData : ccSearchData) (curLine : Nat)
    (l : List Int) (s : NativeParser) (locked : Bool) :
    runLocks (ParseFunctionArguments.loopLocks h searchData curLine l s locked)
      (if locked then 1 else 0) = some 0 := by
  induction l generalizing s locked with
  | nil => cases locked <;> rfl
  | cons tis rest ih =>
    unfold ParseFunctionArguments.loopLocks
    by_cases hc : ParseFunctionArguments.continues searchData curLine s.parser.tokenTree tis = true
    · rw [if_pos hc]
      have := ih s true
      cases locked
      · simpa [runLocks] using this
      · simpa [runLocks] using this
    · rw [if_neg hc]
      have := ih (ParseFunctionArguments.body h searchData curLine s tis) false
      cases locked
      · simpa [runLocks] using this
      · simpa [runLocks] using this

theorem ParseFunctionArguments_locks_free (h : Helpers) (s : NativeParser)
    (searchData : ccSearchData) (caretPos : Int) :
    runLocks (ParseFunctionArguments.locks h s searchData caretPos) 0 = some 0 := by
  unfold ParseFunctionArguments.locks
  dsimp only
  apply runLocks_append_free _ _ (FindCurrentFunctionToken_locks_free h s searchData caretPos)
  split_ifs <;> first
    | rfl
    | exact loopLocks_free h searchData _ _ _ false

theorem ParseLocalBlock_locks_free (h : Helpers) (s : NativeParser) (searchData : ccSearchData)
    (caretPos : Int) (debugSmartSense : Bool) :
    runLocks (ParseLocalBlock.locks h s searchData caretPos debugSmartSense) 0 = some 0 := by
  unfold ParseLocalBlock.locks
  dsimp only
  apply runLocks_append_free
  · apply runLocks_append_free _ _ (FindCurrentFunctionStart_locks_free h s searchData caretPos)
    split_ifs <;> rfl
  · split_ifs <;> rfl

theorem AI_locks_free (h : Helpers) (s : NativeParser) (searchData : ccSearchData)
    (caretPos : Int) : runLocks (AI.locks h s searchData caretPos) 0 = some 0 := by
  unfold AI.locks
  dsimp only
  split_ifs <;> first
    | rfl
    | exact FindCurrentFunctionToken_locks_free h _ searchData _

theorem MarkItemsByAI_locks_free (h : Helpers) (s : NativeParser) (searchData : ccSearchData)
    (reallyUseAI : Bool) (caretPos : Int) (debugSmartSense : Bool) :
    runLocks (MarkItemsByAI.locks h s searchData reallyUseAI caretPos debugSmartSense) 0
      = some 0 := by
  unfold MarkItemsByAI.locks
  dsimp only
  split_ifs
  · rfl
  · apply runLocks_append_free
    · apply runLocks_append_free
      · apply runLocks_append_free
        · apply runLocks_append_free
          · rfl
          · exact ParseUsingNamespace_locks_free searchData caretPos
        · exact ParseFunctionArguments_locks_free h _ searchData caretPos
      · exact ParseLocalBlock_locks_free h _ searchData caretPos debugSmartSense
    · rfl
  · apply runLocks_append_free
    · apply runLocks_append_free
      · apply runLocks_append_free
        · apply runLocks_append_free
          · rfl
          · exact ParseUsingNamespace_locks_free searchData caretPos
        · exact ParseFunctionArguments_locks_free h _ searchData caretPos
      · exact ParseLocalBlock_locks_free h _ searchData caretPos debugSmartSense
    · exact AI_locks_free h _ searchData caretPos

/-- C22: the lock discipline of the resolver routines, with the lock events of each routine
taken in program order on every path and run through the lock-depth counter from depth 0: in
`MarkItemsByAI`, `FindCurrentFunctionToken`, `FindCurrentFunctionStart`,
`ParseBufferForUsingNamespace`, `ParseFunctionArguments` and `ParseLocalBlock` the lock is never
acquired while it is held nor released while it is free, and the depth is 0 again on return,
for every state, editor, caret and setting of the debug flag; the loop of
`ParseFunctionArguments`, entered with its flag `locked` telling whether the lock is held, ends
with the lock free after every mix of `continue` and complete iterations. -/
theorem token_tree_lock_discipline (h : Helpers) (s : NativeParser) (searchData : ccSearchData)
    (reallyUseAI : Bool) (caretPos : Int) (debugSmartSense : Bool) (curLine : Nat)
    (proc_result : List Int) (locked : Bool) :
    runLocks (MarkItemsByAI.locks h s searchData reallyUseAI caretPos debugSmartSense) 0 = some 0
    ∧ runLocks (FindCurrentFunctionToken.locks h s searchData caretPos) 0 = some 0
    ∧ runLocks (FindCurrentFunctionStart.locks h s searchData caretPos) 0 = some 0
    ∧ runLocks ParseBufferForUsingNamespace.locks 0 = some 0
    ∧ runLocks (ParseFunctionArguments.locks h s searchData caretPos) 0 = some 0
    ∧ runLocks (ParseLocalBlock.locks h s searchData caretPos debugSmartSense) 0 = some 0
    ∧ runLocks (ParseFunctionArguments.loopLocks h searchData curLine proc_result s locked)
        (if locked then 1 else 0) = some 0 :=
  ⟨MarkItemsByAI_locks_free h s searchData reallyUseAI caretPos debugSmartSense,
    FindCurrentFunctionToken_locks_free h s searchData caretPos,
    FindCurrentFunctionStart_locks_free h s searchData caretPos, rfl,
    ParseFunctionArguments_locks_free h s searchData caretPos,
    ParseLocalBlock_locks_free h s searchData caretPos debugSmartSense,
    loopLocks_free h searchData curLine proc_result s locked⟩

/-- The lock events of a completion query in `exSearchF` at offset 29: eight critical sections
one after the other (of `MarkItemsByAI`, of `ParseBufferForUsingNamespace`, three of
`ParseFunctionArguments` with its calls, two of `ParseLocalBlock` with its call of
`ParseBufferForUsingNamespace`, and one of the `FindCurrentFunctionToken` of `AI`). -/
theorem MarkItemsByAI_locks_example :
    MarkItemsByAI.locks specHelpers exStateF exSearchF true 29 false
      = [LockEvent.lock, LockEvent.unlock, LockEvent.lock, LockEvent.unlock,
         LockEvent.lock, LockEvent.unlock, LockEvent.lock, LockEvent.unlock,
         LockEvent.lock, LockEvent.unlock, LockEvent.lock, LockEvent.unlock,
         LockEvent.lock, LockEvent.unlock, LockEvent.lock, LockEvent.unlock] := by
  decide

/-! ## Theorems: the built-in search directories of the compiler -/

/-- The scan of `GetGCCCompilerDirs` keeps the record of the accesses made before. -/
theorem scan_reads_mono (fs : DirWorld) (error : List wxString) (fuel idxCount : Nat)
    (start : Bool) (added : List wxString) (reads : List Nat) (x : Nat) (hx : x ∈ reads) :
    x ∈ (GetGCCCompilerDirs.scan fs error fuel idxCount start added reads).2 := by
  induction fuel generalizing idxCount start added reads with
  | zero => exact hx
  | succ fuel ih =>
    unfold GetGCCCompilerDirs.scan
    dsimp only
    split_ifs
    · exact ih _ _ _ _ (List.mem_append_left _ hx)
    · exact List.mem_append_left _ (List.mem_append_left _ hx)
    · exact ih _ _ _ _ (List.mem_append_left _ (List.mem_append_left _ hx))
    · exact List.mem_append_left _ hx
    · exact ih _ _ _ _ (List.mem_append_left _ hx)
    · exact hx

/-- The scan of `GetGCCCompilerDirs` reads the line after the marker line without a test of
the index: from a line `idxCount` on with only lines that do not start with the marker before
the line `m`, which does, the scan makes the access `error[m + 1]`. -/
theorem scan_reads_after_marker (fs : DirWorld) (error : List wxString) (m : Nat)
    (hm : m < error.length)
    (hmark : GetGCCCompilerDirs.marker.isPrefixOf (wxTrimLeft (wxTrim (error.getD m []))) = true)
    (n fuel idxCount : Nat) (added : List wxString) (reads : List Nat)
    (hn : idxCount + n = m) (hfuel : n < fuel)
    (hbefore : ∀ i, idxCount ≤ i → i < m →
      GetGCCCompilerDirs.marker.isPrefixOf (wxTrimLeft (wxTrim (error.getD i []))) = false) :
    m + 1 ∈ (GetGCCCompilerDirs.scan fs error fuel idxCount false added reads).2 := by
  induction n generalizing fuel idxCount added reads with
  | zero =>
    obtain ⟨fuel, rfl⟩ : ∃ f, fuel = f + 1 := ⟨fuel - 1, by omega⟩
    have hidx : idxCount = m := by omega
    subst hidx
    unfold GetGCCCompilerDirs.scan
    rw [if_pos hm]
    simp only [Bool.not_false, if_true, hmark, Bool.not_true, Bool.false_eq_true, if_false]
    split_ifs
    · exact List.mem_append_right _ (List.mem_singleton.mpr rfl)
    · exact scan_reads_mono fs error _ _ _ _ _ _
        (List.mem_append_right _ (List.mem_singleton.mpr rfl))
  | succ n ih =>
    obtain ⟨fuel, rfl⟩ : ∃ f, fuel = f + 1 := ⟨fuel - 1, by omega⟩
    unfold GetGCCCompilerDirs.scan
    rw [if_pos (by omega)]
    simp only [Bool.not_false, if_true, hbefore idxCount (le_refl _) (by omega)]
    exact ih fuel (idxCount + 1) added _ (by omega) (by omega)
      (fun i h1 h2 => hbefore i (by omega) h2)

/-- A diagnostic output whose last line is the first line that starts with the marker makes the
scan of `GetGCCCompilerDirs` read `error[error.GetCount()]`, one past the last line. -/
theorem scan_reads_past_end (fs : DirWorld) (pre : List wxString) (last : wxString)
    (hmark : GetGCCCompilerDirs.marker.isPrefixOf (wxTrimLeft (wxTrim last)) = true)
    (hpre : ∀ l ∈ pre, GetGCCCompilerDirs.marker.isPrefixOf (wxTrimLeft (wxTrim l)) = false) :
    (pre ++ [last]).length
      ∈ (GetGCCCompilerDirs.scan fs (pre ++ [last]) ((pre ++ [last]).length + 1) 0 false []
          []).2 := by
  have hlen : (pre ++ [last]).length = pre.length + 1 := by simp
  have hget : (pre ++ [last]).getD pre.length [] = last := by
    simp [List.getD_eq_getElem?_getD]
  rw [hlen]
  refine scan_reads_after_marker fs (pre ++ [last]) pre.length (by omega) (by rw [hget]; exact hmark)
    pre.length _ 0 [] [] (by omega) (by omega) ?_
  intro i _ hi
  have : (pre ++ [last]).getD i [] = pre[i] := by
    simp [List.getD_eq_getElem?_getD, List.getElem?_append_left hi, List.getElem?_eq_getElem hi]
  rw [this]
  exact hpre _ (List.getElem_mem hi)

/-- C30: the code breaks the claim.  With a diagnostic output of two lines whose last line is
the marker `#include <...> search starts here:`, the scan of `GetGCCCompilerDirs` makes the
accesses `error[0]`, `error[1]` and `error[2]`: the last index is the number of lines, out of
range. -/
theorem GetGCCCompilerDirs_reads_past_end :
    (SafeExecute exWorldGCC "/usr".toList "g++".toList
        " -v -E -x c++ /dev/null".toList).2.2.1.length = 2
    ∧ (GetGCCCompilerDirs exWorldGCC exDirs GCCStatics.init false "/usr".toList
        "g++".toList).2.1 = [0, 1, 2]
    ∧ (GetGCCCompilerDirs exWorldGCC exDirs GCCStatics.init false "/usr".toList
        "g++".toList).1 = [] := by
  refine ⟨by decide, by decide, by decide⟩

/-- Every access of the scan of `GetGCCCompilerDirs` has an index of at most the number of
lines: the scan reads at most one line past the end. -/
theorem scan_reads_le (fs : DirWorld) (error : List wxString) (fuel idxCount : Nat)
    (start : Bool) (added : List wxString) (reads : List Nat)
    (hreads : ∀ x ∈ reads, x ≤ error.length) :
    ∀ x ∈ (GetGCCCompilerDirs.scan fs error fuel idxCount start added reads).2,
      x ≤ error.length := by
  induction fuel generalizing idxCount start added reads with
  | zero => exact hreads
  | succ fuel ih =>
    have h1 : idxCount < error.length → ∀ x ∈ reads ++ [idxCount], x ≤ error.length := by
      intro hlt x hx
      rcases List.mem_append.mp hx with h | h
      · exact hreads x h
      · rw [List.mem_singleton.mp h]
        omega
    have h2 : idxCount < error.length →
        ∀ x ∈ reads ++ [idxCount] ++ [idxCount + 1], x ≤ error.length := by
      intro hlt x hx
      rcases List.mem_append.mp hx with h | h
      · exact h1 hlt x h
      · rw [List.mem_singleton.mp h]
        omega
    unfold GetGCCCompilerDirs.scan
    dsimp only
    split_ifs with c1
    · exact ih _ _ _ _ (h1 c1)
    · exact h2 c1
    · exact ih _ _ _ _ (h2 c1)
    · exact h1 c1
    · exact ih _ _ _ _ (h1 c1)
    · exact hreads

/-! ## Theorems: the call tips -/

theorem mem_specOffsets (lo hi o : Int) : o ∈ specOffsets lo hi ↔ lo < o ∧ o < hi := by
  unfold specOffsets
  simp only [List.mem_map, List.mem_range]
  constructor
  · rintro ⟨i, hi1, rfl⟩
    omega
  · intro h
    exact ⟨(o - lo - 1).toNat, by omega, by omega⟩

theorem specOffsets_pred (o start : Int) (h : o < start) :
    specOffsets (o - 1) start = o :: specOffsets o start := by
  unfold specOffsets
  have e : (start - 1 - (o - 1)).toNat = (start - 1 - o).toNat + 1 := by omega
  rw [e, List.range_succ_eq_map, List.map_cons, List.map_map]
  congr 1
  · simp
  · apply List.map_congr_left
    intro i _
    simp only [Function.comp, Nat.succ_eq_add_one]
    push_cast
    ring

theorem specOffsets_nil (start : Int) : specOffsets (start - 1) start = [] := by
  unfold specOffsets
  simp

theorem specNest_pred (c : cbStyledTextCtrl) (o start : Int) (h : o < start) :
    specNest c (o - 1) start
      = specNest c o start
        + (if specUnstyled c o = true then
            (if c.GetCharAt o = '(' then 1 else if c.GetCharAt o = ')' then -1 else 0)
           else 0) := by
  unfold specNest
  rw [specOffsets_pred o start h, List.countP_cons, List.countP_cons]
  by_cases hu : specUnstyled c o = true
  · by_cases h1 : c.GetCharAt o = '('
    · simp [hu, h1]
      ring
    · by_cases h2 : c.GetCharAt o = ')'
      · simp [hu, h2]
        ring
      · simp [hu, h1, h2]
  · simp [hu]

theorem specTypedCommas_pred (c : cbStyledTextCtrl) (o start : Int) (h : o < start) :
    specTypedCommas c (o - 1) start
      = specTypedCommas c o start
        + (if specUnstyled c o = true ∧ c.GetCharAt o = ',' ∧ specNest c o start = 0 then 1
           else 0) := by
  unfold specTypedCommas
  rw [specOffsets_pred o start h, List.countP_cons]
  congr 1
  simp only [Bool.and_eq_true, beq_iff_eq, and_assoc]

theorem specNest_self (c : cbStyledTextCtrl) (start : Int) : specNest c (start - 1) start = 0 := by
  unfold specNest
  rw [specOffsets_nil]
  rfl

theorem specTypedCommas_self (c : cbStyledTextCtrl) (start : Int) :
    specTypedCommas c (start - 1) start = 0 := by
  unfold specTypedCommas
  rw [specOffsets_nil]
  rfl

/-- One pass of the first loop of `GetCallTips` at an offset `o` above 0 and below `start` that
holds neither an unstyled semicolon nor an unstyled opening parenthesis that encloses `start`:
`nest` and `commas` stay as the specification counts them. -/
theorem scan_step (c : cbStyledTextCtrl) (start o : Int) (fuel : Nat) (h0 : 0 < o)
    (hlt : o < start) (hsemi : specUnstyled c o = true → c.GetCharAt o ≠ ';')
    (hparen : specUnstyled c o = true → c.GetCharAt o = '(' → specNest c o start < 0) :
    GetCallTips.scan c (fuel + 1) (o + 1) (specNest c o start) (specTypedCommas c o start)
      = GetCallTips.scan c fuel o (specNest c (o - 1) start)
          (specTypedCommas c (o - 1) start) := by
  have hN := specNest_pred c o start hlt
  have hC : ((specTypedCommas c (o - 1) start : Nat) : Int)
      = specTypedCommas c o start
        + (if specUnstyled c o = true ∧ c.GetCharAt o = ',' ∧ specNest c o start = 0 then 1
           else 0) := by
    rw [specTypedCommas_pred c o start hlt]
    push_cast
    rfl
  have e1 : o + 1 - 1 = o := by ring
  rw [GetCallTips.scan, e1, if_pos h0]
  dsimp only
  by_cases hu : specUnstyled c o = true
  · have hsty : (c.IsString (c.GetStyleAt o) || c.IsCharacter (c.GetStyleAt o)
        || c.IsComment (c.GetStyleAt o)) = false := by
      unfold specUnstyled at hu
      simpa using hu
    rw [hsty]
    simp only [Bool.false_eq_true, if_false]
    rw [if_neg (hsemi hu)]
    by_cases hcomma : c.GetCharAt o = ','
    · rw [if_pos hcomma]
      have hno : c.GetCharAt o ≠ '(' := by rw [hcomma]; decide
      have hnc : c.GetCharAt o ≠ ')' := by rw [hcomma]; decide
      rw [hN, hC]
      simp only [hu, hno, hnc, hcomma, if_true, if_false, add_zero, true_and]
      by_cases hz : specNest c o start = 0
      · simp [hz]
      · simp [hz]
    · rw [if_neg hcomma]
      by_cases hclose : c.GetCharAt o = ')'
      · rw [if_pos hclose]
        have hno : c.GetCharAt o ≠ '(' := by rw [hclose]; decide
        rw [hN, hC]
        simp only [hu, hno, hclose, hcomma, if_true, if_false, false_and, and_false, add_zero,
          Nat.cast_zero]
        rfl
      · rw [if_neg hclose]
        by_cases hopen : c.GetCharAt o = '('
        · rw [if_pos hopen]
          have hneg := hparen hu hopen
          rw [if_neg (by omega), hN, hC]
          simp [hu, hopen]
        · rw [if_neg hopen, hN, hC]
          simp [hu, hopen, hclose, hcomma]
  · have hsty : (c.IsString (c.GetStyleAt o) || c.IsCharacter (c.GetStyleAt o)
        || c.IsComment (c.GetStyleAt o)) = true := by
      unfold specUnstyled at hu
      cases hx : (c.IsString (c.GetStyleAt o) || c.IsCharacter (c.GetStyleAt o)
        || c.IsComment (c.GetStyleAt o)) with
      | true => rfl
      | false =>
        rw [hx] at hu
        exact absurd rfl hu
    rw [hsty, if_pos rfl, hN, hC]
    simp only [hu, Bool.false_eq_true, if_false, false_and, add_zero]

/-- The first loop of `GetCallTips` over the `n` offsets below `start`, when they hold no
unstyled semicolon and no unstyled opening parenthesis that encloses `start`: the loop goes on
from `start - n` with `nest` and `commas` as the specification counts them. -/
theorem scan_steps (c : cbStyledTextCtrl) (start : Int) (n fuel : Nat) (hn : (n : Int) < start)
    (hsemi : ∀ o : Int, start - n ≤ o → o < start → specUnstyled c o = true →
      c.GetCharAt o ≠ ';')
    (hparen : ∀ o : Int, start - n ≤ o → o < start → specUnstyled c o = true →
      c.GetCharAt o = '(' → specNest c o start < 0) :
    GetCallTips.scan c (fuel + n) start 0 0
      = GetCallTips.scan c fuel (start - n) (specNest c (start - n - 1) start)
          (specTypedCommas c (start - n - 1) start) := by
  induction n generalizing fuel with
  | zero =>
    simp only [Nat.cast_zero, sub_zero, Nat.add_zero]
    rw [specNest_self, specTypedCommas_self]
    rfl
  | succ n ih =>
    have e : fuel + (n + 1) = (fuel + 1) + n := by omega
    have hn1 : (n : Int) < start := by push_cast at hn; omega
    rw [e, ih (fuel + 1) hn1 (fun o h1 h2 => hsemi o (by push_cast; omega) h2)
      (fun o h1 h2 => hparen o (by push_cast; omega) h2)]
    have e2 : start - ((n + 1 : Nat) : Int) = start - n - 1 := by push_cast; ring
    have e3 : start - (n : Int) = start - n - 1 + 1 := by ring
    rw [e2]
    nth_rewrite 1 [e3]
    exact scan_step c start (start - n - 1) fuel (by push_cast at hn; omega) (by omega)
      (hsemi _ (by push_cast; omega) (by omega)) (hparen _ (by push_cast; omega) (by omega))

/-- The first loop of `GetCallTips` stops at the opening parenthesis that encloses `start` when
no semicolon stands between them, with the commas counted as the specification counts them. -/
theorem scan_enclosing (c : cbStyledTextCtrl) (p start : Int) (henc : specEnclosing c p start)
    (hsemi : specNoSemicolon c p start) :
    GetCallTips.scan c (start.toNat + 1) start 0 0
      = some (p, (specTypedCommas c p start : Int)) := by
  obtain ⟨h0, hlt, hu, hch, hnest, hparen⟩ := henc
  have efuel : start.toNat + 1 = (p.toNat + 1 + 1) + (start - 1 - p).toNat := by omega
  have e1 : start - ((start - 1 - p).toNat : Int) = p + 1 := by
    rw [Int.toNat_of_nonneg (by omega)]
    ring
  rw [efuel, scan_steps c start (start - 1 - p).toNat (p.toNat + 1 + 1)
    (by rw [Int.toNat_of_nonneg (by omega)]; omega)
    (fun o h1 h2 => hsemi o ((mem_specOffsets p start o).mpr ⟨by rw [e1] at h1; omega, h2⟩))
    (fun o h1 h2 => hparen o ((mem_specOffsets p start o).mpr ⟨by rw [e1] at h1; omega, h2⟩)),
    e1]
  have e2 : p + 1 - 1 = p := by ring
  rw [GetCallTips.scan, e2, if_pos h0, hnest]
  dsimp only
  have hsty : (c.IsString (c.GetStyleAt p) || c.IsCharacter (c.GetStyleAt p)
      || c.IsComment (c.GetStyleAt p)) = false := by
    unfold specUnstyled at hu
    simpa using hu
  rw [hsty, hch]
  simp

/-- The first loop of `GetCallTips` returns at a semicolon that is met before an opening
parenthesis that encloses `start`. -/
theorem scan_semicolon (c : cbStyledTextCtrl) (j start : Int)
    (hfirst : specSemicolonFirst c j start) :
    GetCallTips.scan c (start.toNat + 1) start 0 0 = none := by
  obtain ⟨h0, hlt, hu, hch, hsemi, hparen⟩ := hfirst
  have efuel : start.toNat + 1 = (j.toNat + 1 + 1) + (start - 1 - j).toNat := by omega
  have e1 : start - ((start - 1 - j).toNat : Int) = j + 1 := by
    rw [Int.toNat_of_nonneg (by omega)]
    ring
  rw [efuel, scan_steps c start (start - 1 - j).toNat (j.toNat + 1 + 1)
    (by rw [Int.toNat_of_nonneg (by omega)]; omega)
    (fun o h1 h2 => hsemi o ((mem_specOffsets j start o).mpr ⟨by rw [e1] at h1; omega, h2⟩))
    (fun o h1 h2 => hparen o ((mem_specOffsets j start o).mpr ⟨by rw [e1] at h1; omega, h2⟩)),
    e1]
  have e2 : j + 1 - 1 = j := by ring
  rw [GetCallTips.scan, e2, if_pos h0]
  dsimp only
  have hsty : (c.IsString (c.GetStyleAt j) || c.IsCharacter (c.GetStyleAt j)
      || c.IsComment (c.GetStyleAt j)) = false := by
    unfold specUnstyled at hu
    simpa using hu
  rw [hsty, hch]
  simp

/-- C26 (amended): `GetCallTips` on a done parser, for the editor `ed` and the start position
`start` (the caret when `pos` is -1).  When the offset `p` holds the opening parenthesis that
encloses `start` and no semicolon stands between them (outside string, character and comment
styled text), with `q` the offset the second loop stops at below `p`: if the word at `q` is not
empty, `typedCommas` is the number of commas between `p` and `start` outside styled text and
outside nested parentheses, and the end of that word is returned; if the word is empty, the
invalid position is returned with `typedCommas` 0 and no items.  When a semicolon is met first,
the invalid position is returned with `typedCommas` 0 and no items. -/
theorem GetCallTips_counts_commas (h : Helpers)
    (computeCallTip : TokenTree → TokenIdxSet → List wxString) (s : NativeParser) (ide : Ide)
    (ed : cbEditor) (pos start : Int) (hdone : s.parser.done = true)
    (hstart : start = if pos = -1 then ed.control.GetCurrentPos else pos) :
    (∀ p q : Int, specEnclosing ed.control p start → specNoSemicolon ed.control p start →
      q = GetCallTips.strip ed.control (p.toNat + 1) p →
      (ed.control.GetTextRange (ed.control.WordStartPosition q) (ed.control.WordEndPosition q)
            ≠ [] →
          (GetCallTips h computeCallTip s ide (some ed) pos).2.2.1
              = (specTypedCommas ed.control p start : Int)
          ∧ (GetCallTips h computeCallTip s ide (some ed) pos).1
              = ed.control.WordEndPosition q)
      ∧ (ed.control.GetTextRange (ed.control.WordStartPosition q) (ed.control.WordEndPosition q)
            = [] →
          (GetCallTips h computeCallTip s ide (some ed) pos).1 = -1
          ∧ (GetCallTips h computeCallTip s ide (some ed) pos).2.1 = []
          ∧ (GetCallTips h computeCallTip s ide (some ed) pos).2.2.1 = 0))
    ∧ (∀ j : Int, specSemicolonFirst ed.control j start →
        (GetCallTips h computeCallTip s ide (some ed) pos).1 = -1
        ∧ (GetCallTips h computeCallTip s ide (some ed) pos).2.1 = []
        ∧ (GetCallTips h computeCallTip s ide (some ed) pos).2.2.1 = 0) := by
  subst hstart
  refine ⟨?_, ?_⟩
  · intro p q henc hsemi hq
    have hscan := scan_enclosing ed.control p _ henc hsemi
    refine ⟨?_, ?_⟩
    · intro hne
      have hemp : (ed.control.GetTextRange (ed.control.WordStartPosition q)
          (ed.control.WordEndPosition q)).isEmpty = false := by
        cases hx : ed.control.GetTextRange (ed.control.WordStartPosition q)
          (ed.control.WordEndPosition q) with
        | nil => exact absurd hx hne
        | cons a l => rfl
      unfold GetCallTips
      simp only [hdone, Bool.not_true, Bool.false_eq_true, if_false, hscan, ← hq, hemp]
      simp
    · intro hnil
      unfold GetCallTips
      simp only [hdone, Bool.not_true, Bool.false_eq_true, if_false, hscan, ← hq, hnil,
        List.isEmpty_nil, if_true]
      simp
  · intro j hfirst
    have hscan := scan_semicolon ed.control j _ hfirst
    unfold GetCallTips
    simp only [hdone, Bool.not_true, Bool.false_eq_true, if_false, hscan]
    simp

/-- C26: the claim as written is false.  In `x = (a, b` with the start position 9, the end of
the text, the parenthesis at offset 4 encloses the start position, no semicolon stands between
them and one comma stands between them; `GetCallTips` on a done parser returns the invalid
position with `typedCommas` 0, since no word stands before the parenthesis. -/
theorem GetCallTips_drops_commas :
    exStateF.parser.done = true
    ∧ specEnclosing exEditorParen.control 4 9
    ∧ specNoSemicolon exEditorParen.control 4 9
    ∧ specTypedCommas exEditorParen.control 4 9 = 1
    ∧ GetCallTips.scan exEditorParen.control 10 9 0 0 = some (4, 1)
    ∧ (GetCallTips specHelpers exComputeCallTip exStateF exIde (some exEditorParen) 9).2.2.1 = 0
    ∧ (GetCallTips specHelpers exComputeCallTip exStateF exIde (some exEditorParen) 9).1
        = -1 := by
  refine ⟨by decide, by decide, by decide, by decide, by decide, by decide, by decide⟩

/-- Witness of `GetCallTips_counts_commas`: in `foo(a, (b, c), d` with the start position at
the end of the text the parenthesis at offset 3 encloses the start position, the word `foo`
stands before it, and `typedCommas` is 2. -/
theorem GetCallTips_counts_commas_witness :
    ((GetCallTips specHelpers exComputeCallTip exStateF exIde (some exEditorCall) (-1)).2.2.1
        = (specTypedCommas exEditorCall.control 3 16 : Int)
      ∧ (GetCallTips specHelpers exComputeCallTip exStateF exIde (some exEditorCall) (-1)).1
        = exEditorCall.control.WordEndPosition 2)
    ∧ specTypedCommas exEditorCall.control 3 16 = 2
    ∧ exEditorCall.control.WordEndPosition 2 = 3 :=
  ⟨((GetCallTips_counts_commas specHelpers exComputeCallTip exStateF exIde exEditorCall (-1) 16
      (by decide) (by decide)).1 3 2 (by decide) (by decide) (by decide)).1 (by decide),
    by decide, by decide⟩

/-! ## Theorems: the header rewrite for every number of blocks -/

theorem closesBlock_spec (stc : cbStyledTextCtrl) (c : Int)
    (hc : ParseLocalBlock.closesBlock stc c = true) :
    0 ≤ c ∧ stc.GetCharAt c = '\x7d' := by
  unfold ParseLocalBlock.closesBlock at hc
  simp only [Bool.and_eq_true, decide_eq_true_eq] at hc
  refine ⟨?_, hc.1⟩
  by_contra hneg
  have h := hc.1
  unfold cbStyledTextCtrl.GetCharAt at h
  rw [if_pos (by omega)] at h
  revert h
  decide

/-- The opening brace of a block stands before its closing brace. -/
theorem BraceMatch_lt_of_closes (stc : cbStyledTextCtrl) (c : Int)
    (hc : ParseLocalBlock.closesBlock stc c = true) : stc.BraceMatch c < c := by
  obtain ⟨h0, hch⟩ := closesBlock_spec stc c hc
  by_cases hf : 0 ≤ stc.BraceMatch c
  · exact (BraceMatch_closing stc c '\x7d' '\x7b' hch (by decide) (by decide) hf).1
  · omega

theorem WordStartPosition_le_toNat (stc : cbStyledTextCtrl) (k : Int) :
    stc.WordStartPosition k ≤ (k.toNat : Int) := by
  unfold cbStyledTextCtrl.WordStartPosition
  have h := wordStartFrom_le stc (min k.toNat stc.text.length)
  have h2 : min k.toNat stc.text.length ≤ k.toNat := min_le_left _ _
  exact_mod_cast le_trans h h2

/-- The word before a parenthesised header of a block starts at or before the closing brace of
the block. -/
theorem header_word_le (stc : cbStyledTextCtrl) (blockStart c ss q ps k : Int)
    (hc : ParseLocalBlock.closesBlock stc c = true) (hss : ss = stc.BraceMatch c)
    (hq : q = ParseLocalBlock.skipBack stc (ss - 1 - blockStart).toNat (ss - 1))
    (hparen : stc.GetCharAt q = ')') (hps : ps = stc.BraceMatch q)
    (hk : k = ParseLocalBlock.skipBack stc (ps - 1 - blockStart).toNat (ps - 1)) :
    stc.WordStartPosition k ≤ c := by
  obtain ⟨h0, _⟩ := closesBlock_spec stc c hc
  have h1 := BraceMatch_lt_of_closes stc c hc
  have h2 := (skipBack_le stc (ss - 1 - blockStart).toNat (ss - 1)).1
  have h3 := (skipBack_le stc (ps - 1 - blockStart).toNat (ps - 1)).1
  have h4 := WordStartPosition_le_toNat stc k
  rw [← hss] at h1
  rw [← hq] at h2
  rw [← hk] at h3
  by_cases hf : 0 ≤ ps
  · have h5 := (BraceMatch_closing stc q ')' '(' hparen (by decide) (by decide)
      (by rw [← hps]; exact hf)).1
    rw [← hps] at h5
    omega
  · omega

theorem condense_outside (stc : cbStyledTextCtrl) (blockStart : Int) (fuel : Nat)
    (c scanPos : Int) (buffer : wxString) (hcur : c > blockStart)
    (hc : ParseLocalBlock.closesBlock stc c = true) (hout : stc.BraceMatch c < blockStart) :
    ParseLocalBlock.condense stc blockStart (fuel + 1) c scanPos buffer = (scanPos, buffer) := by
  unfold ParseLocalBlock.closesBlock at hc
  simp only [Bool.and_eq_true, decide_eq_true_eq, Bool.not_eq_true'] at hc
  obtain ⟨hch, hsty⟩ := hc
  rw [ParseLocalBlock.condense, if_pos hcur, if_neg (not_not.mpr hch)]
  dsimp only
  rw [hsty]
  simp only [Bool.false_eq_true, if_false]
  rw [if_pos hout]

/-- A derivation of the condensing up to `curPos - 1` is one of the condensing up to `curPos`
when no block is closed at `curPos`. -/
theorem specCondenses_extend (stc : cbStyledTextCtrl) (blockStart curPos scanPos : Int)
    (buffer : wxString) (r : Int × wxString)
    (h : specCondenses stc blockStart (curPos - 1) scanPos buffer r)
    (hno : ParseLocalBlock.closesBlock stc curPos = false) :
    specCondenses stc blockStart curPos scanPos buffer r := by
  have hmem : ∀ lo p : Int, p ∈ specOffsets lo (curPos + 1) →
      p ∈ specOffsets lo (curPos - 1 + 1) ∨ p = curPos := by
    intro lo p hp
    rw [mem_specOffsets] at hp ⊢
    omega
  have hup : ∀ lo p : Int, p ∈ specOffsets lo (curPos - 1 + 1) →
      p ∈ specOffsets lo (curPos + 1) := by
    intro lo p hp
    rw [mem_specOffsets] at hp ⊢
    omega
  have hext : ∀ lo : Int,
      (∀ p ∈ specOffsets lo (curPos - 1 + 1), ParseLocalBlock.closesBlock stc p = false) →
      ∀ p ∈ specOffsets lo (curPos + 1), ParseLocalBlock.closesBlock stc p = false := by
    intro lo hall p hp
    rcases hmem lo p hp with h1 | h1
    · exact hall p h1
    · rw [h1]
      exact hno
  cases h with
  | done _ _ _ hn => exact specCondenses.done _ _ _ (hext _ hn)
  | outside _ _ _ c hc hfirst hclose hout =>
    exact specCondenses.outside _ _ _ c (hup _ _ hc) (hext _ hfirst) hclose hout
  | headerFor _ _ _ c ss q ps k ws we buffer1 _ hc hfirst hclose hss hin hq hparen hps hpin hk
      hws hwe hword hbuf hrest =>
    exact specCondenses.headerFor _ _ _ c ss q ps k ws we buffer1 _ (hup _ _ hc) (hext _ hfirst)
      hclose hss hin hq hparen hps hpin hk hws hwe hword hbuf hrest
  | headerIf _ _ _ c ss q ps k ws we buffer1 _ hc hfirst hclose hss hin hq hparen hps hpin hk
      hws hwe hword hbuf hrest =>
    exact specCondenses.headerIf _ _ _ c ss q ps k ws we buffer1 _ (hup _ _ hc) (hext _ hfirst)
      hclose hss hin hq hparen hps hpin hk hws hwe hword hbuf hrest
  | plain _ _ _ c ss q ps k ws we buffer1 _ hc hfirst hclose hss hin hq hps hk hws hwe hplain
      hbuf hrest =>
    exact specCondenses.plain _ _ _ c ss q ps k ws we buffer1 _ (hup _ _ hc) (hext _ hfirst)
      hclose hss hin hq hps hk hws hwe hplain hbuf hrest

/-- The loop of `ParseLocalBlock` with fuel above `curPos - blockStart` ends with the result
that the block-by-block condensing of the specification gives. -/
theorem condense_specCondenses (stc : cbStyledTextCtrl) (blockStart : Int) (fuel : Nat)
    (curPos scanPos : Int) (buffer : wxString) (hfuel : (curPos - blockStart).toNat < fuel) :
    specCondenses stc blockStart curPos scanPos buffer
      (ParseLocalBlock.condense stc blockStart fuel curPos scanPos buffer) := by
  induction fuel generalizing curPos scanPos buffer with
  | zero => omega
  | succ fuel ih =>
    by_cases hcur : curPos > blockStart
    · by_cases hc : ParseLocalBlock.closesBlock stc curPos = true
      · have hmemc : curPos ∈ specOffsets blockStart (curPos + 1) := by
          rw [mem_specOffsets]
          omega
        have hfirst : ∀ p ∈ specOffsets curPos (curPos + 1),
            ParseLocalBlock.closesBlock stc p = false := by
          intro p hp
          rw [mem_specOffsets] at hp
          omega
        by_cases hout : stc.BraceMatch curPos < blockStart
        · rw [condense_outside stc blockStart fuel curPos scanPos buffer hcur hc hout]
          exact specCondenses.outside _ _ _ curPos hmemc hfirst hc hout
        · have hin : blockStart ≤ stc.BraceMatch curPos := not_lt.mp hout
          have hlt := BraceMatch_lt_of_closes stc curPos hc
          rw [condense_splice stc blockStart fuel curPos scanPos buffer _ _ _ _ hcur hc rfl hin
            rfl rfl rfl]
          by_cases hhead : stc.GetCharAt (ParseLocalBlock.skipBack stc
                (stc.BraceMatch curPos - 1 - blockStart).toNat (stc.BraceMatch curPos - 1)) = ')'
              ∧ blockStart ≤ stc.BraceMatch (ParseLocalBlock.skipBack stc
                (stc.BraceMatch curPos - 1 - blockStart).toNat (stc.BraceMatch curPos - 1))
              ∧ ParseLocalBlock.isHeaderKeyword
                  (stc.GetTextRange
                    (stc.WordStartPosition (ParseLocalBlock.skipBack stc
                      (stc.BraceMatch (ParseLocalBlock.skipBack stc
                        (stc.BraceMatch curPos - 1 - blockStart).toNat
                        (stc.BraceMatch curPos - 1)) - 1 - blockStart).toNat
                      (stc.BraceMatch (ParseLocalBlock.skipBack stc
                        (stc.BraceMatch curPos - 1 - blockStart).toNat
                        (stc.BraceMatch curPos - 1)) - 1)))
                    (stc.WordEndPosition (ParseLocalBlock.skipBack stc
                      (stc.BraceMatch (ParseLocalBlock.skipBack stc
                        (stc.BraceMatch curPos - 1 - blockStart).toNat
                        (stc.BraceMatch curPos - 1)) - 1 - blockStart).toNat
                      (stc.BraceMatch (ParseLocalBlock.skipBack stc
                        (stc.BraceMatch curPos - 1 - blockStart).toNat
                        (stc.BraceMatch curPos - 1)) - 1))))
          · rw [if_pos hhead]
            obtain ⟨hparen, hpin, hkw⟩ := hhead
            have hle := header_word_le stc blockStart curPos _ _ _ _ hc rfl rfl hparen rfl rfl
            have hrest := ih (stc.WordStartPosition (ParseLocalBlock.skipBack stc
                      (stc.BraceMatch (ParseLocalBlock.skipBack stc
                        (stc.BraceMatch curPos - 1 - blockStart).toNat
                        (stc.BraceMatch curPos - 1)) - 1 - blockStart).toNat
                      (stc.BraceMatch (ParseLocalBlock.skipBack stc
                        (stc.BraceMatch curPos - 1 - blockStart).toNat
                        (stc.BraceMatch curPos - 1)) - 1)) - 1)
            by_cases hfor : stc.GetTextRange
                    (stc.WordStartPosition (ParseLocalBlock.skipBack stc
                      (stc.BraceMatch (ParseLocalBlock.skipBack stc
                        (stc.BraceMatch curPos - 1 - blockStart).toNat
                        (stc.BraceMatch curPos - 1)) - 1 - blockStart).toNat
                      (stc.BraceMatch (ParseLocalBlock.skipBack stc
                        (stc.BraceMatch curPos - 1 - blockStart).toNat
                        (stc.BraceMatch curPos - 1)) - 1)))
                    (stc.WordEndPosition (ParseLocalBlock.skipBack stc
                      (stc.BraceMatch (ParseLocalBlock.skipBack stc
                        (stc.BraceMatch curPos - 1 - blockStart).toNat
                        (stc.BraceMatch curPos - 1)) - 1 - blockStart).toNat
                      (stc.BraceMatch (ParseLocalBlock.skipBack stc
                        (stc.BraceMatch curPos - 1 - blockStart).toNat
                        (stc.BraceMatch curPos - 1)) - 1))) = ['f', 'o', 'r']
            · rw [if_pos hfor]
              exact specCondenses.headerFor _ _ _ curPos _ _ _ _ _ _ _ _ hmemc hfirst hc rfl hin
                rfl hparen rfl hpin rfl rfl rfl hfor rfl (hrest _ _ (by omega))
            · rw [if_neg hfor]
              have hword := hkw
              unfold ParseLocalBlock.isHeaderKeyword at hword
              exact specCondenses.headerIf _ _ _ curPos _ _ _ _ _ _ _ _ hmemc hfirst hc rfl hin
                rfl hparen rfl hpin rfl rfl rfl (hword.resolve_left hfor) rfl
                (hrest _ _ (by omega))
          · rw [if_neg hhead]
            refine specCondenses.plain _ _ _ curPos _ _ _ _ _ _ _ _ hmemc hfirst hc rfl hin rfl
              rfl rfl rfl rfl ?_ rfl (ih _ _ _ (by omega))
            by_contra hn
            push_neg at hn
            exact hhead ⟨hn.1, hn.2.1, hn.2.2⟩
      · have hno : ParseLocalBlock.closesBlock stc curPos = false := by
          cases hx : ParseLocalBlock.closesBlock stc curPos with
          | true => exact absurd hx hc
          | false => rfl
        rw [condense_skip_one stc blockStart fuel curPos scanPos buffer hcur hno]
        exact specCondenses_extend stc blockStart curPos scanPos buffer _
          (ih (curPos - 1) scanPos buffer (by omega)) hno
    · rw [ParseLocalBlock.condense, if_neg hcur]
      refine specCondenses.done _ _ _ ?_
      intro p hp
      rw [mem_specOffsets] at hp
      omega

/-- The loop of `ParseLocalBlock` from `curPos` down to the nearest closing brace `c` of a
block. -/
theorem condense_to_close (stc : cbStyledTextCtrl) (blockStart : Int) (fuel : Nat)
    (curPos scanPos : Int) (buffer : wxString) (c : Int)
    (hc : c ∈ specOffsets blockStart (curPos + 1))
    (hfirst : ∀ p ∈ specOffsets c (curPos + 1), ParseLocalBlock.closesBlock stc p = false)
    (hfuel : (curPos - blockStart).toNat < fuel) :
    ∃ fuel1 : Nat, (c - blockStart).toNat ≤ fuel1
      ∧ ParseLocalBlock.condense stc blockStart fuel curPos scanPos buffer
          = ParseLocalBlock.condense stc blockStart (fuel1 + 1) c scanPos buffer := by
  rw [mem_specOffsets] at hc
  have hpc : curPos - ((curPos - c).toNat : Int) = c := by
    rw [Int.toNat_of_nonneg (by omega)]
    ring
  refine ⟨fuel - 1 - (curPos - c).toNat, by omega, ?_⟩
  have e : fuel = (fuel - 1 - (curPos - c).toNat + 1) + (curPos - c).toNat := by omega
  nth_rewrite 1 [e]
  rw [condense_skip stc blockStart (curPos - c).toNat _ curPos scanPos buffer
    (by rw [hpc]; omega)
    (fun p h1 h2 => hfirst p ((mem_specOffsets c (curPos + 1) p).mpr
      ⟨by rw [hpc] at h1; exact h1, by omega⟩)), hpc]

/-- A result of the block-by-block condensing of the specification is the result of the loop of
`ParseLocalBlock` with fuel above `curPos - blockStart`. -/
theorem specCondenses_eq (stc : cbStyledTextCtrl) (blockStart curPos scanPos : Int)
    (buffer : wxString) (r : Int × wxString)
    (h : specCondenses stc blockStart curPos scanPos buffer r) :
    ∀ fuel : Nat, (curPos - blockStart).toNat < fuel →
      r = ParseLocalBlock.condense stc blockStart fuel curPos scanPos buffer := by
  induction h with
  | done curPos scanPos buffer hno =>
    intro fuel _
    rw [condense_none stc blockStart fuel curPos scanPos buffer
      (fun p h1 h2 => hno p ((mem_specOffsets blockStart (curPos + 1) p).mpr ⟨h1, by omega⟩))]
  | outside curPos scanPos buffer c hc hfirst hclose hout =>
    intro fuel hfuel
    obtain ⟨fuel1, _, e⟩ := condense_to_close stc blockStart fuel curPos scanPos buffer c hc
      hfirst hfuel
    rw [mem_specOffsets] at hc
    rw [e, condense_outside stc blockStart fuel1 c scanPos buffer (by omega) hclose hout]
  | headerFor curPos scanPos buffer c ss q ps k ws we buffer1 r hc hfirst hclose hss hin hq
      hparen hps hpin hk hws hwe hword hbuf _ ih =>
    intro fuel hfuel
    obtain ⟨fuel1, hf1, e⟩ := condense_to_close stc blockStart fuel curPos scanPos buffer c hc
      hfirst hfuel
    rw [mem_specOffsets] at hc
    have hle := header_word_le stc blockStart c ss q ps k hclose hss hq hparen hps hk
    rw [e, condense_splice stc blockStart fuel1 c scanPos buffer ss q ps k (by omega) hclose hss
      hin hq hps hk, ← hws, ← hwe,
      if_pos ⟨hparen, hpin, Or.inl hword⟩, if_pos hword, ← hbuf]
    exact ih fuel1 (by omega)
  | headerIf curPos scanPos buffer c ss q ps k ws we buffer1 r hc hfirst hclose hss hin hq
      hparen hps hpin hk hws hwe hword hbuf _ ih =>
    intro fuel hfuel
    obtain ⟨fuel1, hf1, e⟩ := condense_to_close stc blockStart fuel curPos scanPos buffer c hc
      hfirst hfuel
    rw [mem_specOffsets] at hc
    have hle := header_word_le stc blockStart c ss q ps k hclose hss hq hparen hps hk
    have hnf : stc.GetTextRange ws we ≠ ['f', 'o', 'r'] := by
      rcases hword with h | h | h <;> rw [h] <;> decide
    rw [e, condense_splice stc blockStart fuel1 c scanPos buffer ss q ps k (by omega) hclose hss
      hin hq hps hk, ← hws, ← hwe,
      if_pos ⟨hparen, hpin, Or.inr hword⟩, if_neg hnf, ← hbuf]
    exact ih fuel1 (by omega)
  | plain curPos scanPos buffer c ss q ps k ws we buffer1 r hc hfirst hclose hss hin hq hps hk
      hws hwe hplain hbuf _ ih =>
    intro fuel hfuel
    obtain ⟨fuel1, hf1, e⟩ := condense_to_close stc blockStart fuel curPos scanPos buffer c hc
      hfirst hfuel
    rw [mem_specOffsets] at hc
    have hlt := BraceMatch_lt_of_closes stc c hclose
    rw [← hss] at hlt
    have hn : ¬ (stc.GetCharAt q = ')' ∧ blockStart ≤ ps
        ∧ ParseLocalBlock.isHeaderKeyword (stc.GetTextRange ws we)) := by
      rintro ⟨a, b, d⟩
      rcases hplain with h | h | h
      · exact h a
      · omega
      · exact h d
    rw [e, condense_splice stc blockStart fuel1 c scanPos buffer ss q ps k (by omega) hclose hss
      hin hq hps hk, ← hws, ← hwe, if_neg hn, ← hbuf]
    exact ih fuel1 (by omega)

/-- C25 (amended): the header rewrite of `ParseLocalBlock`, for every editor text, body start,
caret and line end, and every number of closed blocks before the caret.  The block-by-block
condensing of the specification (`specCondenses`: going back from the caret, the nearest closed
block is spliced out; when it follows a parenthesised header in the body with the keyword `for`
the text from the end of the keyword to the closing brace is replaced by `(;;)` and the opening
brace, with the keyword `if`, `while` or `catch` by `(0)` and the opening brace, a condition
that is never true; with another word or without such a header the text up to and including
the opening brace is left as it is; and so on for the blocks before it) always has a result,
and the buffer of `ParseLocalBlock` (before the final `Trim()`) is the text from the body start
to the final scan position followed by the final buffer, for every result of it. -/
theorem ParseLocalBlock_rewrites_headers (stc : cbStyledTextCtrl)
    (blockStart pos blockEnd : Int) :
    (∃ r : Int × wxString, specCondenses stc blockStart pos blockEnd [] r)
    ∧ ∀ r : Int × wxString, specCondenses stc blockStart pos blockEnd [] r →
        ParseLocalBlock.buffer stc blockStart pos blockEnd
          = stc.GetTextRange blockStart r.1 ++ r.2 := by
  refine ⟨⟨_, condense_specCondenses stc blockStart ((pos - blockStart).toNat + 1) pos blockEnd
    [] (by omega)⟩, ?_⟩
  intro r hr
  rw [specCondenses_eq stc blockStart pos blockEnd [] r hr ((pos - blockStart).toNat + 1)
    (by omega)]
  rfl

set_option maxRecDepth 100000 in
/-- Witness of `ParseLocalBlock_rewrites_headers`: in `exSearchLoops` with the caret at the end
of the line of `int z;` three blocks are spliced out, going back from the caret: the block of
the `switch` closed at offset 111 (the header `switch (x)` is left as it is), the block of the
`while` closed at offset 83 (its header becomes `while`, `(0)` and the opening brace) and the
block of the `for` closed at offset 63 (its header becomes `for`, `(;;)` and the opening
brace); the buffer is the text of the offsets 15 to 21, up to the end of the word `for`,
followed by the final buffer. -/
theorem ParseLocalBlock_rewrites_headers_witness :
    ParseLocalBlock.buffer exSearchLoops.control 15 121 121
      = exSearchLoops.control.GetTextRange 15 21
        ++ ("\n(;;)\x7b\n\n\x7d\n  while\n(0)\x7b\n\x7d\n  switch (x) \x7b\x7d\n  int z;").toList :=
  (ParseLocalBlock_rewrites_headers exSearchLoops.control 15 121 121).2
    (21, ("\n(;;)\x7b\n\n\x7d\n  while\n(0)\x7b\n\x7d\n  switch (x) \x7b\x7d\n  int z;").toList)
    (specCondenses.plain 121 121 [] 111 98 96 94 92 87 93 "\x7d\n  int z;".toList _
      (by decide) (by decide) (by decide) (by decide) (by decide) (by decide) (by decide)
      (by decide) (by decide) (by decide) (Or.inr (Or.inr (by decide))) (by decide)
      (specCondenses.headerIf 97 99 _ 83 79 75 73 71 67 72
        "\n(0)\x7b\n\x7d\n  switch (x) \x7b\x7d\n  int z;".toList _
        (by decide) (by decide) (by decide) (by decide) (by decide) (by decide) (by decide)
        (by decide) (by decide) (by decide) (by decide) (by decide)
        (Or.inr (Or.inl (by decide))) (by decide)
        (specCondenses.headerFor 66 72 _ 63 48 44 22 20 18 21
          ("\n(;;)\x7b\n\n\x7d\n  while\n(0)\x7b\n\x7d\n  switch (x) \x7b\x7d\n  int z;").toList _
          (by decide) (by decide) (by decide) (by decide) (by decide) (by decide) (by decide)
          (by decide) (by decide) (by decide) (by decide) (by decide) (by decide) (by decide)
          (specCondenses.done 17 21 _ (by decide)))))
